import Mathlib

namespace Fsbld

/-!
# fsbld: flat file-system image builder (src/windows/fsbld-win.c)

A shallow embedding of the image builder.  Bytes and machine integers are
natural numbers; every `unsigned int` / `size_t` result is reduced modulo
`2^32` and `long` ranges over `0 .. 2^31 - 1` (the 32-bit Windows target the
source is written for: it prints `sizeof` values with `%u`).

The directory walker (`opendir`/`readdir`/`stat`) is an external collaborator.
A directory is modelled by the stream of entries `readdir` hands out; each
entry carries the outcome of the test `s.st_mode & S_IFDIR` the code makes
after `stat`, so "file" below always means "entry the code treats as a file".

The call of `stat` itself and the file-scope buffer `s` it fills are modelled
by `countLoopStat`, `populateLoopStat` and `CreateFileListStat`, which take
the directory as the host holds it and hand the buffer on from the counting
pass to the populate pass; `countLoopStat_seen`, `populateLoopStat_seen` and
`CreateFileListStat_seen` show that they are `countLoop`, `populateLoop` and
`CreateFileList` run on the directory as the test sorts its entries (`seen`),
and `main_stat_seen` shows the same for `main`.
Statements about the files of a tree as the host holds it are made on the
definitions with the call.
-/

/-- Modulus of `unsigned int` and `size_t` arithmetic. -/
def U32 : Nat := 4294967296

/-- Largest value of a `long`. -/
def LONG_MAX : Nat := 2147483647

/-- The string ".". -/
def dot : List Nat := [46]

/-- The string "..". -/
def dotdot : List Nat := [46, 46]

/-- Capacity of the `SubdirectoryName` / `ImageSubdirectoryName` arrays. -/
def SUBDIR_CAP : Nat := 512

/-- Capacity of the writer's `FilenameBuffer` array. -/
def PATH_CAP : Nat := 1024

/-- The entries `readdir` returns for one directory, in enumeration order.
`file` is an entry for which `s.st_mode & S_IFDIR` is zero, `sub` one for
which it is not; `canOpen` tells whether `opendir` on the subdirectory
succeeds and `inner` is what it then enumerates.  Where the call of `stat` is
modelled (`countLoopStat`, `seen`) the constructors say what the host holds
instead: `file` a regular file, `sub` a directory. -/
inductive Dir where
  | done : Dir
  | file (name : List Nat) (content : List Nat) (rest : Dir) : Dir
  | sub (name : List Nat) (canOpen : Bool) (inner : Dir) (rest : Dir) : Dir
  deriving DecidableEq, Repr

/-- Result of `snprintf(buf, cap, ...)`: at most `cap - 1` bytes are kept. -/
def snprintf (cap : Nat) (s : List Nat) : List Nat := s.take (cap - 1)

/-- The `while (readdir)` loop of `_CountFilesInDirectoryTree`, with the
running `TotalFileCount` and `TotalFilenameSize`.  The recursive call on a
subdirectory is inlined: its `opendir` check, then its own loop from 0, 0. -/
def countLoop (pDirectoryName : List Nat) (ImageDirectoryNameSize : Nat) :
    Dir → Nat → Nat → Except Nat (Nat × Nat)
  | .done, TotalFileCount, TotalFilenameSize => .ok (TotalFileCount, TotalFilenameSize)
  | .file name _ rest, TotalFileCount, TotalFilenameSize =>
      countLoop pDirectoryName ImageDirectoryNameSize rest
        ((TotalFileCount + 1) % U32)
        ((TotalFilenameSize + (ImageDirectoryNameSize + name.length + 1) % U32) % U32)
  | .sub name canOpen inner rest, TotalFileCount, TotalFilenameSize =>
      if name ≠ dot ∧ name ≠ dotdot then
        if (pDirectoryName.length % U32 + 1 + name.length) % U32 > SUBDIR_CAP - 1 then
          .error 1
        else if canOpen = false then
          .error 1
        else
          match countLoop (snprintf SUBDIR_CAP (pDirectoryName ++ [47] ++ name))
                  ((ImageDirectoryNameSize + name.length + 1) % U32) inner 0 0 with
          | .error Result => .error Result
          | .ok (FileCount, FilenameSize) =>
              countLoop pDirectoryName ImageDirectoryNameSize rest
                ((TotalFileCount + FileCount) % U32)
                ((TotalFilenameSize + FilenameSize) % U32)
      else
        countLoop pDirectoryName ImageDirectoryNameSize rest TotalFileCount TotalFilenameSize

/-- `_CountFilesInDirectoryTree`: `.ok (FileCount, FilenameSize)` when it
returns 0, `.error r` when it returns `r ≠ 0`.  `canOpen` is the outcome of
`opendir(pDirectoryName)` and `d` what the directory enumerates. -/
def CountFilesInDirectoryTree (pDirectoryName : List Nat) (ImageDirectoryNameSize : Nat)
    (canOpen : Bool) (d : Dir) : Except Nat (Nat × Nat) :=
  if canOpen = false then .error 1
  else countLoop pDirectoryName ImageDirectoryNameSize d 0 0

/-- The value of `s.st_mode & S_IFDIR` after `stat(name, &s)`, where `s` is
the file-scope buffer and its S_IFDIR bit was `s` before the call.  `stat
name` is the host's answer for the bare entry name, which it resolves against
the current directory of the process: `none` when the call fails, which
leaves the buffer as it was (the code ignores the return value), `some dir`
when it succeeds and reports a directory (`dir = true`) or something else. -/
def statDir (stat : List Nat → Option Bool) (s : Bool) (name : List Nat) : Bool :=
  match stat name with
  | some dir => dir
  | none => s

/-- The `while (readdir)` loop of `_CountFilesInDirectoryTree` with the call
of `stat` and the file-scope buffer `s`.  Here the entries of the directory
are what the host holds: `file` is a regular file, on which `opendir` fails,
and `sub` a directory.  The result is the return value with the totals, and
the S_IFDIR bit of `s` afterwards. -/
def countLoopStat (stat : List Nat → Option Bool) (pDirectoryName : List Nat)
    (ImageDirectoryNameSize : Nat) :
    Dir → Bool → Nat → Nat → Except Nat (Nat × Nat) × Bool
  | .done, s, TotalFileCount, TotalFilenameSize =>
      (.ok (TotalFileCount, TotalFilenameSize), s)
  | .file name _ rest, s, TotalFileCount, TotalFilenameSize =>
      if statDir stat s name = true then
        if name ≠ dot ∧ name ≠ dotdot then
          if (pDirectoryName.length % U32 + 1 + name.length) % U32 > SUBDIR_CAP - 1 then
            (.error 1, statDir stat s name)
          else
            (.error 1, statDir stat s name)
        else
          countLoopStat stat pDirectoryName ImageDirectoryNameSize rest (statDir stat s name)
            TotalFileCount TotalFilenameSize
      else
        countLoopStat stat pDirectoryName ImageDirectoryNameSize rest (statDir stat s name)
          ((TotalFileCount + 1) % U32)
          ((TotalFilenameSize + (ImageDirectoryNameSize + name.length + 1) % U32) % U32)
  | .sub name canOpen inner rest, s, TotalFileCount, TotalFilenameSize =>
      if statDir stat s name = true then
        if name ≠ dot ∧ name ≠ dotdot then
          if (pDirectoryName.length % U32 + 1 + name.length) % U32 > SUBDIR_CAP - 1 then
            (.error 1, statDir stat s name)
          else if canOpen = false then
            (.error 1, statDir stat s name)
          else
            match countLoopStat stat (snprintf SUBDIR_CAP (pDirectoryName ++ [47] ++ name))
                    ((ImageDirectoryNameSize + name.length + 1) % U32) inner
                    (statDir stat s name) 0 0 with
            | (.error Result, s1) => (.error Result, s1)
            | (.ok (FileCount, FilenameSize), s1) =>
                countLoopStat stat pDirectoryName ImageDirectoryNameSize rest s1
                  ((TotalFileCount + FileCount) % U32)
                  ((TotalFilenameSize + FilenameSize) % U32)
        else
          countLoopStat stat pDirectoryName ImageDirectoryNameSize rest (statDir stat s name)
            TotalFileCount TotalFilenameSize
      else
        countLoopStat stat pDirectoryName ImageDirectoryNameSize rest (statDir stat s name)
          ((TotalFileCount + 1) % U32)
          ((TotalFilenameSize + (ImageDirectoryNameSize + name.length + 1) % U32) % U32)

/-- `_CountFilesInDirectoryTree` with the call of `stat` and the file-scope
buffer `s`: see `countLoopStat`. -/
def CountFilesInDirectoryTreeStat (stat : List Nat → Option Bool)
    (pDirectoryName : List Nat) (ImageDirectoryNameSize : Nat) (canOpen : Bool) (d : Dir)
    (s : Bool) : Except Nat (Nat × Nat) × Bool :=
  if canOpen = false then (.error 1, s)
  else countLoopStat stat pDirectoryName ImageDirectoryNameSize d s 0 0

/-- `SFileSystemEntry` of ffsformat.h: three `unsigned int` fields. -/
structure SFileSystemEntry where
  FilenameOffset : Nat
  FileBinaryOffset : Nat
  FileBinarySize : Nat
  deriving DecidableEq, Repr

/-- The parts of ffsformat.h the builder depends on: the two `sizeof`
values and the byte images (`fwrite` of the structs) of a header carrying
a file count and of an entry. -/
structure Format where
  headerSize : Nat
  entrySize : Nat
  encHeader : Nat → List Nat
  encEntry : SFileSystemEntry → List Nat
  headerSize_pos : 0 < headerSize
  headerSize_le : headerSize ≤ LONG_MAX
  entrySize_pos : 0 < entrySize
  encHeader_length : ∀ n, (encHeader n).length = headerSize
  encEntry_length : ∀ e, (encEntry e).length = entrySize

/-- `SFileSystemBuild`.  The two buffers are lists; the cursors `pCurrEntry`
and `pCurrFilename` are element indices into them. -/
structure SFileSystemBuild where
  pRootSourceDirectory : List Nat
  pOutputBinaryFilename : List Nat
  pFilenameBuffer : Option (List Nat)
  pFileEntries : Option (List SFileSystemEntry)
  FilenameBufferSize : Nat
  FileCount : Nat
  pCurrEntry : Nat
  pCurrFilename : Nat
  FilesLeft : Nat
  CurrFilenameOffset : Nat
  FilenameStartOffset : Nat
  deriving DecidableEq, Repr

/-- The array `dst` after the elements `src` are stored at index `off` and
onwards; only used when they fit inside `dst`. -/
def blit {α : Type} (dst : List α) (off : Nat) (src : List α) : List α :=
  dst.take off ++ src ++ dst.drop (off + src.length)

/-- Bytes of `dst` after `memcpy(dst + off, src, src.length)`. -/
def memcpy (dst : List Nat) (off : Nat) (src : List Nat) : List Nat :=
  blit dst off src

/-- The file branch of the loop body of `_PopulateEntriesFromDirectoryTree`
for the entry `name`: `some (0, b)` when the branch runs to its end,
`some (1, b)` when it jumps to `Error`, `none` when it stores outside the
entry array or the filename buffer (or through a null pointer), which has no
defined behaviour. -/
def populateFile (pImageDirectoryName name : List Nat) (b : SFileSystemBuild) :
    Option (Nat × SFileSystemBuild) :=
  let ImageDirectoryNameSize := pImageDirectoryName.length % U32
  let b1 := { b with FilesLeft := (b.FilesLeft + U32 - 1) % U32 }
  if b.FilesLeft = 0 then some (1, b1)
  else
    match b1.pFileEntries, b1.pFilenameBuffer with
    | some entries, some buffer =>
        if b1.pCurrEntry < entries.length then
          let b2 := { b1 with pFileEntries := some (entries.set b1.pCurrEntry
                        { FilenameOffset := (b1.FilenameStartOffset + b1.CurrFilenameOffset) % U32
                          FileBinaryOffset := U32 - 1
                          FileBinarySize := 0 }) }
          let FilenameLength := (ImageDirectoryNameSize + name.length + 1) % U32
          if (b2.CurrFilenameOffset + FilenameLength) % U32 > b2.FilenameBufferSize then
            some (1, b2)
          else if b2.pCurrFilename + ImageDirectoryNameSize + (name.length + 1)
                    ≤ buffer.length then
            some (0, { b2 with
                pFilenameBuffer := some (memcpy
                  (memcpy buffer b2.pCurrFilename
                    (pImageDirectoryName.take ImageDirectoryNameSize))
                  (b2.pCurrFilename + ImageDirectoryNameSize) (name ++ [0]))
                pCurrFilename := b2.pCurrFilename + FilenameLength
                CurrFilenameOffset := (b2.CurrFilenameOffset + FilenameLength) % U32
                pCurrEntry := b2.pCurrEntry + 1 })
          else none
        else none
    | _, _ => none

/-- The `while (readdir)` loop of `_PopulateEntriesFromDirectoryTree`.
`some (r, b)` is a return of `r` leaving the build context `b`; `none` is a
run without defined behaviour (see `populateFile`).  The recursive call on a
subdirectory is inlined as in `countLoop`. -/
def populateLoop (pDirectoryName pImageDirectoryName : List Nat) :
    Dir → SFileSystemBuild → Option (Nat × SFileSystemBuild)
  | .done, b => some (0, b)
  | .file name _ rest, b =>
      match populateFile pImageDirectoryName name b with
      | none => none
      | some (Result, b1) =>
          if Result ≠ 0 then some (Result, b1)
          else populateLoop pDirectoryName pImageDirectoryName rest b1
  | .sub name canOpen inner rest, b =>
      if name ≠ dot ∧ name ≠ dotdot then
        if (pDirectoryName.length % U32 + 1 + name.length) % U32 > SUBDIR_CAP - 1 then
          some (1, b)
        else if (pImageDirectoryName.length % U32 + name.length + 1) % U32
                  > SUBDIR_CAP - 1 then
          some (1, b)
        else if canOpen = false then
          some (1, b)
        else
          match populateLoop (snprintf SUBDIR_CAP (pDirectoryName ++ [47] ++ name))
                  (snprintf SUBDIR_CAP (pImageDirectoryName ++ name ++ [47])) inner b with
          | none => none
          | some (Result, b1) =>
              if Result ≠ 0 then some (Result, b1)
              else populateLoop pDirectoryName pImageDirectoryName rest b1
      else
        populateLoop pDirectoryName pImageDirectoryName rest b

/-- `_PopulateEntriesFromDirectoryTree`; `canOpen` is the outcome of
`opendir(pDirectoryName)`. -/
def PopulateEntriesFromDirectoryTree (b : SFileSystemBuild)
    (pDirectoryName pImageDirectoryName : List Nat) (canOpen : Bool) (d : Dir) :
    Option (Nat × SFileSystemBuild) :=
  if canOpen = false then some (1, b)
  else populateLoop pDirectoryName pImageDirectoryName d b

/-- The C string starting at index `i` of `buf`: the bytes before the first
NUL at or after `i`. -/
def cstrAt (buf : List Nat) (i : Nat) : List Nat :=
  (buf.drop i).takeWhile (fun c => c ≠ 0)

/-- `strcmp` on two C strings given without their terminators: the sign of
the difference of the first pair of differing bytes, compared as unsigned. -/
def strcmp : List Nat → List Nat → Int
  | [], [] => 0
  | [], _ :: _ => -1
  | _ :: _, [] => 1
  | a :: as, b :: bs => if a < b then -1 else if b < a then 1 else strcmp as bs

/-- `_CompareFileEntries`.  The global `g_pFLASHBase` is the filename buffer
`buf` moved back by `base` bytes, so `g_pFLASHBase + FilenameOffset` is index
`FilenameOffset - base` of `buf` in 32-bit pointer arithmetic. -/
def CompareFileEntries (buf : List Nat) (base : Nat)
    (pEntry1 pEntry2 : SFileSystemEntry) : Int :=
  strcmp (cstrAt buf ((pEntry1.FilenameOffset + U32 - base % U32) % U32))
         (cstrAt buf ((pEntry2.FilenameOffset + U32 - base % U32) % U32))

/-- The C library services `_CreateFileList` relies on.  `heapSize` is the
number of bytes the heap can hold at once, at most the 2 GB user address
space of a 32-bit Windows process; `mallocOk n` tells whether `malloc(n)`
returns a block when `n` bytes are free; `junkByte`/`junkEntry` are what
fresh memory holds; `qsort` is any sorting routine meeting the library
contract: it permutes the array, and orders it when the comparator is a total
preorder. -/
structure Libc where
  heapSize : Nat
  heapSize_le : heapSize ≤ LONG_MAX
  mallocOk : Nat → Bool
  junkByte : Nat → Nat
  junkEntry : Nat → SFileSystemEntry
  qsort : (SFileSystemEntry → SFileSystemEntry → Int) →
    List SFileSystemEntry → List SFileSystemEntry
  qsort_perm : ∀ cmp l, (qsort cmp l).Perm l
  qsort_sorted : ∀ cmp l,
    (∀ a b, cmp a b ≤ 0 ∨ cmp b a ≤ 0) →
    (∀ a b c, cmp a b ≤ 0 → cmp b c ≤ 0 → cmp a c ≤ 0) →
    (qsort cmp l).Pairwise (fun a b => cmp a b ≤ 0)

/-- Whether `malloc(n)` returns a block when `used` bytes of the heap are
already allocated. -/
def malloc (libc : Libc) (used n : Nat) : Bool :=
  libc.mallocOk n && decide (used + n ≤ libc.heapSize)

/-- The build context at the call of `_PopulateEntriesFromDirectoryTree` in
`_CreateFileList`: the totals of the counting pass, the two freshly
allocated buffers and the initialised cursors (source lines 428-459). -/
def populateInput (fmt : Format) (libc : Libc) (TotalFileCount TotalFilenameSize : Nat)
    (b : SFileSystemBuild) : SFileSystemBuild :=
  { b with
    FileCount := TotalFileCount
    FilenameBufferSize := TotalFilenameSize
    pFilenameBuffer := some ((List.range TotalFilenameSize).map libc.junkByte)
    pFileEntries := some ((List.range
      ((fmt.entrySize * TotalFileCount) % U32 / fmt.entrySize)).map libc.junkEntry)
    CurrFilenameOffset := 0
    pCurrEntry := 0
    pCurrFilename := 0
    FilesLeft := TotalFileCount
    FilenameStartOffset := (fmt.headerSize + (TotalFileCount * fmt.entrySize) % U32) % U32 }

/-- `_CreateFileList`.  `t1` is the root directory as the counting pass
enumerates it and `t2` as the populate pass does (`open1`, `open2`: whether
`opendir` of the root succeeds in each pass); they are equal when the tree
is not modified during the build.  `malloc(n)` yields `n` bytes, that is
`n / entrySize` whole entries; `qsort` sorts the first `FileCount` entries. -/
def CreateFileList (fmt : Format) (libc : Libc) (open1 : Bool) (t1 : Dir)
    (open2 : Bool) (t2 : Dir) (b : SFileSystemBuild) :
    Option (Nat × SFileSystemBuild) :=
  match CountFilesInDirectoryTree b.pRootSourceDirectory 0 open1 t1 with
  | .error Result => some (Result, b)
  | .ok (TotalFileCount, TotalFilenameSize) =>
      let b1 := { b with FileCount := TotalFileCount, FilenameBufferSize := TotalFilenameSize }
      if malloc libc 0 TotalFilenameSize = false then some (1, b1)
      else
        let b2 := { b1 with
          pFilenameBuffer := some ((List.range TotalFilenameSize).map libc.junkByte) }
        if malloc libc TotalFilenameSize ((fmt.entrySize * TotalFileCount) % U32) = false then
          some (1, b2)
        else
          let b3 := populateInput fmt libc TotalFileCount TotalFilenameSize b
          match PopulateEntriesFromDirectoryTree b3 b3.pRootSourceDirectory [] open2 t2 with
          | none => none
          | some (Result, b4) =>
              if Result ≠ 0 then some (Result, b4)
              else if b4.FilesLeft ≠ 0 then some (1, b4)
              else
                match b4.pFileEntries, b4.pFilenameBuffer with
                | some entries, some buffer =>
                    let g_pFLASHBase :=
                      (fmt.headerSize + (b4.FileCount * fmt.entrySize) % U32) % U32
                    let sorted :=
                      libc.qsort (CompareFileEntries buffer g_pFLASHBase)
                        (entries.take b4.FileCount) ++ entries.drop b4.FileCount
                    some (0, { b4 with pFileEntries := some sorted })
                | _, _ => none

/-- The output stream `pFile`: the bytes of the file so far and the file
position. -/
structure OutFile where
  data : List Nat
  pos : Nat
  deriving DecidableEq, Repr

/-- The file operations `_CreateFileSystemImage` relies on.  `fopenOut`: the
output file opens; `accept pos len`: how many bytes of a write of `len` bytes
at position `pos` reach the file (all of them when the write succeeds);
`fseekOut`: the final seek succeeds; `fopenSrc path`: the bytes of the source
file `fopen(path, "rb")` opens, if it opens one; `fseekEnd`, `fseekSet`,
`freadOk`: the seeks and the read on that source stream succeed;
`reallocOk n`: `realloc(pBuffer, n)` returns a block. -/
structure FileOps where
  fopenOut : Bool
  accept : Nat → Nat → Nat
  fseekOut : Bool
  fopenSrc : List Nat → Option (List Nat)
  fseekEnd : List Nat → Bool
  fseekSet : List Nat → Bool
  freadOk : List Nat → Bool
  reallocOk : Nat → Bool

/-- `ftell` at file position `pos`: the position, or -1 when it does not fit
a `long`. -/
def ftell (pos : Nat) : Int := if pos ≤ LONG_MAX then (pos : Int) else -1

/-- `fwrite(bytes, bytes.length, 1, pFile)`: the item count returned and the
stream afterwards.  A request of size 0 returns 0; otherwise the bytes the
device accepts overwrite or extend the file at the current position and the
result is 1 when all were accepted. -/
def fwrite (ops : FileOps) (f : OutFile) (bytes : List Nat) : Nat × OutFile :=
  if bytes.length = 0 then (0, f)
  else
    let sent := bytes.take (ops.accept f.pos bytes.length)
    (if sent.length = bytes.length then 1 else 0,
     { data := memcpy f.data f.pos sent, pos := f.pos + sent.length })

/-- The first `size` bytes of the memory of an entry array, as `fwrite` reads
them; `none` when `size` reaches past the array. -/
def entryBytes (fmt : Format) (entries : List SFileSystemEntry) (size : Nat) :
    Option (List Nat) :=
  if size ≤ (entries.flatMap fmt.encEntry).length then
    some ((entries.flatMap fmt.encEntry).take size)
  else none

/-- What the writer's locals and the entry array look like when the file loop
stops. -/
structure LoopState where
  entries : List SFileSystemEntry
  out : OutFile
  BufferSize : Nat
  deriving DecidableEq, Repr

/-- The local `FilenameBuffer` the writer builds for the entry `e` and
passes to `fopen`: `snprintf` of the root directory, a backslash and the C
string `pFilename` found at index `FilenameOffset - FilenameBufferPos` of the
filename buffer. -/
def srcPath (pRootSourceDirectory pFilenameBuffer : List Nat) (FilenameBufferPos : Nat)
    (e : SFileSystemEntry) : List Nat :=
  let pFilename := cstrAt pFilenameBuffer
    ((e.FilenameOffset + U32 - FilenameBufferPos % U32) % U32)
  snprintf PATH_CAP (pRootSourceDirectory ++ [92] ++ pFilename)

/-- The body of the `while (FileCount--)` loop of `_CreateFileSystemImage`
for the entry `e` that `pEntry` points to, with the output stream `out` and
the read-buffer size `BufferSize`.  The result is 0 when the body runs to
`pEntry++` and 1 when it jumps to `Error`, together with the entry as the
body left it, the output stream and the read-buffer size. -/
def writeEntry (ops : FileOps) (pRootSourceDirectory pFilenameBuffer : List Nat)
    (FilenameBufferPos : Nat) (e : SFileSystemEntry) (out : OutFile) (BufferSize : Nat) :
    Nat × SFileSystemEntry × OutFile × Nat :=
  let FilenameBuffer := srcPath pRootSourceDirectory pFilenameBuffer FilenameBufferPos e
  let StartPos := ftell out.pos
  if StartPos < 0 then (1, e, out, BufferSize)
  else
    let e1 := { e with FileBinaryOffset := StartPos.toNat % U32 }
    match ops.fopenSrc FilenameBuffer with
    | none => (1, e1, out, BufferSize)
    | some content =>
        if ops.fseekEnd FilenameBuffer = false then (1, e1, out, BufferSize)
        else
          let FileSize := ftell content.length
          if FileSize < 0 then (1, e1, out, BufferSize)
          else if ops.fseekSet FilenameBuffer = false then (1, e1, out, BufferSize)
          else
            let e2 := { e1 with FileBinarySize := FileSize.toNat % U32 }
            if FileSize > 0 then
              if FileSize > (BufferSize : Int) ∧ ops.reallocOk FileSize.toNat = false then
                (1, e2, out, BufferSize)
              else
                let BufferSize1 :=
                  if FileSize > (BufferSize : Int) then FileSize.toNat else BufferSize
                if ops.freadOk FilenameBuffer = false then (1, e2, out, BufferSize1)
                else
                  let w := fwrite ops out (content.take FileSize.toNat)
                  if w.1 ≠ 1 then (1, e2, w.2, BufferSize1)
                  else (0, e2, w.2, BufferSize1)
            else (0, e2, out, BufferSize)

/-- The `while (FileCount--)` loop of `_CreateFileSystemImage`: `FileCount`
iterations are left and `pEntry` is the index of the current entry.
`some (0, st)` is normal loop exit, `some (1, st)` a jump to `Error`, `none`
an access outside the entry array. -/
def writeLoop (ops : FileOps) (pRootSourceDirectory pFilenameBuffer : List Nat)
    (FilenameBufferPos : Nat) :
    Nat → Nat → LoopState → Option (Nat × LoopState)
  | 0, _, st => some (0, st)
  | FileCount + 1, pEntry, st =>
      if h : pEntry < st.entries.length then
        let r := writeEntry ops pRootSourceDirectory pFilenameBuffer FilenameBufferPos
          (st.entries.get ⟨pEntry, h⟩) st.out st.BufferSize
        let st1 : LoopState :=
          { entries := st.entries.set pEntry r.2.1, out := r.2.2.1, BufferSize := r.2.2.2 }
        if r.1 ≠ 0 then some (1, st1)
        else writeLoop ops pRootSourceDirectory pFilenameBuffer FilenameBufferPos
          FileCount (pEntry + 1) st1
      else none

/-- Last part of `_CreateFileSystemImage` (source lines 625-756): the file
loop, then the seek back to `FileEntryPos` and the rewrite of the entry
table.  `out` is the stream after the filename buffer was written. -/
def writeFiles (fmt : Format) (ops : FileOps) (b : SFileSystemBuild)
    (buffer : List Nat) (entries : List SFileSystemEntry) (out : OutFile)
    (FileEntryPos FilenameBufferPos : Int) :
    Option (Nat × SFileSystemBuild × Option OutFile) :=
  match writeLoop ops b.pRootSourceDirectory buffer
          (FilenameBufferPos.toNat % U32) b.FileCount 0
          { entries := entries, out := out, BufferSize := 0 } with
  | none => none
  | some (r, st) =>
      let b1 := { b with pFileEntries := some st.entries }
      if r ≠ 0 then some (1, b1, some st.out)
      else if ops.fseekOut = false then some (1, b1, some st.out)
      else
        let f4 : OutFile := { st.out with pos := FileEntryPos.toNat }
        match entryBytes fmt st.entries ((fmt.entrySize * b.FileCount) % U32) with
        | none => none
        | some table2 =>
            let w5 := fwrite ops f4 table2
            if w5.1 ≠ 1 then some (1, b1, some w5.2)
            else some (0, b1, some w5.2)

/-- Middle part of `_CreateFileSystemImage` (source lines 596-623): the
provisional entry table and the filename buffer.  `out` is the stream after
the header was written. -/
def writeTables (fmt : Format) (ops : FileOps) (b : SFileSystemBuild)
    (buffer : List Nat) (entries : List SFileSystemEntry) (out : OutFile)
    (FileEntryPos : Int) : Option (Nat × SFileSystemBuild × Option OutFile) :=
  match entryBytes fmt entries ((fmt.entrySize * b.FileCount) % U32) with
  | none => none
  | some table =>
      let w2 := fwrite ops out table
      if w2.1 ≠ 1 then some (1, b, some w2.2)
      else
        let FilenameBufferPos := ftell w2.2.pos
        if FilenameBufferPos ≤ 0 then some (1, b, some w2.2)
        else if buffer.length < b.FilenameBufferSize then none
        else
          let w3 := fwrite ops w2.2 (buffer.take b.FilenameBufferSize)
          if w3.1 ≠ 1 then some (1, b, some w3.2)
          else writeFiles fmt ops b buffer entries w3.2 FileEntryPos FilenameBufferPos

/-- `_CreateFileSystemImage`.  The result is the return value, the build
context (its entry array carries the offsets and sizes stored so far) and
the output file as it is left on disk (`none` when it was never opened);
`none` is a run without defined behaviour (a null buffer, or an access
outside the entry array or the filename buffer). -/
def CreateFileSystemImage (fmt : Format) (ops : FileOps) (b : SFileSystemBuild) :
    Option (Nat × SFileSystemBuild × Option OutFile) :=
  match b.pFilenameBuffer, b.pFileEntries with
  | some buffer, some entries =>
    if ops.fopenOut = false then some (1, b, none)
    else
      let w1 := fwrite ops { data := [], pos := 0 } (fmt.encHeader b.FileCount)
      if w1.1 ≠ 1 then some (1, b, some w1.2)
      else
        let FileEntryPos := ftell w1.2.pos
        if FileEntryPos ≠ (fmt.headerSize : Int) then some (1, b, some w1.2)
        else writeTables fmt ops b buffer entries w1.2 FileEntryPos
  | _, _ => none

/-- The build context `main` hands to `_CreateFileList`: zeroed, with the
two command-line strings filled in. -/
def initBuild (root output : List Nat) : SFileSystemBuild :=
  { pRootSourceDirectory := root, pOutputBinaryFilename := output,
    pFilenameBuffer := none, pFileEntries := none, FilenameBufferSize := 0, FileCount := 0,
    pCurrEntry := 0, pCurrFilename := 0, FilesLeft := 0, CurrFilenameOffset := 0,
    FilenameStartOffset := 0 }

/-- `_ParseCommandLine`, for the command line `argv` (`argc` is its length):
the return value and the build context. -/
def ParseCommandLine (argv : List (List Nat)) (b : SFileSystemBuild) :
    Int × SFileSystemBuild :=
  if argv.length < 3 then (-1, b)
  else (0, { b with pRootSourceDirectory := argv.getD 1 [],
                    pOutputBinaryFilename := argv.getD 2 [] })

/-- `main`, for the command line `argv` (`argc` is its length).  The result
is the exit status and the output file as left on disk (`none` when it was
never opened). -/
def main (fmt : Format) (libc : Libc) (ops : FileOps) (open1 : Bool) (t1 : Dir)
    (open2 : Bool) (t2 : Dir) (argv : List (List Nat)) : Option (Nat × Option OutFile) :=
  if argv.length < 3 then some (1, none)
  else
    let FileSystemBuild := initBuild (argv.getD 1 []) (argv.getD 2 [])
    match CreateFileList fmt libc open1 t1 open2 t2 FileSystemBuild with
    | none => none
    | some (Result, b1) =>
        if Result ≠ 0 then some (1, none)
        else
          match CreateFileSystemImage fmt ops b1 with
          | none => none
          | some (Result2, _, out) =>
              if Result2 ≠ 0 then some (1, out) else some (0, out)

/-! ## Reference definitions the claims are stated against -/

/-- Number of file entries in the subtree; directory entries named "." and
".." are skipped and not entered. -/
def fileTotal : Dir → Nat
  | .done => 0
  | .file _ _ rest => 1 + fileTotal rest
  | .sub name _ inner rest =>
      if name ≠ dot ∧ name ≠ dotdot then fileTotal inner + fileTotal rest
      else fileTotal rest

/-- Sum over the files of the subtree of image-prefix length + basename
length + 1, the prefix length being `P` here and parent prefix + name
length + 1 in a subdirectory. -/
def nameTotal (P : Nat) : Dir → Nat
  | .done => 0
  | .file name _ rest => (P + name.length + 1) + nameTotal P rest
  | .sub name _ inner rest =>
      if name ≠ dot ∧ name ≠ dotdot then
        nameTotal (P + name.length + 1) inner + nameTotal P rest
      else nameTotal P rest

/-- The files of the subtree in traversal order, each with its relative path
(the names of the directories above it, each followed by '/', then the
basename; `pre` is the path of this directory) and its bytes. -/
def relFiles (pre : List Nat) : Dir → List (List Nat × List Nat)
  | .done => []
  | .file name content rest => (pre ++ name, content) :: relFiles pre rest
  | .sub name _ inner rest =>
      if name ≠ dot ∧ name ≠ dotdot then
        relFiles (pre ++ name ++ [47]) inner ++ relFiles pre rest
      else relFiles pre rest

/-- The 255-byte name of file number `i` of a large directory: 247 bytes
'a' followed by the eight base-16 digits of `i` written with the letters
'a'..'p'. -/
def bigName (i : Nat) : List Nat :=
  List.replicate 247 97 ++ (List.range 8).map (fun k => 97 + i / 16 ^ k % 16)

/-- A directory holding the `n` empty files `bigName (n-1)`, ..., `bigName 0`. -/
def manyFiles : Nat → Dir
  | 0 => .done
  | n + 1 => .file (bigName n) [] (manyFiles n)

/-- A name `readdir` can deliver in `d_name` / `d_namlen`: a C string (bytes
1..255, no NUL) whose length fits the 16-bit `d_namlen`. -/
def nameOk (name : List Nat) : Bool :=
  name.all (fun c => decide (c ≠ 0 ∧ c < 256)) && decide (name.length < 65536)

/-- Every entry name of the tree is one `readdir` can deliver. -/
def wellFormed : Dir → Bool
  | .done => true
  | .file name _ rest => nameOk name && wellFormed rest
  | .sub name _ inner rest => nameOk name && wellFormed inner && wellFormed rest

/-- The files of the subtree in traversal order, each as the pair of the
in-image name of its directory (`img` for this directory) and its basename. -/
def visits (img : List Nat) : Dir → List (List Nat × List Nat)
  | .done => []
  | .file name _ rest => (img, name) :: visits img rest
  | .sub name _ inner rest =>
      if name ≠ dot ∧ name ≠ dotdot then
        visits (img ++ name ++ [47]) inner ++ visits img rest
      else visits img rest

/-- The populate pass on a flat list of files: the file branch run once for
each (directory, basename) pair, stopping at the first failure. -/
def popFiles : List (List Nat × List Nat) → SFileSystemBuild →
    Option (Nat × SFileSystemBuild)
  | [], b => some (0, b)
  | v :: vs, b =>
      match populateFile v.1 v.2 b with
      | none => none
      | some (Result, b1) => if Result ≠ 0 then some (Result, b1) else popFiles vs b1

/-- Concatenation of the NUL-terminated paths of a list of files. -/
def blob (vs : List (List Nat × List Nat)) : List Nat :=
  vs.flatMap (fun v => v.1 ++ v.2 ++ [0])

/-- The entries the populate pass stores for a list of files when the
filename region starts at `start` and the buffer cursor is `cur`. -/
def popEntries (start : Nat) : Nat → List (List Nat × List Nat) → List SFileSystemEntry
  | _, [] => []
  | cur, v :: vs =>
      { FilenameOffset := (start + cur) % U32, FileBinaryOffset := U32 - 1,
        FileBinarySize := 0 } ::
      popEntries start ((cur + (v.1.length + v.2.length + 1)) % U32) vs

/-! ## A concrete host, used to run the model -/

/-- Little-endian bytes of a 32-bit value. -/
def le32 (n : Nat) : List Nat :=
  [n % 256, n / 256 % 256, n / 65536 % 256, n / 16777216 % 256]

/-- Modelled from the spec: ffsformat.h is not among the sources.  The spec
gives the header as signature bytes followed by an unsigned 32-bit file count
and the entry as the record {filenameOffset, fileBinaryOffset,
fileBinarySize} of unsigned 32-bit fields; the signature is taken to be the
8 bytes "FFileSys" and the byte order little-endian. -/
def ffsFormat : Format where
  headerSize := 12
  entrySize := 12
  encHeader := fun n => [70, 70, 105, 108, 101, 83, 121, 115] ++ le32 n
  encEntry := fun e => le32 e.FilenameOffset ++ le32 e.FileBinaryOffset ++ le32 e.FileBinarySize
  headerSize_pos := by decide
  headerSize_le := by decide
  entrySize_pos := by decide
  encHeader_length := fun _ => by simp [le32]
  encEntry_length := fun _ => by simp [le32]

/-- A C library whose `malloc` always succeeds, whose fresh memory holds the
byte 205, and whose `qsort` is insertion sort. -/
def stdLibc : Libc where
  heapSize := 2147483647
  heapSize_le := by decide
  mallocOk := fun _ => true
  junkByte := fun _ => 205
  junkEntry := fun _ => { FilenameOffset := 3452816845, FileBinaryOffset := 3452816845,
                          FileBinarySize := 3452816845 }
  qsort := fun cmp l => l.insertionSort (fun a b => cmp a b ≤ 0)
  qsort_perm := fun cmp l => List.perm_insertionSort (fun a b => cmp a b ≤ 0) l
  qsort_sorted := fun cmp l htot htr =>
    haveI : IsTotal SFileSystemEntry (fun a b => cmp a b ≤ 0) := ⟨htot⟩
    haveI : IsTrans SFileSystemEntry (fun a b => cmp a b ≤ 0) := ⟨htr⟩
    List.sorted_insertionSort (fun a b => cmp a b ≤ 0) l

/-- The bytes of the file a '/'-separated relative path names in a tree. -/
def lookup : Dir → List Nat → Option (List Nat)
  | .done, _ => none
  | .file name content rest, p => if p = name then some content else lookup rest p
  | .sub name _ inner rest, p =>
      if (name ++ [47]) <+: p then lookup inner (p.drop (name.length + 1))
      else lookup rest p

/-- File operations that all succeed, on a host whose files below the
directory `root` are those of the tree `t`. -/
def treeOps (root : List Nat) (t : Dir) : FileOps where
  fopenOut := true
  accept := fun _ len => len
  fseekOut := true
  fopenSrc := fun path =>
    if (root ++ [92]) <+: path then lookup t (path.drop (root.length + 1)) else none
  fseekEnd := fun _ => true
  fseekSet := fun _ => true
  freadOk := fun _ => true
  reallocOk := fun _ => true

/-- The tree of the spec's example, enumerated with the subdirectory first:
`sub/b.txt` (empty) and `a.txt` ("abc"), plus the "." and ".." entries. -/
def sampleTree : Dir :=
  .sub [46] true .done (.sub [46, 46] true .done
    (.sub [115, 117, 98] true
      (.sub [46] true .done (.sub [46, 46] true .done (.file [98, 46, 116, 120, 116] [] .done)))
      (.file [97, 46, 116, 120, 116] [97, 98, 99] .done)))

/-- The root directory name "www" and output name "o" of the sample run. -/
def sampleInit : SFileSystemBuild := initBuild [119, 119, 119] [111]

/-- The build context after one successful run of the file branch. -/
def afterFile (img name : List Nat) (E : List SFileSystemEntry) (B : List Nat)
    (b : SFileSystemBuild) : SFileSystemBuild :=
  { b with
    FilesLeft := b.FilesLeft - 1
    pFileEntries := some (blit E b.pCurrEntry
      [{ FilenameOffset := (b.FilenameStartOffset + b.CurrFilenameOffset) % U32,
         FileBinaryOffset := U32 - 1, FileBinarySize := 0 }])
    pFilenameBuffer := some (blit B b.pCurrFilename (img ++ name ++ [0]))
    pCurrFilename := b.pCurrFilename + (img.length + name.length + 1)
    CurrFilenameOffset := (b.CurrFilenameOffset + (img.length + name.length + 1)) % U32
    pCurrEntry := b.pCurrEntry + 1 }

/-- The build context after the file branch ran successfully for each file
of `vs`. -/
def afterFiles (vs : List (List Nat × List Nat)) (E : List SFileSystemEntry) (B : List Nat)
    (b : SFileSystemBuild) : SFileSystemBuild :=
  { b with
    FilesLeft := b.FilesLeft - vs.length
    pFileEntries := some (blit E b.pCurrEntry
      (popEntries b.FilenameStartOffset b.CurrFilenameOffset vs))
    pFilenameBuffer := some (blit B b.pCurrFilename (blob vs))
    pCurrFilename := b.pCurrFilename + (blob vs).length
    CurrFilenameOffset := (b.CurrFilenameOffset + (blob vs).length) % U32
    pCurrEntry := b.pCurrEntry + vs.length }

/-- The build context `_CreateFileList` leaves when it returns 0, given the
totals `C`, `S` of the counting pass and the files `vs` the populate pass
visited. -/
def listBuilt (fmt : Format) (libc : Libc) (C S : Nat) (vs : List (List Nat × List Nat))
    (b : SFileSystemBuild) : SFileSystemBuild :=
  let start := (fmt.headerSize + (C * fmt.entrySize) % U32) % U32
  let buffer := blit ((List.range S).map libc.junkByte) 0 (blob vs)
  { b with
    FileCount := C
    FilenameBufferSize := S
    pFilenameBuffer := some buffer
    pFileEntries := some (libc.qsort (CompareFileEntries buffer start) (popEntries start 0 vs))
    CurrFilenameOffset := (blob vs).length
    pCurrEntry := C
    pCurrFilename := (blob vs).length
    FilesLeft := 0
    FilenameStartOffset := start }

/-- The name an entry refers to: the C string at index
`FilenameOffset - start` (32-bit arithmetic) of the filename buffer. -/
def entryName (buf : List Nat) (start : Nat) (e : SFileSystemEntry) : List Nat :=
  cstrAt buf ((e.FilenameOffset + U32 - start % U32) % U32)

/-- Buffer offsets of the paths of `vs` when the first starts at `cur`. -/
def nameOffsets : Nat → List (List Nat × List Nat) → List Nat
  | _, [] => []
  | cur, v :: vs => cur :: nameOffsets (cur + (v.1.length + v.2.length + 1)) vs

/-- The invariant of the populate pass: both buffers are allocated with the
sizes the build context records, the entries stored so far plus `FilesLeft`
make `FileCount`, the two buffer cursors agree and lie inside the buffer, and
the recorded sizes are far enough below 2^32 for the overflow check not to
wrap. -/
def PopInv (b : SFileSystemBuild) : Prop :=
  ∃ E B, b.pFileEntries = some E ∧ b.pFilenameBuffer = some B ∧
    E.length = b.FileCount ∧ B.length = b.FilenameBufferSize ∧
    b.pCurrEntry + b.FilesLeft = b.FileCount ∧
    b.pCurrFilename = b.CurrFilenameOffset ∧
    b.CurrFilenameOffset ≤ b.FilenameBufferSize ∧
    b.FileCount < U32 ∧ b.FilenameBufferSize + 66048 ≤ U32

/-- The build context `_CreateFileList` returns for the sample tree. -/
def sampleList : SFileSystemBuild :=
  listBuilt ffsFormat stdLibc 2 16 (visits [] sampleTree) sampleInit

/-- The sample tree with `a.txt` deleted, as the populate pass finds it. -/
def shrunkTree : Dir :=
  .sub [46] true .done (.sub [46, 46] true .done
    (.sub [115, 117, 98] true
      (.sub [46] true .done (.sub [46, 46] true .done (.file [98, 46, 116, 120, 116] [] .done)))
      .done))

/-- The bytes of the source file the writer opens for an entry (empty when
none opens). -/
def srcContent (ops : FileOps) (root buffer : List Nat) (fbp : Nat)
    (e : SFileSystemEntry) : List Nat :=
  (ops.fopenSrc (srcPath root buffer fbp e)).getD []

/-- The entries `es` with the offsets and sizes the file loop gives them
when the first file is written at output position `pos`. -/
def patched (ops : FileOps) (root buffer : List Nat) (fbp : Nat) :
    Nat → List SFileSystemEntry → List SFileSystemEntry
  | _, [] => []
  | pos, e :: es =>
      { e with FileBinaryOffset := pos,
               FileBinarySize := (srcContent ops root buffer fbp e).length } ::
      patched ops root buffer fbp (pos + (srcContent ops root buffer fbp e).length) es

/-- The file data the loop appends for the entries `es`. -/
def payload (ops : FileOps) (root buffer : List Nat) (fbp : Nat)
    (es : List SFileSystemEntry) : List Nat :=
  es.flatMap (srcContent ops root buffer fbp)

/-- A whole successful build: `_CreateFileList` returns 0 with the context
`b1`, then `_CreateFileSystemImage` returns 0 leaving the context `b2` and
the output file `out`. -/
def BuildOk (fmt : Format) (libc : Libc) (ops : FileOps) (open1 open2 : Bool) (t1 t2 : Dir)
    (b b1 b2 : SFileSystemBuild) (out : Option OutFile) : Prop :=
  CreateFileList fmt libc open1 t1 open2 t2 b = some (0, b1) ∧
  CreateFileSystemImage fmt ops b1 = some (0, b2, out)

/-- The final entry table of the sample build. -/
def sampleTable : List SFileSystemEntry :=
  [{ FilenameOffset := 46, FileBinaryOffset := 52, FileBinarySize := 3 },
   { FilenameOffset := 36, FileBinaryOffset := 55, FileBinarySize := 0 }]

/-- The build context after the sample build. -/
def sampleBuilt : SFileSystemBuild := { sampleList with pFileEntries := some sampleTable }

/-- The image of the sample build. -/
def sampleImage : OutFile :=
  { data := [70, 70, 105, 108, 101, 83, 121, 115, 2, 0, 0, 0,
             46, 0, 0, 0, 52, 0, 0, 0, 3, 0, 0, 0, 36, 0, 0, 0, 55, 0, 0, 0, 0, 0, 0, 0,
             115, 117, 98, 47, 98, 46, 116, 120, 116, 0, 97, 46, 116, 120, 116, 0,
             97, 98, 99],
    pos := 36 }

/-- A root directory name of 1000 bytes 'r'. -/
def longRoot : List Nat := List.replicate 1000 114

/-- A root directory holding two files: 22 bytes 'x' (content: the byte 1)
and 30 bytes 'x' (content: the byte 2). -/
def longTree : Dir :=
  .file (List.replicate 22 120) [1] (.file (List.replicate 30 120) [2] .done)

/-- The build context `_CreateFileList` returns for `longTree`. -/
def longList : SFileSystemBuild :=
  listBuilt ffsFormat stdLibc 2 54 (visits [] longTree) (initBuild longRoot [111])

/-- The final entry table of the build of `longTree` below `longRoot`. -/
def longTable : List SFileSystemEntry :=
  [{ FilenameOffset := 36, FileBinaryOffset := 90, FileBinarySize := 1 },
   { FilenameOffset := 59, FileBinaryOffset := 91, FileBinarySize := 1 }]

/-- The image of the build of `longTree` below `longRoot`. -/
def longImage : OutFile :=
  { data := [70, 70, 105, 108, 101, 83, 121, 115, 2, 0, 0, 0,
             36, 0, 0, 0, 90, 0, 0, 0, 1, 0, 0, 0, 59, 0, 0, 0, 91, 0, 0, 0, 1, 0, 0, 0]
            ++ List.replicate 22 120 ++ [0] ++ List.replicate 30 120 ++ [0] ++ [1, 1],
    pos := 36 }

/-- Every subdirectory the traversal reaches below the host directory `host`
can be opened and has a composed host path that passes the length check. -/
def walkable (host : List Nat) : Dir → Bool
  | .done => true
  | .file _ _ rest => walkable host rest
  | .sub name canOpen inner rest =>
      if name ≠ dot ∧ name ≠ dotdot then
        decide ((host.length % U32 + 1 + name.length) % U32 ≤ SUBDIR_CAP - 1) && canOpen &&
          walkable (snprintf SUBDIR_CAP (host ++ [47] ++ name)) inner && walkable host rest
      else walkable host rest

/-- The first entries of the array are those the populate pass stores for
the files `ws`. -/
def Stored (b : SFileSystemBuild) (ws : List (List Nat × List Nat)) : Prop :=
  ∃ E, b.pFileEntries = some E ∧ ws.length ≤ E.length ∧
    E.take ws.length = popEntries b.FilenameStartOffset 0 ws

/-- State of a populate pass that has so far run the file branch to its end
for the files `ws`. -/
def Visited (b : SFileSystemBuild) (ws : List (List Nat × List Nat)) : Prop :=
  Stored b ws ∧ b.pCurrEntry = ws.length ∧ b.CurrFilenameOffset = (blob ws).length % U32

/-- The build context the populate pass leaves for the sample tree. -/
def samplePopulated : SFileSystemBuild :=
  { sampleList with
    pFileEntries := some
      [{ FilenameOffset := 36, FileBinaryOffset := 4294967295, FileBinarySize := 0 },
       { FilenameOffset := 46, FileBinaryOffset := 4294967295, FileBinarySize := 0 }] }

/-- A root directory path of 1000 bytes: four components of 250, 250, 250 and
247 bytes 'r' separated by backslashes. -/
def deepRoot : List Nat :=
  List.replicate 250 114 ++ [92] ++ List.replicate 250 114 ++ [92] ++
    List.replicate 250 114 ++ [92] ++ List.replicate 247 114

/-- The build context `_CreateFileList` returns for `longTree` below
`deepRoot`. -/
def deepList : SFileSystemBuild :=
  listBuilt ffsFormat stdLibc 2 54 (visits [] longTree) (initBuild deepRoot [111])

/-- The tree of the spec's example, enumerated with the file first: `a.txt`
("abc") and `sub/b.txt` (empty), plus the "." and ".." entries. -/
def exampleTree : Dir :=
  .sub [46] true .done (.sub [46, 46] true .done
    (.file [97, 46, 116, 120, 116] [97, 98, 99]
      (.sub [115, 117, 98] true
        (.sub [46] true .done (.sub [46, 46] true .done (.file [98, 46, 116, 120, 116] [] .done)))
        .done)))

/-- The build context `_CreateFileList` returns for `exampleTree`. -/
def exampleList : SFileSystemBuild :=
  listBuilt ffsFormat stdLibc 2 16 (visits [] exampleTree) sampleInit

/-- The final entry table of the build of `exampleTree`. -/
def exampleTable : List SFileSystemEntry :=
  [{ FilenameOffset := 36, FileBinaryOffset := 52, FileBinarySize := 3 },
   { FilenameOffset := 42, FileBinaryOffset := 55, FileBinarySize := 0 }]

/-- The build context after the build of `exampleTree`. -/
def exampleBuilt : SFileSystemBuild := { exampleList with pFileEntries := some exampleTable }

/-- The image of the build of `exampleTree`. -/
def exampleImage : OutFile :=
  { data := [70, 70, 105, 108, 101, 83, 121, 115, 2, 0, 0, 0,
             36, 0, 0, 0, 52, 0, 0, 0, 3, 0, 0, 0, 42, 0, 0, 0, 55, 0, 0, 0, 0, 0, 0, 0,
             97, 46, 116, 120, 116, 0, 115, 117, 98, 47, 98, 46, 116, 120, 116, 0,
             97, 98, 99],
    pos := 36 }

/-- The directory `d` of the host as the test `s.st_mode & S_IFDIR` sorts its
entries during a traversal that starts with the S_IFDIR bit `s`, and the bit
at the end: an entry is `sub` when the test finds the bit set and `file` when
not.  A regular file taken for a directory is a `sub` that cannot be opened;
a directory taken for a file is a `file`, and nothing inside it is visited. -/
def seen (stat : List Nat → Option Bool) : Dir → Bool → Dir × Bool
  | .done, s => (.done, s)
  | .file name content rest, s =>
      if statDir stat s name = true then
        (.sub name false .done (seen stat rest (statDir stat s name)).1,
         (seen stat rest (statDir stat s name)).2)
      else
        (.file name content (seen stat rest (statDir stat s name)).1,
         (seen stat rest (statDir stat s name)).2)
  | .sub name canOpen inner rest, s =>
      if statDir stat s name = true then
        if name ≠ dot ∧ name ≠ dotdot then
          (.sub name canOpen (seen stat inner (statDir stat s name)).1
             (seen stat rest (seen stat inner (statDir stat s name)).2).1,
           (seen stat rest (seen stat inner (statDir stat s name)).2).2)
        else
          (.sub name canOpen inner (seen stat rest (statDir stat s name)).1,
           (seen stat rest (statDir stat s name)).2)
      else
        (.file name [] (seen stat rest (statDir stat s name)).1,
         (seen stat rest (statDir stat s name)).2)

/-- Every subdirectory entry of the tree other than "." and ".." has a
composed host path (parent path, separator, name) of at most 511 bytes and
can be opened, and so for the subdirectories inside it; `parent` is the host
path of this directory. -/
def pathsFit (parent : List Nat) : Dir → Bool
  | .done => true
  | .file _ _ rest => pathsFit parent rest
  | .sub name canOpen inner rest =>
      if name ≠ dot ∧ name ≠ dotdot then
        decide (parent.length + 1 + name.length ≤ 511) && canOpen &&
          pathsFit (parent ++ [47] ++ name) inner && pathsFit parent rest
      else pathsFit parent rest

/-- The root directory of a drive (it has no "." and ".." entries) that
holds the file `a.txt` and the directory `lib`, which is empty. -/
def driveTree : Dir :=
  .file [97, 46, 116, 120, 116] [97, 98, 99]
    (.sub [108, 105, 98] true (.sub [46] true .done (.sub [46, 46] true .done .done)) .done)

/-- The answers of `stat` in a current directory that holds a directory
`lib` and no entry named `a.txt`. -/
def cwdStat (name : List Nat) : Option Bool :=
  if name = dot ∨ name = dotdot ∨ name = [108, 105, 98] then some true else none

/-- The answers of `stat` when the current directory is the root directory
of the example: it holds the file `a.txt` and the directory `sub`, and no
entry named `b.txt`. -/
def rootStat (name : List Nat) : Option Bool :=
  if name = dot ∨ name = dotdot ∨ name = [115, 117, 98] then some true
  else if name = [97, 46, 116, 120, 116] then some false
  else none

/-- Whether `stat` succeeds on the first entry of the directory. -/
def firstStat (stat : List Nat → Option Bool) : Dir → Bool
  | .done => true
  | .file name _ _ => (stat name).isSome
  | .sub name _ _ _ => (stat name).isSome

/-- The answers of `stat` in a current directory that holds the files `a.txt`
and `b.txt` and the directory `sub`. -/
def knownStat (name : List Nat) : Option Bool :=
  if name = dot ∨ name = dotdot ∨ name = [115, 117, 98] then some true
  else if name = [97, 46, 116, 120, 116] ∨ name = [98, 46, 116, 120, 116] then some false
  else none

/-- File operations on a host that holds `a.txt` ("abc") below the directory
"www" and nothing else: `sub/b.txt` has gone. -/
def lostOps : FileOps :=
  treeOps [119, 119, 119] (.file [97, 46, 116, 120, 116] [97, 98, 99] .done)

/-- The state in which the file loop of the sample build stops on `lostOps`:
`a.txt` is written, `sub/b.txt` does not open. -/
def abortState : LoopState :=
  { entries := [{ FilenameOffset := 46, FileBinaryOffset := 52, FileBinarySize := 3 },
                { FilenameOffset := 36, FileBinaryOffset := 55, FileBinarySize := 0 }],
    out := { data := [70, 70, 105, 108, 101, 83, 121, 115, 2, 0, 0, 0,
               46, 0, 0, 0, 255, 255, 255, 255, 0, 0, 0, 0,
               36, 0, 0, 0, 255, 255, 255, 255, 0, 0, 0, 0,
               115, 117, 98, 47, 98, 46, 116, 120, 116, 0, 97, 46, 116, 120, 116, 0,
               97, 98, 99],
             pos := 55 },
    BufferSize := 3 }

/-- A root directory without files: ".", ".." and an empty subdirectory "d"
(which holds "." and ".." only). -/
def bareTree : Dir :=
  .sub [46] true .done (.sub [46, 46] true .done
    (.sub [100] true (.sub [46] true .done (.sub [46, 46] true .done .done)) .done))

/-- A C library like `stdLibc` whose `malloc(0)` returns a null pointer. -/
def strictLibc : Libc :=
  { stdLibc with mallocOk := fun n => decide (n ≠ 0) }

/-- The `while (readdir)` loop of `_PopulateEntriesFromDirectoryTree` with the
call of `stat` and the file-scope buffer `s` (source lines 279-280), as
`countLoopStat` has them for the counting pass: the entries of the directory
are what the host holds, `file` a regular file, on which `opendir` fails, and
`sub` a directory.  An entry goes through the directory branch when the
S_IFDIR bit of `s` is set after the call and through the file branch when
not.  The result is that of `populateLoop`, and the bit of `s` afterwards. -/
def populateLoopStat (stat : List Nat → Option Bool)
    (pDirectoryName pImageDirectoryName : List Nat) :
    Dir → Bool → SFileSystemBuild → Option (Nat × SFileSystemBuild) × Bool
  | .done, s, b => (some (0, b), s)
  | .file name _ rest, s, b =>
      if statDir stat s name = true then
        if name ≠ dot ∧ name ≠ dotdot then
          if (pDirectoryName.length % U32 + 1 + name.length) % U32 > SUBDIR_CAP - 1 then
            (some (1, b), statDir stat s name)
          else if (pImageDirectoryName.length % U32 + name.length + 1) % U32
                    > SUBDIR_CAP - 1 then
            (some (1, b), statDir stat s name)
          else
            (some (1, b), statDir stat s name)
        else
          populateLoopStat stat pDirectoryName pImageDirectoryName rest
            (statDir stat s name) b
      else
        match populateFile pImageDirectoryName name b with
        | none => (none, statDir stat s name)
        | some (Result, b1) =>
            if Result ≠ 0 then (some (Result, b1), statDir stat s name)
            else
              populateLoopStat stat pDirectoryName pImageDirectoryName rest
                (statDir stat s name) b1
  | .sub name canOpen inner rest, s, b =>
      if statDir stat s name = true then
        if name ≠ dot ∧ name ≠ dotdot then
          if (pDirectoryName.length % U32 + 1 + name.length) % U32 > SUBDIR_CAP - 1 then
            (some (1, b), statDir stat s name)
          else if (pImageDirectoryName.length % U32 + name.length + 1) % U32
                    > SUBDIR_CAP - 1 then
            (some (1, b), statDir stat s name)
          else if canOpen = false then
            (some (1, b), statDir stat s name)
          else
            match populateLoopStat stat (snprintf SUBDIR_CAP (pDirectoryName ++ [47] ++ name))
                    (snprintf SUBDIR_CAP (pImageDirectoryName ++ name ++ [47])) inner
                    (statDir stat s name) b with
            | (none, s1) => (none, s1)
            | (some (Result, b1), s1) =>
                if Result ≠ 0 then (some (Result, b1), s1)
                else populateLoopStat stat pDirectoryName pImageDirectoryName rest s1 b1
        else
          populateLoopStat stat pDirectoryName pImageDirectoryName rest
            (statDir stat s name) b
      else
        match populateFile pImageDirectoryName name b with
        | none => (none, statDir stat s name)
        | some (Result, b1) =>
            if Result ≠ 0 then (some (Result, b1), statDir stat s name)
            else
              populateLoopStat stat pDirectoryName pImageDirectoryName rest
                (statDir stat s name) b1

/-- `_PopulateEntriesFromDirectoryTree` with the call of `stat` and the
file-scope buffer `s`: see `populateLoopStat`. -/
def PopulateEntriesFromDirectoryTreeStat (stat : List Nat → Option Bool)
    (b : SFileSystemBuild) (pDirectoryName pImageDirectoryName : List Nat)
    (canOpen : Bool) (d : Dir) (s : Bool) : Option (Nat × SFileSystemBuild) × Bool :=
  if canOpen = false then (some (1, b), s)
  else populateLoopStat stat pDirectoryName pImageDirectoryName d s b

/-- `_CreateFileList` with the calls of `stat`: the counting pass starts with
the buffer `s` and the populate pass with the buffer as the counting pass
left it.  `t1` and `t2` are the root directory as the host holds it during
the counting pass and during the populate pass. -/
def CreateFileListStat (stat : List Nat → Option Bool) (fmt : Format) (libc : Libc)
    (open1 : Bool) (t1 : Dir) (open2 : Bool) (t2 : Dir) (b : SFileSystemBuild) (s : Bool) :
    Option (Nat × SFileSystemBuild) × Bool :=
  match CountFilesInDirectoryTreeStat stat b.pRootSourceDirectory 0 open1 t1 s with
  | (.error Result, s1) => (some (Result, b), s1)
  | (.ok (TotalFileCount, TotalFilenameSize), s1) =>
      let b1 := { b with FileCount := TotalFileCount, FilenameBufferSize := TotalFilenameSize }
      if malloc libc 0 TotalFilenameSize = false then (some (1, b1), s1)
      else
        let b2 := { b1 with
          pFilenameBuffer := some ((List.range TotalFilenameSize).map libc.junkByte) }
        if malloc libc TotalFilenameSize ((fmt.entrySize * TotalFileCount) % U32) = false then
          (some (1, b2), s1)
        else
          let b3 := populateInput fmt libc TotalFileCount TotalFilenameSize b
          match PopulateEntriesFromDirectoryTreeStat stat b3 b3.pRootSourceDirectory []
                  open2 t2 s1 with
          | (none, s2) => (none, s2)
          | (some (Result, b4), s2) =>
              if Result ≠ 0 then (some (Result, b4), s2)
              else if b4.FilesLeft ≠ 0 then (some (1, b4), s2)
              else
                match b4.pFileEntries, b4.pFilenameBuffer with
                | some entries, some buffer =>
                    let g_pFLASHBase :=
                      (fmt.headerSize + (b4.FileCount * fmt.entrySize) % U32) % U32
                    let sorted :=
                      libc.qsort (CompareFileEntries buffer g_pFLASHBase)
                        (entries.take b4.FileCount) ++ entries.drop b4.FileCount
                    (some (0, { b4 with pFileEntries := some sorted }), s2)
                | _, _ => (none, s2)

/-- A root directory that holds the regular file `g` (content: the byte 7)
and the directory `q`, which is empty, with the "." and ".." entries. -/
def mixedTree : Dir :=
  .sub [46] true .done (.sub [46, 46] true .done
    (.file [103] [7]
      (.sub [113] true (.sub [46] true .done (.sub [46, 46] true .done .done)) .done)))

/-- The answers of `stat` in a current directory that holds a regular file
`g` and no entry named `q`. -/
def gStat (name : List Nat) : Option Bool :=
  if name = dot ∨ name = dotdot then some true
  else if name = [103] then some false
  else none

/-- The build context `_CreateFileList` leaves for `mixedTree` when the
process runs in the current directory of `gStat`. -/
def mixedList : SFileSystemBuild :=
  listBuilt ffsFormat stdLibc 2 4 [([], [103]), ([], [113])] sampleInit

/-- A root directory holding two files: 22 bytes 'x' (content: the byte 1)
and 30 bytes 'x', which is empty. -/
def hollowTree : Dir :=
  .file (List.replicate 22 120) [1] (.file (List.replicate 30 120) [] .done)

/-- The files at which a run of the populate loop reaches the store of the
entry (`pCurrEntry->FilenameOffset = ...`, source lines 350-353), in order:
the file branch reaches it unless it leaves at `0 == FilesLeft--`, also
when it then fails the filename-buffer check.  Each file is given by the
`pImageDirectoryName` of the call and the name of the entry. -/
def populateLoopFiles (pDirectoryName pImageDirectoryName : List Nat) :
    Dir → SFileSystemBuild → List (List Nat × List Nat)
  | .done, _ => []
  | .file name _ rest, b =>
      if b.FilesLeft = 0 then []
      else
        match populateFile pImageDirectoryName name b with
        | none => [(pImageDirectoryName, name)]
        | some (Result, b1) =>
            if Result ≠ 0 then [(pImageDirectoryName, name)]
            else
              (pImageDirectoryName, name) ::
                populateLoopFiles pDirectoryName pImageDirectoryName rest b1
  | .sub name canOpen inner rest, b =>
      if name ≠ dot ∧ name ≠ dotdot then
        if (pDirectoryName.length % U32 + 1 + name.length) % U32 > SUBDIR_CAP - 1 then []
        else if (pImageDirectoryName.length % U32 + name.length + 1) % U32
                  > SUBDIR_CAP - 1 then []
        else if canOpen = false then []
        else
          match populateLoop (snprintf SUBDIR_CAP (pDirectoryName ++ [47] ++ name))
                  (snprintf SUBDIR_CAP (pImageDirectoryName ++ name ++ [47])) inner b with
          | none =>
              populateLoopFiles (snprintf SUBDIR_CAP (pDirectoryName ++ [47] ++ name))
                (snprintf SUBDIR_CAP (pImageDirectoryName ++ name ++ [47])) inner b
          | some (Result, b1) =>
              if Result ≠ 0 then
                populateLoopFiles (snprintf SUBDIR_CAP (pDirectoryName ++ [47] ++ name))
                  (snprintf SUBDIR_CAP (pImageDirectoryName ++ name ++ [47])) inner b
              else
                populateLoopFiles (snprintf SUBDIR_CAP (pDirectoryName ++ [47] ++ name))
                  (snprintf SUBDIR_CAP (pImageDirectoryName ++ name ++ [47])) inner b
                  ++ populateLoopFiles pDirectoryName pImageDirectoryName rest b1
      else
        populateLoopFiles pDirectoryName pImageDirectoryName rest b

/-- The files at which a call of `_PopulateEntriesFromDirectoryTree` reaches
the store of the entry: see `populateLoopFiles`. -/
def populateFiles (b : SFileSystemBuild) (pDirectoryName pImageDirectoryName : List Nat)
    (canOpen : Bool) (d : Dir) : List (List Nat × List Nat) :=
  if canOpen = false then []
  else populateLoopFiles pDirectoryName pImageDirectoryName d b

/-- The build context the populate pass leaves for the sample tree when the
counting pass had found 12 filename bytes: `sub/b.txt` is stored whole, the
entry of `a.txt` is stored at index 1 and the filename-buffer check then
fails. -/
def cutPopulated : SFileSystemBuild :=
  { pRootSourceDirectory := [119, 119, 119], pOutputBinaryFilename := [111],
    pFilenameBuffer := some [115, 117, 98, 47, 98, 46, 116, 120, 116, 0, 205, 205],
    pFileEntries := some
      [{ FilenameOffset := 36, FileBinaryOffset := 4294967295, FileBinarySize := 0 },
       { FilenameOffset := 46, FileBinaryOffset := 4294967295, FileBinarySize := 0 }],
    FilenameBufferSize := 12, FileCount := 2, pCurrEntry := 1, pCurrFilename := 10,
    FilesLeft := 0, CurrFilenameOffset := 10, FilenameStartOffset := 36 }

/-- File operations on a host that holds `sub/b.txt` (two bytes 7) below
the directory "www" and nothing else: `a.txt` has gone. -/
def firstLostOps : FileOps :=
  treeOps [119, 119, 119]
    (.sub [115, 117, 98] true (.file [98, 46, 116, 120, 116] [7, 7] .done) .done)

/-- The state in which the file loop of the sample build stops on
`firstLostOps`: `a.txt`, the first entry, does not open; nothing was appended
to the output file and the entry of `sub/b.txt` is as it was. -/
def firstAbortState : LoopState :=
  { entries := [{ FilenameOffset := 46, FileBinaryOffset := 52, FileBinarySize := 0 },
                { FilenameOffset := 36, FileBinaryOffset := 4294967295, FileBinarySize := 0 }],
    out := { data := [70, 70, 105, 108, 101, 83, 121, 115, 2, 0, 0, 0,
               46, 0, 0, 0, 255, 255, 255, 255, 0, 0, 0, 0,
               36, 0, 0, 0, 255, 255, 255, 255, 0, 0, 0, 0,
               115, 117, 98, 47, 98, 46, 116, 120, 116, 0, 97, 46, 116, 120, 116, 0],
             pos := 52 },
    BufferSize := 0 }

/-- `main` with the calls of `stat`: `_CreateFileList` runs with the
file-scope buffer `s` zero-initialised, as at program start. -/
def mainStat (stat : List Nat → Option Bool) (fmt : Format) (libc : Libc) (ops : FileOps)
    (open1 : Bool) (t1 : Dir) (open2 : Bool) (t2 : Dir) (argv : List (List Nat)) :
    Option (Nat × Option OutFile) :=
  if argv.length < 3 then some (1, none)
  else
    let FileSystemBuild := initBuild (argv.getD 1 []) (argv.getD 2 [])
    match (CreateFileListStat stat fmt libc open1 t1 open2 t2 FileSystemBuild false).1 with
    | none => none
    | some (Result, b1) =>
        if Result ≠ 0 then some (1, none)
        else
          match CreateFileSystemImage fmt ops b1 with
          | none => none
          | some (Result2, _, out) =>
              if Result2 ≠ 0 then some (1, out) else some (0, out)

/-! ## The counting pass -/

theorem length_bigName (i : Nat) : (bigName i).length = 255 := by
  simp only [bigName, List.length_append, List.length_replicate, List.length_map,
    List.length_range]

theorem fileTotal_manyFiles (n : Nat) : fileTotal (manyFiles n) = n := by
  induction n with
  | zero => rfl
  | succ n ih => simp [manyFiles, fileTotal, ih]; omega

theorem nameTotal_manyFiles (P n : Nat) :
    nameTotal P (manyFiles n) = n * (P + 256) := by
  induction n with
  | zero => simp [manyFiles, nameTotal]
  | succ n ih => simp only [manyFiles, nameTotal, ih, length_bigName]; ring

theorem countLoop_manyFiles (dir : List Nat) (P : Nat) (n : Nat) :
    ∀ c s, ∃ c1 s1, countLoop dir P (manyFiles n) c s = .ok (c1, s1) := by
  induction n with
  | zero => intro c s; exact ⟨c, s, rfl⟩
  | succ n ih => intro c s; simp only [manyFiles, countLoop]; exact ih _ _

theorem nameTotal_modEq (d : Dir) : ∀ P Q : Nat, P % U32 = Q % U32 →
    nameTotal P d % U32 = nameTotal Q d % U32 := by
  induction d with
  | done => intro P Q _; rfl
  | file name content rest ih =>
      intro P Q h
      simp only [nameTotal]
      have h1 := ih P Q h
      simp only [U32] at *
      omega
  | sub name canOpen inner rest ihi ihr =>
      intro P Q h
      simp only [nameTotal]
      have h1 := ihr P Q h
      split
      · have h2 := ihi (P + name.length + 1) (Q + name.length + 1)
          (by simp only [U32] at *; omega)
        simp only [U32] at *
        omega
      · exact h1

/-- What the counting loop returns when it returns 0: the running totals
plus the totals of the remaining entries, in 32-bit arithmetic. -/
theorem countLoop_ok (d : Dir) : ∀ (dir : List Nat) (P c s c1 s1 : Nat),
    c < U32 → s < U32 → countLoop dir P d c s = .ok (c1, s1) →
    c1 = (c + fileTotal d) % U32 ∧ s1 = (s + nameTotal P d) % U32 := by
  induction d with
  | done =>
      intro dir P c s c1 s1 hc hs h
      simp only [countLoop, Except.ok.injEq, Prod.mk.injEq] at h
      simp only [fileTotal, nameTotal, Nat.add_zero]
      rw [Nat.mod_eq_of_lt hc, Nat.mod_eq_of_lt hs]
      exact ⟨h.1.symm, h.2.symm⟩
  | file name content rest ih =>
      intro dir P c s c1 s1 hc hs h
      simp only [countLoop] at h
      have hU : 0 < U32 := by decide
      obtain ⟨h1, h2⟩ := ih dir P _ _ c1 s1 (Nat.mod_lt _ hU) (Nat.mod_lt _ hU) h
      simp only [fileTotal, nameTotal]
      subst h1; subst h2
      simp only [U32] at *
      constructor <;> omega
  | sub name canOpen inner rest ihi ihr =>
      intro dir P c s c1 s1 hc hs h
      simp only [countLoop] at h
      simp only [fileTotal, nameTotal]
      have hU : 0 < U32 := by decide
      split at h
      · rename_i hn
        rw [if_pos hn, if_pos hn]
        split at h
        · cases h
        · split at h
          · cases h
          · split at h
            · cases h
            · rename_i fc fs heq
              obtain ⟨h1, h2⟩ := ihi _ _ 0 0 fc fs hU hU heq
              obtain ⟨h3, h4⟩ := ihr dir P _ _ c1 s1 (Nat.mod_lt _ hU) (Nat.mod_lt _ hU) h
              have h5 := nameTotal_modEq inner ((P + name.length + 1) % U32)
                (P + name.length + 1) (Nat.mod_mod _ _)
              subst h1; subst h2; subst h3; subst h4
              simp only [U32] at *
              constructor <;> omega
      · rename_i hn
        rw [if_neg hn, if_neg hn]
        exact ihr dir P c s c1 s1 hc hs h

/-- Return value of the counting pass, in 32-bit arithmetic. -/
theorem count_ok_mod (dir : List Nat) (P : Nat) (canOpen : Bool) (d : Dir) (c s : Nat)
    (h : CountFilesInDirectoryTree dir P canOpen d = .ok (c, s)) :
    c = fileTotal d % U32 ∧ s = nameTotal P d % U32 := by
  unfold CountFilesInDirectoryTree at h
  split at h
  · cases h
  · have := countLoop_ok d dir P 0 0 c s (by decide) (by decide) h
    simpa using this

/-! ## Array stores -/

theorem blit_nil {α : Type} (l : List α) (i : Nat) : blit l i [] = l := by
  simp [blit]

theorem length_blit {α : Type} (l : List α) (i : Nat) (xs : List α)
    (h : i + xs.length ≤ l.length) : (blit l i xs).length = l.length := by
  simp only [blit, List.length_append, List.length_take, List.length_drop]
  omega

theorem blit_blit {α : Type} (l : List α) (i : Nat) (xs ys : List α)
    (h : i ≤ l.length) :
    blit (blit l i xs) (i + xs.length) ys = blit l i (xs ++ ys) := by
  have h1 : (l.take i ++ xs).length = i + xs.length := by
    simp only [List.length_append, List.length_take]; omega
  have h2 : blit l i xs = (l.take i ++ xs) ++ l.drop (i + xs.length) := rfl
  rw [h2]
  unfold blit
  rw [← h1, List.take_left, List.drop_append, List.drop_drop]
  simp only [List.length_append, List.length_take, List.append_assoc]
  congr 3
  rw [Nat.min_eq_left h]
  congr 1
  omega

theorem blit_zero_full {α : Type} (l xs : List α) (h : xs.length = l.length) :
    blit l 0 xs = xs := by
  simp [blit, h]

theorem set_eq_blit {α : Type} (l : List α) (i : Nat) (x : α) (h : i < l.length) :
    l.set i x = blit l i [x] := by
  induction l generalizing i with
  | nil => simp at h
  | cons a l ih =>
      cases i with
      | zero => simp [blit]
      | succ i =>
          have := ih i (by simpa using h)
          simp only [List.set_cons_succ, this, blit, List.take_succ_cons, List.length_singleton,
            List.cons_append, List.drop_succ_cons]

/-! ## The populate pass -/

theorem populateFile_ok (img name : List Nat) (b b1 : SFileSystemBuild)
    (E : List SFileSystemEntry) (B : List Nat)
    (hE : b.pFileEntries = some E) (hB : b.pFilenameBuffer = some B)
    (hi : img.length ≤ 511) (hn : name.length < 65536) (hF : b.FilesLeft < U32)
    (h : populateFile img name b = some (0, b1)) :
    b.FilesLeft ≠ 0 ∧ b.pCurrEntry < E.length ∧
    b.pCurrFilename + (img.length + name.length + 1) ≤ B.length ∧
    (b.CurrFilenameOffset + (img.length + name.length + 1)) % U32 ≤ b.FilenameBufferSize ∧
    b1 = afterFile img name E B b := by
  have hi1 : img.length % U32 = img.length := Nat.mod_eq_of_lt (by simp only [U32]; omega)
  have hl : (img.length + name.length + 1) % U32 = img.length + name.length + 1 :=
    Nat.mod_eq_of_lt (by simp only [U32]; omega)
  unfold populateFile at h
  simp only [hE, hB, hi1, hl] at h
  split at h
  · simp at h
  · rename_i hne
    split at h
    · rename_i hlt
      split at h
      · simp at h
      · rename_i hck
        split at h
        · rename_i hfit
          simp only [Option.some.injEq, Prod.mk.injEq, true_and] at h
          refine ⟨hne, hlt, by omega, by omega, ?_⟩
          subst h
          have hfl : (b.FilesLeft + U32 - 1) % U32 = b.FilesLeft - 1 := by
            simp only [U32] at *; omega
          simp only [afterFile, memcpy, hfl, List.take_length]
          rw [blit_blit _ _ _ _ (by omega), set_eq_blit _ _ _ hlt]
          simp [List.append_assoc]
        · simp at h
    · simp at h

theorem blob_cons (v : List Nat × List Nat) (vs : List (List Nat × List Nat)) :
    blob (v :: vs) = (v.1 ++ v.2 ++ [0]) ++ blob vs := by
  simp [blob]

theorem blob_append (l1 l2 : List (List Nat × List Nat)) :
    blob (l1 ++ l2) = blob l1 ++ blob l2 := by
  simp [blob]

theorem length_popEntries (start : Nat) (vs : List (List Nat × List Nat)) :
    ∀ cur, (popEntries start cur vs).length = vs.length := by
  induction vs with
  | nil => intro cur; rfl
  | cons v vs ih => intro cur; simp [popEntries, ih]

theorem popFiles_ok (vs : List (List Nat × List Nat)) :
    ∀ (b b1 : SFileSystemBuild) (E : List SFileSystemEntry) (B : List Nat),
    b.pFileEntries = some E → b.pFilenameBuffer = some B →
    (∀ v ∈ vs, v.1.length ≤ 511 ∧ v.2.length < 65536) →
    b.FilesLeft < U32 → b.CurrFilenameOffset < U32 →
    b.pCurrEntry ≤ E.length → b.pCurrFilename ≤ B.length →
    popFiles vs b = some (0, b1) →
    vs.length ≤ b.FilesLeft ∧ b.pCurrEntry + vs.length ≤ E.length ∧
    b.pCurrFilename + (blob vs).length ≤ B.length ∧
    b1 = afterFiles vs E B b := by
  induction vs with
  | nil =>
      intro b b1 E B hE hB _ _ hC hpe hpb h
      simp only [popFiles, Option.some.injEq, Prod.mk.injEq, true_and] at h
      subst h
      refine ⟨by simp, by simpa using hpe, by simpa [blob] using hpb, ?_⟩
      cases b
      simp only [afterFiles, popEntries, blob, List.flatMap_nil, blit_nil, List.length_nil,
        Nat.add_zero, Nat.sub_zero] at *
      rw [Nat.mod_eq_of_lt hC]
      simp [hE, hB]
  | cons v vs ih =>
      intro b b1 E B hE hB hv hF hC hpe hpb h
      simp only [popFiles] at h
      split at h
      · simp at h
      · rename_i r b2 hpf
        split at h
        · simp only [Option.some.injEq, Prod.mk.injEq] at h
          omega
        · rename_i hr
          have hr0 : r = 0 := by simpa using hr
          subst hr0
          have hv0 := hv v (List.mem_cons_self _ _)
          obtain ⟨h1, h2, h3, h4, h5⟩ :=
            populateFile_ok v.1 v.2 b b2 E B hE hB hv0.1 hv0.2 hF hpf
          have hU : 0 < U32 := by decide
          have hE2 : b2.pFileEntries = some (blit E b.pCurrEntry
              [{ FilenameOffset := (b.FilenameStartOffset + b.CurrFilenameOffset) % U32,
                 FileBinaryOffset := U32 - 1, FileBinarySize := 0 }]) := by
            rw [h5]; rfl
          have hB2 : b2.pFilenameBuffer = some (blit B b.pCurrFilename (v.1 ++ v.2 ++ [0])) := by
            rw [h5]; rfl
          have hF2 : b2.FilesLeft < U32 := by
            rw [h5]; simp only [afterFile]; omega
          have hC2 : b2.CurrFilenameOffset < U32 := by
            rw [h5]; exact Nat.mod_lt _ hU
          have hlenE := length_blit E b.pCurrEntry
            [{ FilenameOffset := (b.FilenameStartOffset + b.CurrFilenameOffset) % U32,
               FileBinaryOffset := U32 - 1, FileBinarySize := 0 }]
            (by simp only [List.length_singleton]; omega)
          have hlenB := length_blit B b.pCurrFilename (v.1 ++ v.2 ++ [0])
            (by simp only [List.length_append, List.length_singleton]; omega)
          have e1 : b2.FilesLeft = b.FilesLeft - 1 := by rw [h5]; rfl
          have e2 : b2.pCurrEntry = b.pCurrEntry + 1 := by rw [h5]; rfl
          have e3 : b2.pCurrFilename = b.pCurrFilename + (v.1.length + v.2.length + 1) := by
            rw [h5]; rfl
          have hpe2 : b2.pCurrEntry ≤ (blit E b.pCurrEntry
              [{ FilenameOffset := (b.FilenameStartOffset + b.CurrFilenameOffset) % U32,
                 FileBinaryOffset := U32 - 1, FileBinarySize := 0 }]).length := by
            rw [hlenE, e2]; omega
          have hpb2 : b2.pCurrFilename ≤ (blit B b.pCurrFilename (v.1 ++ v.2 ++ [0])).length := by
            rw [hlenB, e3]; omega
          obtain ⟨g1, g2, g3, g4⟩ := ih b2 b1 _ _ hE2 hB2
            (fun w hw => hv w (List.mem_cons_of_mem _ hw)) hF2 hC2 hpe2 hpb2 h
          have hbl : (blob (v :: vs)).length = (v.1.length + v.2.length + 1) + (blob vs).length := by
            rw [blob_cons]; simp only [List.length_append, List.length_singleton]
          rw [e1] at g1; rw [e2, hlenE] at g2; rw [e3, hlenB] at g3
          refine ⟨by simp only [List.length_cons]; omega,
                  by simp only [List.length_cons]; omega, by omega, ?_⟩
          rw [g4, h5]
          simp only [afterFiles, afterFile, popEntries, hbl, List.length_cons]
          have k1 := blit_blit E b.pCurrEntry
            [{ FilenameOffset := (b.FilenameStartOffset + b.CurrFilenameOffset) % U32,
               FileBinaryOffset := U32 - 1, FileBinarySize := 0 }]
            (popEntries b.FilenameStartOffset
              ((b.CurrFilenameOffset + (v.1.length + v.2.length + 1)) % U32) vs) hpe
          have k2 := blit_blit B b.pCurrFilename (v.1 ++ v.2 ++ [0]) (blob vs) hpb
          simp only [List.length_singleton, List.length_append, List.singleton_append] at k1 k2
          rw [k1, k2, blob_cons]
          congr 1
          all_goals first | omega | (simp only [U32]; omega)

theorem popFiles_append (l1 : List (List Nat × List Nat)) :
    ∀ (l2 : List (List Nat × List Nat)) (b : SFileSystemBuild),
    popFiles (l1 ++ l2) b =
      match popFiles l1 b with
      | none => none
      | some (Result, b1) => if Result ≠ 0 then some (Result, b1) else popFiles l2 b1 := by
  induction l1 with
  | nil => intro l2 b; simp [popFiles]
  | cons v l1 ih =>
      intro l2 b
      simp only [List.cons_append, popFiles]
      cases hpf : populateFile v.1 v.2 b with
      | none => rfl
      | some rb =>
          obtain ⟨r, b2⟩ := rb
          simp only
          by_cases hr : r ≠ 0
          · simp [hr]
          · simp only [hr, if_false]
            exact ih l2 b2

theorem nameOk_length (name : List Nat) (h : nameOk name = true) : name.length < 65536 := by
  simp only [nameOk, Bool.and_eq_true, decide_eq_true_eq] at h
  exact h.2

theorem nameOk_nul (name : List Nat) (h : nameOk name = true) : 0 ∉ name := by
  simp only [nameOk, Bool.and_eq_true, List.all_eq_true, decide_eq_true_eq] at h
  intro hm
  exact (h.1 0 hm).1 rfl

theorem snprintf_fits (cap : Nat) (s : List Nat) (h : s.length ≤ cap - 1) :
    snprintf cap s = s := by
  unfold snprintf
  exact List.take_of_length_le h

/-- A run of the populate loop that returns 0 is the flat pass over the
files of the tree in traversal order. -/
theorem populateLoop_flat (d : Dir) :
    ∀ (host img : List Nat) (b b1 : SFileSystemBuild),
    wellFormed d = true → img.length ≤ 511 →
    populateLoop host img d b = some (0, b1) →
    popFiles (visits img d) b = some (0, b1) ∧
    ∀ v ∈ visits img d, v.1.length ≤ 511 ∧ v.2.length < 65536 := by
  induction d with
  | done =>
      intro host img b b1 _ _ h
      simp only [populateLoop] at h
      simp [visits, popFiles, h]
  | file name content rest ih =>
      intro host img b b1 hw hi h
      simp only [wellFormed, Bool.and_eq_true] at hw
      simp only [populateLoop] at h
      simp only [visits, popFiles]
      cases hpf : populateFile img name b with
      | none => simp [hpf] at h
      | some rb =>
          obtain ⟨r, b2⟩ := rb
          simp only [hpf] at h
          simp only
          by_cases hr : r ≠ 0
          · rw [if_pos hr] at h
            simp only [Option.some.injEq, Prod.mk.injEq] at h
            exact absurd h.1 hr
          · rw [if_neg hr] at h ⊢
            obtain ⟨g1, g2⟩ := ih host img b2 b1 hw.2 hi h
            refine ⟨g1, ?_⟩
            intro v hv
            rcases List.mem_cons.1 hv with rfl | hv
            · exact ⟨hi, nameOk_length _ hw.1⟩
            · exact g2 v hv
  | sub name canOpen inner rest ihi ihr =>
      intro host img b b1 hw hi h
      simp only [wellFormed, Bool.and_eq_true] at hw
      simp only [populateLoop] at h
      simp only [visits]
      split at h
      · rename_i hn
        rw [if_pos hn]
        split at h
        · simp at h
        · split at h
          · simp at h
          · rename_i hchk
            split at h
            · simp at h
            · have hnl := nameOk_length _ hw.1.1
              have hlen : img.length + name.length + 1 ≤ 511 := by
                simp only [U32, SUBDIR_CAP] at hchk; omega
              have hs : snprintf SUBDIR_CAP (img ++ name ++ [47]) = img ++ name ++ [47] :=
                snprintf_fits _ _ (by
                  simp only [List.length_append, List.length_singleton, SUBDIR_CAP]; omega)
              rw [hs] at h
              split at h
              · simp at h
              · rename_i r b2 hin
                by_cases hr : r ≠ 0
                · rw [if_pos hr] at h
                  simp only [Option.some.injEq, Prod.mk.injEq] at h
                  exact absurd h.1 hr
                · rw [if_neg hr] at h
                  have hr0 : r = 0 := by simpa using hr
                  subst hr0
                  obtain ⟨g1, g2⟩ := ihi _ _ b b2 hw.1.2
                    (by simp only [List.length_append, List.length_singleton]; omega) hin
                  obtain ⟨g3, g4⟩ := ihr host img b2 b1 hw.2 hi h
                  refine ⟨?_, ?_⟩
                  · rw [popFiles_append, g1]
                    simpa using g3
                  · intro v hv
                    rcases List.mem_append.1 hv with hv | hv
                    · exact g2 v hv
                    · exact g4 v hv
      · rename_i hn
        rw [if_neg hn]
        exact ihr host img b b1 hw.2 hi h

/-! ## The file list -/

theorem countLoop_error (d : Dir) : ∀ (dir : List Nat) (P c s r : Nat),
    countLoop dir P d c s = .error r → r = 1 := by
  induction d with
  | done => intro dir P c s r h; simp [countLoop] at h
  | file name content rest ih =>
      intro dir P c s r h
      simp only [countLoop] at h
      exact ih _ _ _ _ _ h
  | sub name canOpen inner rest ihi ihr =>
      intro dir P c s r h
      simp only [countLoop] at h
      split at h
      · split at h
        · cases h; rfl
        · split at h
          · cases h; rfl
          · split at h
            · rename_i r1 heq
              cases h
              exact ihi _ _ _ _ _ heq
            · exact ihr _ _ _ _ _ h
      · exact ihr _ _ _ _ _ h

theorem count_error (dir : List Nat) (P : Nat) (canOpen : Bool) (d : Dir) (r : Nat)
    (h : CountFilesInDirectoryTree dir P canOpen d = .error r) : r = 1 := by
  unfold CountFilesInDirectoryTree at h
  split at h
  · cases h; rfl
  · exact countLoop_error d _ _ _ _ _ h

theorem CreateFileList_ok (fmt : Format) (libc : Libc) (open1 open2 : Bool) (t1 t2 : Dir)
    (b b1 : SFileSystemBuild) (hw : wellFormed t2 = true)
    (h : CreateFileList fmt libc open1 t1 open2 t2 b = some (0, b1)) :
    ∃ C S, CountFilesInDirectoryTree b.pRootSourceDirectory 0 open1 t1 = .ok (C, S) ∧
      (visits [] t2).length = C ∧ (blob (visits [] t2)).length ≤ S ∧
      C < U32 ∧ S < U32 ∧ fmt.entrySize * C < U32 ∧
      b1 = listBuilt fmt libc C S (visits [] t2) b ∧
      S + fmt.entrySize * C ≤ libc.heapSize := by
  have hU : 0 < U32 := by decide
  unfold CreateFileList at h
  split at h
  · simp only [Option.some.injEq, Prod.mk.injEq] at h
    rename_i r hc
    have := count_error _ _ _ _ _ hc
    omega
  · rename_i C S hc
    obtain ⟨hC, hS⟩ := count_ok_mod _ _ _ _ _ _ hc
    have hCl : C < U32 := by rw [hC]; exact Nat.mod_lt _ hU
    have hSl : S < U32 := by rw [hS]; exact Nat.mod_lt _ hU
    refine ⟨C, S, hc, ?_⟩
    simp only [populateInput] at h
    split at h
    · simp at h
    · split at h
      · simp at h
      · rename_i hm1 hm2
        unfold PopulateEntriesFromDirectoryTree at h
        split at h
        · simp at h
        · rename_i r b4 hp
          split at hp
          · simp only [Option.some.injEq, Prod.mk.injEq] at hp
            rw [← hp.1] at h
            simp at h
          · split at h
            · simp only [Option.some.injEq, Prod.mk.injEq] at h
              rename_i hr
              exact absurd h.1 hr
            · rename_i hr
              have hr0 : r = 0 := by simpa using hr
              subst hr0
              obtain ⟨f1, f2⟩ := populateLoop_flat t2 _ _ _ _ hw (by simp) hp
              obtain ⟨g1, g2, g3, g4⟩ := popFiles_ok _ _ _ _ _ rfl rfl f2
                (by simpa using hCl) (by simpa using hU) (by simp) (by simp) f1
              simp only [List.length_map, List.length_range, Nat.zero_add] at g1 g2 g3
              split at h
              · simp at h
              · rename_i hfl
                have hfl0 : b4.FilesLeft = 0 := by simpa using hfl
                rw [g4] at hfl0
                simp only [afterFiles] at hfl0
                have hlen : (visits [] t2).length = C := by omega
                have hM : fmt.entrySize * C % U32 / fmt.entrySize ≤ C := by
                  calc fmt.entrySize * C % U32 / fmt.entrySize
                      ≤ fmt.entrySize * C / fmt.entrySize :=
                        Nat.div_le_div_right (Nat.mod_le _ _)
                    _ = C := Nat.mul_div_cancel_left _ fmt.entrySize_pos
                have hM2 : fmt.entrySize * C % U32 / fmt.entrySize = C := by omega
                have hnw : fmt.entrySize * C < U32 := by
                  by_contra hcon
                  have h1 : fmt.entrySize * C % U32 < fmt.entrySize * C := by
                    have := Nat.mod_lt (fmt.entrySize * C) hU
                    omega
                  have h2 : fmt.entrySize * C % U32 / fmt.entrySize < C := by
                    apply (Nat.div_lt_iff_lt_mul fmt.entrySize_pos).2
                    rw [Nat.mul_comm C]
                    exact h1
                  omega
                have hheap : S + fmt.entrySize * C ≤ libc.heapSize := by
                  simp only [malloc, Bool.and_eq_false_iff, not_or, Bool.not_eq_false,
                    decide_eq_true_eq, decide_eq_false_iff_not, not_not] at hm2
                  rw [Nat.mod_eq_of_lt hnw] at hm2
                  exact hm2.2
                refine ⟨hlen, g3, hCl, hSl, hnw, ?_, hheap⟩
                rw [g4] at h
                simp only [afterFiles, Option.some.injEq, Prod.mk.injEq, true_and] at h
                rw [← h]
                have hX := blit_zero_full
                  ((List.range (fmt.entrySize * C % U32 / fmt.entrySize)).map libc.junkEntry)
                  (popEntries ((fmt.headerSize + (C * fmt.entrySize) % U32) % U32) 0
                    (visits [] t2))
                  (by simp only [length_popEntries, List.length_map, List.length_range]; omega)
                have hlp := length_popEntries
                  ((fmt.headerSize + (C * fmt.entrySize) % U32) % U32) (visits [] t2) 0
                have hmod : (blob (visits [] t2)).length % U32 = (blob (visits [] t2)).length :=
                  Nat.mod_eq_of_lt (by omega)
                have htk : (popEntries ((fmt.headerSize + (C * fmt.entrySize) % U32) % U32) 0
                    (visits [] t2)).take C = popEntries
                    ((fmt.headerSize + (C * fmt.entrySize) % U32) % U32) 0 (visits [] t2) :=
                  List.take_of_length_le (by omega)
                have hdr : (popEntries ((fmt.headerSize + (C * fmt.entrySize) % U32) % U32) 0
                    (visits [] t2)).drop C = [] :=
                  List.drop_of_length_le (by omega)
                simp only [listBuilt, hX, Nat.zero_add, Nat.sub_self, hlen, hmod, htk, hdr,
                  List.append_nil]

/-! ## Names read back from the filename buffer -/

theorem relFiles_eq_visits (d : Dir) : ∀ img : List Nat,
    (relFiles img d).map Prod.fst = (visits img d).map (fun v => v.1 ++ v.2) := by
  induction d with
  | done => intro img; rfl
  | file name content rest ih => intro img; simp [relFiles, visits, ih]
  | sub name canOpen inner rest ihi ihr =>
      intro img
      simp only [relFiles, visits]
      split
      · simp [ihi, ihr]
      · exact ihr img

theorem length_visits (d : Dir) : ∀ img : List Nat, (visits img d).length = fileTotal d := by
  induction d with
  | done => intro img; rfl
  | file name content rest ih => intro img; simp [visits, fileTotal, ih]; omega
  | sub name canOpen inner rest ihi ihr =>
      intro img
      simp only [visits, fileTotal]
      split
      · simp [ihi, ihr]
      · exact ihr img

theorem length_blob_visits (d : Dir) : ∀ img : List Nat,
    (blob (visits img d)).length = nameTotal img.length d := by
  induction d with
  | done => intro img; rfl
  | file name content rest ih =>
      intro img
      simp only [visits, nameTotal, blob_cons, List.length_append, List.length_singleton, ih]
  | sub name canOpen inner rest ihi ihr =>
      intro img
      simp only [visits, nameTotal]
      split
      · rw [blob_append, List.length_append, ihi, ihr]
        simp only [List.length_append, List.length_singleton]
      · exact ihr img

theorem visits_nul (d : Dir) : ∀ img : List Nat, wellFormed d = true → 0 ∉ img →
    ∀ v ∈ visits img d, 0 ∉ v.1 ++ v.2 := by
  induction d with
  | done => intro img _ _ v hv; simp [visits] at hv
  | file name content rest ih =>
      intro img hw hi v hv
      simp only [wellFormed, Bool.and_eq_true] at hw
      simp only [visits, List.mem_cons] at hv
      rcases hv with rfl | hv
      · simp only [List.mem_append, not_or]
        exact ⟨hi, nameOk_nul _ hw.1⟩
      · exact ih img hw.2 hi v hv
  | sub name canOpen inner rest ihi ihr =>
      intro img hw hi v hv
      simp only [wellFormed, Bool.and_eq_true] at hw
      simp only [visits] at hv
      split at hv
      · rcases List.mem_append.1 hv with hv | hv
        · refine ihi _ hw.1.2 ?_ v hv
          simp only [List.mem_append, List.mem_singleton, not_or]
          exact ⟨⟨hi, nameOk_nul _ hw.1.1⟩, by decide⟩
        · exact ihr img hw.2 hi v hv
      · exact ihr img hw.2 hi v hv

theorem cstrAt_at (pre p rest : List Nat) (hp : 0 ∉ p) :
    cstrAt (pre ++ (p ++ [0]) ++ rest) pre.length = p := by
  unfold cstrAt
  rw [List.append_assoc, List.drop_left, List.append_assoc]
  rw [List.takeWhile_append_of_pos]
  · simp
  · intro c hc
    have : c ≠ 0 := fun h => hp (h ▸ hc)
    simpa using this

theorem popEntries_eq (start : Nat) (vs : List (List Nat × List Nat)) :
    ∀ cur, cur + (blob vs).length < U32 →
    popEntries start cur vs = (nameOffsets cur vs).map (fun o =>
      { FilenameOffset := (start + o) % U32, FileBinaryOffset := U32 - 1,
        FileBinarySize := 0 }) := by
  induction vs with
  | nil => intro cur _; rfl
  | cons v vs ih =>
      intro cur h
      rw [blob_cons] at h
      simp only [List.length_append, List.length_singleton] at h
      have hm : (cur + (v.1.length + v.2.length + 1)) % U32
          = cur + (v.1.length + v.2.length + 1) := Nat.mod_eq_of_lt (by omega)
      simp only [popEntries, nameOffsets, List.map_cons, hm]
      rw [ih _ (by omega)]

theorem names_at_offsets (vs : List (List Nat × List Nat)) :
    ∀ (pre rest : List Nat), (∀ v ∈ vs, 0 ∉ v.1 ++ v.2) →
    (nameOffsets pre.length vs).map (fun o => cstrAt (pre ++ blob vs ++ rest) o)
      = vs.map (fun v => v.1 ++ v.2) := by
  induction vs with
  | nil => intro pre rest _; rfl
  | cons v vs ih =>
      intro pre rest hv
      simp only [nameOffsets, List.map_cons, blob_cons]
      congr 1
      · have := cstrAt_at pre (v.1 ++ v.2) (blob vs ++ rest) (hv v (List.mem_cons_self _ _))
        simpa [List.append_assoc] using this
      · have := ih (pre ++ (v.1 ++ v.2 ++ [0])) rest
          (fun w hw => hv w (List.mem_cons_of_mem _ hw))
        simpa [List.append_assoc, Nat.add_assoc] using this

theorem nameOffsets_lt (vs : List (List Nat × List Nat)) :
    ∀ cur, ∀ o ∈ nameOffsets cur vs, o < cur + (blob vs).length := by
  induction vs with
  | nil => intro cur o ho; simp [nameOffsets] at ho
  | cons v vs ih =>
      intro cur o ho
      rw [blob_cons]
      simp only [List.length_append, List.length_singleton]
      simp only [nameOffsets, List.mem_cons] at ho
      rcases ho with rfl | ho
      · omega
      · have := ih _ o ho
        omega

/-- The names the entries stored by the populate pass refer to are the
paths of the visited files, in the same order. -/
theorem names_popEntries (start : Nat) (junk : List Nat) (vs : List (List Nat × List Nat))
    (hU : (blob vs).length < U32)
    (hn : ∀ v ∈ vs, 0 ∉ v.1 ++ v.2) :
    (popEntries start 0 vs).map (entryName (blit junk 0 (blob vs)) start)
      = vs.map (fun v => v.1 ++ v.2) := by
  rw [popEntries_eq start vs 0 (by omega), List.map_map]
  have hb : blit junk 0 (blob vs) = [] ++ blob vs ++ junk.drop (blob vs).length := by
    simp [blit]
  rw [hb, ← names_at_offsets vs [] (junk.drop (blob vs).length) hn]
  apply List.map_congr_left
  intro o ho
  have := nameOffsets_lt vs 0 o ho
  simp only [Function.comp, entryName, List.length_nil]
  congr 1
  simp only [U32] at *
  omega

/-! ## The comparator -/

theorem strcmp_total (a : List Nat) : ∀ b, strcmp a b ≤ 0 ∨ strcmp b a ≤ 0 := by
  induction a with
  | nil => intro b; cases b <;> simp [strcmp]
  | cons x a ih =>
      intro b
      cases b with
      | nil => simp [strcmp]
      | cons y b =>
          simp only [strcmp]
          rcases Nat.lt_trichotomy x y with h | h | h
          · simp [h]
          · subst h; simpa using ih b
          · right; simp [h]

theorem strcmp_trans (a : List Nat) : ∀ b c, strcmp a b ≤ 0 → strcmp b c ≤ 0 →
    strcmp a c ≤ 0 := by
  induction a with
  | nil => intro b c _ _; cases c <;> simp [strcmp]
  | cons x a ih =>
      intro b c hab hbc
      cases b with
      | nil => simp [strcmp] at hab
      | cons y b =>
          cases c with
          | nil => simp [strcmp] at hbc
          | cons z c =>
              simp only [strcmp] at hab hbc ⊢
              by_cases hxy : x < y
              · have hxz : x < z := by
                  by_cases hyz : y < z
                  · omega
                  · by_cases hzy : z < y
                    · simp [hyz, hzy] at hbc
                    · omega
                simp [hxz]
              · by_cases hyx : y < x
                · simp [hxy, hyx] at hab
                · have hxy2 : x = y := by omega
                  subst hxy2
                  simp only [hxy, if_false] at hab
                  by_cases hxz : x < z
                  · simp [hxz]
                  · by_cases hzx : z < x
                    · simp [hxz, hzx] at hbc
                    · simp only [hxz, hzx, if_false] at hbc ⊢
                      exact ih b c hab hbc

theorem populateFile_defined (img name : List Nat) (b : SFileSystemBuild)
    (hinv : PopInv b) (hi : img.length ≤ 511) (hn : name.length < 65536) :
    ∃ r b1, populateFile img name b = some (r, b1) ∧ (r = 0 ∨ r = 1) ∧
      (r = 0 → PopInv b1) := by
  obtain ⟨E, B, hE, hB, hEl, hBl, hcnt, hcur, hle, hC, hS⟩ := hinv
  have hi1 : img.length % U32 = img.length := Nat.mod_eq_of_lt (by simp only [U32]; omega)
  have hl : (img.length + name.length + 1) % U32 = img.length + name.length + 1 :=
    Nat.mod_eq_of_lt (by simp only [U32]; omega)
  unfold populateFile
  simp only [hE, hB, hi1, hl]
  split
  · exact ⟨1, _, rfl, Or.inr rfl, by simp⟩
  · rename_i hne
    have hlt : b.pCurrEntry < E.length := by omega
    rw [if_pos hlt]
    split
    · exact ⟨1, _, rfl, Or.inr rfl, by simp⟩
    · rename_i hck
      have hm : (b.CurrFilenameOffset + (img.length + name.length + 1)) % U32
          = b.CurrFilenameOffset + (img.length + name.length + 1) :=
        Nat.mod_eq_of_lt (by simp only [U32] at *; omega)
      rw [hm] at hck
      have hfit : b.pCurrFilename + img.length + (name.length + 1) ≤ B.length := by omega
      rw [if_pos hfit]
      refine ⟨0, _, rfl, Or.inl rfl, fun _ => ?_⟩
      refine ⟨_, _, rfl, rfl, ?_, ?_, ?_, ?_, ?_, hC, hS⟩
      · simpa using hEl
      · simp only [memcpy, List.take_length]
        rw [length_blit, length_blit]
        · exact hBl
        · omega
        · rw [length_blit _ _ _ (by omega)]
          simp only [List.length_append, List.length_singleton]
          omega
      · simp only
        have : (b.FilesLeft + U32 - 1) % U32 = b.FilesLeft - 1 := by
          simp only [U32] at *; omega
        rw [this]; omega
      · simp only [hm]; omega
      · simp only [hm]; omega

theorem populateLoop_defined (d : Dir) :
    ∀ (host img : List Nat) (b : SFileSystemBuild),
    PopInv b → wellFormed d = true → img.length ≤ 511 →
    ∃ r b1, populateLoop host img d b = some (r, b1) ∧ (r = 0 ∨ r = 1) ∧
      (r = 0 → PopInv b1) := by
  induction d with
  | done => intro host img b hinv _ _; exact ⟨0, b, rfl, Or.inl rfl, fun _ => hinv⟩
  | file name content rest ih =>
      intro host img b hinv hw hi
      simp only [wellFormed, Bool.and_eq_true] at hw
      obtain ⟨r, b1, h1, h2, h3⟩ :=
        populateFile_defined img name b hinv hi (nameOk_length _ hw.1)
      simp only [populateLoop, h1]
      rcases h2 with rfl | rfl
      · simpa using ih host img b1 (h3 rfl) hw.2 hi
      · exact ⟨1, b1, by simp, Or.inr rfl, by simp⟩
  | sub name canOpen inner rest ihi ihr =>
      intro host img b hinv hw hi
      simp only [wellFormed, Bool.and_eq_true] at hw
      simp only [populateLoop]
      split
      · split
        · exact ⟨1, b, rfl, Or.inr rfl, by simp⟩
        · split
          · exact ⟨1, b, rfl, Or.inr rfl, by simp⟩
          · rename_i hchk
            split
            · exact ⟨1, b, rfl, Or.inr rfl, by simp⟩
            · have hnl := nameOk_length _ hw.1.1
              have hlen : img.length + name.length + 1 ≤ 511 := by
                simp only [U32, SUBDIR_CAP] at hchk; omega
              have hs : snprintf SUBDIR_CAP (img ++ name ++ [47]) = img ++ name ++ [47] :=
                snprintf_fits _ _ (by
                  simp only [List.length_append, List.length_singleton, SUBDIR_CAP]; omega)
              rw [hs]
              obtain ⟨r, b1, h1, h2, h3⟩ := ihi
                (snprintf SUBDIR_CAP (host ++ [47] ++ name)) (img ++ name ++ [47]) b hinv hw.1.2
                (by simp only [List.length_append, List.length_singleton]; omega)
              rw [h1]
              rcases h2 with rfl | rfl
              · simpa using ihr host img b1 (h3 rfl) hw.2 hi
              · exact ⟨1, b1, by simp, Or.inr rfl, by simp⟩
      · exact ihr host img b hinv hw.2 hi

theorem populateInput_inv (fmt : Format) (libc : Libc) (C S : Nat) (b : SFileSystemBuild)
    (hC : fmt.entrySize * C < U32) (hS : S + 66048 ≤ U32) :
    PopInv (populateInput fmt libc C S b) := by
  have hpos := fmt.entrySize_pos
  have hCl : C < U32 := by
    calc C = 1 * C := (Nat.one_mul C).symm
      _ ≤ fmt.entrySize * C := Nat.mul_le_mul_right C hpos
      _ < U32 := hC
  refine ⟨_, _, rfl, rfl, ?_, ?_, ?_, rfl, ?_, hCl, hS⟩
  · simp only [populateInput, List.length_map, List.length_range]
    rw [Nat.mod_eq_of_lt hC, Nat.mul_div_cancel_left _ hpos]
  · simp [populateInput]
  · simp [populateInput]
  · simp [populateInput]

/-- The populate run inside a `_CreateFileList` that returns 0. -/
theorem CreateFileList_populate (fmt : Format) (libc : Libc) (open1 open2 : Bool) (t1 t2 : Dir)
    (b b1 : SFileSystemBuild)
    (h : CreateFileList fmt libc open1 t1 open2 t2 b = some (0, b1)) :
    ∃ C S b4, CountFilesInDirectoryTree b.pRootSourceDirectory 0 open1 t1 = .ok (C, S) ∧
      PopulateEntriesFromDirectoryTree (populateInput fmt libc C S b)
        b.pRootSourceDirectory [] open2 t2 = some (0, b4) ∧
      b4.FilesLeft = 0 ∧ b1.pFilenameBuffer = b4.pFilenameBuffer := by
  unfold CreateFileList at h
  split at h
  · simp only [Option.some.injEq, Prod.mk.injEq] at h
    rename_i r hc
    have := count_error _ _ _ _ _ hc
    omega
  · rename_i C S hc
    simp only at h
    split at h
    · simp at h
    · split at h
      · simp at h
      · split at h
        · simp at h
        · rename_i r b4 hp
          split at h
          · simp only [Option.some.injEq, Prod.mk.injEq] at h
            rename_i hr
            exact absurd h.1 hr
          · rename_i hr
            have hr0 : r = 0 := by simpa using hr
            subst hr0
            split at h
            · simp at h
            · rename_i hfl
              refine ⟨C, S, b4, hc, hp, by simpa using hfl, ?_⟩
              split at h
              · simp only [Option.some.injEq, Prod.mk.injEq, true_and] at h
                rw [← h]
              · simp at h

/-- When the allocation sizes do not wrap, `_CreateFileList` has a defined
run, returning 0 or 1. -/
theorem CreateFileList_defined (fmt : Format) (libc : Libc) (open1 open2 : Bool) (t1 t2 : Dir)
    (b : SFileSystemBuild) (C S : Nat)
    (hc : CountFilesInDirectoryTree b.pRootSourceDirectory 0 open1 t1 = .ok (C, S))
    (hC : fmt.entrySize * C < U32) (hS : S + 66048 ≤ U32) (hw : wellFormed t2 = true) :
    ∃ r b1, CreateFileList fmt libc open1 t1 open2 t2 b = some (r, b1) ∧ (r = 0 ∨ r = 1) := by
  unfold CreateFileList
  rw [hc]
  simp only
  split
  · exact ⟨1, _, rfl, Or.inr rfl⟩
  · split
    · exact ⟨1, _, rfl, Or.inr rfl⟩
    · have hpop : ∃ r b4, PopulateEntriesFromDirectoryTree (populateInput fmt libc C S b)
          (populateInput fmt libc C S b).pRootSourceDirectory [] open2 t2 = some (r, b4) ∧
          (r = 0 ∨ r = 1) ∧ (r = 0 → PopInv b4) := by
        unfold PopulateEntriesFromDirectoryTree
        split
        · exact ⟨1, _, rfl, Or.inr rfl, by simp⟩
        · exact populateLoop_defined t2 _ [] _
            (populateInput_inv fmt libc C S b hC hS) hw (by simp)
      obtain ⟨r, b4, h1, h2, h3⟩ := hpop
      rw [h1]
      rcases h2 with rfl | rfl
      · simp only [ne_eq, not_true_eq_false, if_false]
        split
        · exact ⟨1, _, rfl, Or.inr rfl⟩
        · obtain ⟨E, B, hE, hB, _⟩ := h3 rfl
          simp only [hE, hB]
          exact ⟨0, _, rfl, Or.inl rfl⟩
      · exact ⟨1, b4, by simp, Or.inr rfl⟩

/-! ## Claims about the file list -/

theorem sampleList_run :
    CreateFileList ffsFormat stdLibc true sampleTree true sampleTree sampleInit
      = some (0, sampleList) := by decide

/-- What a successful `_CreateFileList` leaves, read back through the
entry names: the sorted entry array, the buffer, and the names in
populate order. -/
theorem list_names (fmt : Format) (libc : Libc) (open1 open2 : Bool) (t1 t2 : Dir)
    (b b1 : SFileSystemBuild) (hw : wellFormed t2 = true)
    (h : CreateFileList fmt libc open1 t1 open2 t2 b = some (0, b1)) :
    ∃ entries buffer unsorted,
      b1.pFileEntries = some entries ∧ b1.pFilenameBuffer = some buffer ∧
      entries.length = b1.FileCount ∧ buffer.length = b1.FilenameBufferSize ∧
      b1.FilenameStartOffset = (fmt.headerSize + (b1.FileCount * fmt.entrySize) % U32) % U32 ∧
      entries = libc.qsort (CompareFileEntries buffer b1.FilenameStartOffset) unsorted ∧
      unsorted.map (entryName buffer b1.FilenameStartOffset)
        = (relFiles [] t2).map Prod.fst ∧
      buffer.take (blob (visits [] t2)).length = blob (visits [] t2) ∧
      fmt.entrySize * b1.FileCount < U32 := by
  obtain ⟨C, S, hc, hlen, hbl, hC, hS, hnw, hb, hheap⟩ :=
    CreateFileList_ok fmt libc open1 open2 t1 t2 b b1 hw h
  subst hb
  have hp := libc.qsort_perm
    (CompareFileEntries (blit ((List.range S).map libc.junkByte) 0 (blob (visits [] t2)))
      ((fmt.headerSize + (C * fmt.entrySize) % U32) % U32))
    (popEntries ((fmt.headerSize + (C * fmt.entrySize) % U32) % U32) 0 (visits [] t2))
  refine ⟨_, _, _, rfl, rfl, ?_, ?_, rfl, rfl, ?_, ?_, hnw⟩
  · rw [hp.length_eq, length_popEntries]; exact hlen
  · rw [length_blit _ _ _ (by simpa using hbl)]; simp [listBuilt]
  · rw [relFiles_eq_visits]
    exact names_popEntries _ _ _ (by omega)
      (visits_nul t2 [] hw (by simp))
  · simp [blit]

/-- The part of C2 that holds, the files of the tree being the entries the
S_IFDIR test takes for files: after a successful `_CreateFileList` on an
unmodified tree, the strings read for the `FileCount` entries at index
`FilenameOffset - FilenameStartOffset` of the filename buffer are a
permutation of the relative paths of the files of the tree. -/
theorem C2_round_trip (fmt : Format) (libc : Libc) (open1 open2 : Bool) (t : Dir)
    (b b1 : SFileSystemBuild) (hw : wellFormed t = true)
    (h : CreateFileList fmt libc open1 t open2 t b = some (0, b1)) :
    ∃ entries buffer,
      b1.pFileEntries = some entries ∧ b1.pFilenameBuffer = some buffer ∧
      entries.length = b1.FileCount ∧
      (entries.map (entryName buffer b1.FilenameStartOffset)).Perm
        ((relFiles [] t).map Prod.fst) := by
  obtain ⟨entries, buffer, unsorted, h1, h2, h3, _, _, h6, h7, _⟩ :=
    list_names fmt libc open1 open2 t t b b1 hw h
  refine ⟨entries, buffer, h1, h2, h3, ?_⟩
  rw [← h7, h6]
  exact (libc.qsort_perm _ _).map _

theorem C2_round_trip_witness :
    wellFormed sampleTree = true ∧
    CreateFileList ffsFormat stdLibc true sampleTree true sampleTree sampleInit
      = some (0, sampleList) ∧
    ∃ entries buffer,
      sampleList.pFileEntries = some entries ∧ sampleList.pFilenameBuffer = some buffer ∧
      entries.length = sampleList.FileCount ∧
      (entries.map (entryName buffer sampleList.FilenameStartOffset)).Perm
        ((relFiles [] sampleTree).map Prod.fst) :=
  ⟨by decide, by decide,
   C2_round_trip ffsFormat stdLibc true true sampleTree sampleInit sampleList
     (by decide) (by decide)⟩

theorem compare_total (buf : List Nat) (base : Nat) (a b : SFileSystemEntry) :
    CompareFileEntries buf base a b ≤ 0 ∨ CompareFileEntries buf base b a ≤ 0 :=
  strcmp_total _ _

theorem compare_trans (buf : List Nat) (base : Nat) (a b c : SFileSystemEntry)
    (h1 : CompareFileEntries buf base a b ≤ 0) (h2 : CompareFileEntries buf base b c ≤ 0) :
    CompareFileEntries buf base a c ≤ 0 :=
  strcmp_trans _ _ _ h1 h2

/-- C3: after a successful `_CreateFileList`, the name of each entry of the
array, resolved as `_CompareFileEntries` does at index
`FilenameOffset - (headerSize + FileCount * entrySize)` of the filename
buffer, is `strcmp`-less than or equal to the name of the next entry. -/
theorem C3_sorted (fmt : Format) (libc : Libc) (open1 open2 : Bool) (t1 t2 : Dir)
    (b b1 : SFileSystemBuild) (hw : wellFormed t2 = true)
    (h : CreateFileList fmt libc open1 t1 open2 t2 b = some (0, b1)) :
    ∃ entries buffer,
      b1.pFileEntries = some entries ∧ b1.pFilenameBuffer = some buffer ∧
      ∀ (i : Nat) (hi : i + 1 < entries.length),
        strcmp
          (entryName buffer ((fmt.headerSize + (b1.FileCount * fmt.entrySize) % U32) % U32)
            (entries.get ⟨i, by omega⟩))
          (entryName buffer ((fmt.headerSize + (b1.FileCount * fmt.entrySize) % U32) % U32)
            (entries.get ⟨i + 1, hi⟩)) ≤ 0 := by
  obtain ⟨entries, buffer, unsorted, h1, h2, _, _, h5, h6, _, _⟩ :=
    list_names fmt libc open1 open2 t1 t2 b b1 hw h
  refine ⟨entries, buffer, h1, h2, ?_⟩
  intro i hi
  have hs := libc.qsort_sorted (CompareFileEntries buffer b1.FilenameStartOffset) unsorted
    (compare_total _ _) (compare_trans _ _)
  rw [← h6] at hs
  rw [← h5]
  exact List.pairwise_iff_get.1 hs ⟨i, by omega⟩ ⟨i + 1, hi⟩ (by simp)

theorem C3_sorted_witness :
    wellFormed sampleTree = true ∧
    CreateFileList ffsFormat stdLibc true sampleTree true sampleTree sampleInit
      = some (0, sampleList) ∧
    ∃ entries buffer,
      sampleList.pFileEntries = some entries ∧ sampleList.pFilenameBuffer = some buffer ∧
      ∀ (i : Nat) (hi : i + 1 < entries.length),
        strcmp
          (entryName buffer
            ((ffsFormat.headerSize + (sampleList.FileCount * ffsFormat.entrySize) % U32) % U32)
            (entries.get ⟨i, by omega⟩))
          (entryName buffer
            ((ffsFormat.headerSize + (sampleList.FileCount * ffsFormat.entrySize) % U32) % U32)
            (entries.get ⟨i + 1, hi⟩)) ≤ 0 :=
  ⟨by decide, by decide,
   C3_sorted ffsFormat stdLibc true true sampleTree sampleTree sampleInit sampleList
     (by decide) (by decide)⟩

/-- C7: when the number of files the populate pass meets differs from the
`FileCount` the counting pass returned, `_CreateFileList` does not return 0
and `main` neither succeeds nor opens the output file; when in addition the
two allocation sizes do not wrap, `_CreateFileList` returns 1 and `main`
exits with status 1 without having opened the output file. -/
theorem C7_modification_detected (fmt : Format) (libc : Libc) (ops : FileOps)
    (open1 open2 : Bool) (t1 t2 : Dir) (argv : List (List Nat)) (C S : Nat)
    (hargs : 3 ≤ argv.length)
    (hc : CountFilesInDirectoryTree (argv.getD 1 []) 0 open1 t1 = .ok (C, S))
    (hw : wellFormed t2 = true) (hne : fileTotal t2 ≠ C) :
    (∀ b1, CreateFileList fmt libc open1 t1 open2 t2
        (initBuild (argv.getD 1 []) (argv.getD 2 [])) ≠ some (0, b1)) ∧
    (∀ r out, main fmt libc ops open1 t1 open2 t2 argv = some (r, out) →
        r ≠ 0 ∧ out = none) ∧
    (fmt.entrySize * C < U32 → S + 66048 ≤ U32 →
      (∃ b1, CreateFileList fmt libc open1 t1 open2 t2
        (initBuild (argv.getD 1 []) (argv.getD 2 [])) = some (1, b1)) ∧
      main fmt libc ops open1 t1 open2 t2 argv = some (1, none)) := by
  have hno : ∀ b1, CreateFileList fmt libc open1 t1 open2 t2
      (initBuild (argv.getD 1 []) (argv.getD 2 [])) ≠ some (0, b1) := by
    intro b1 h
    obtain ⟨C1, S1, hc1, hlen, _⟩ := CreateFileList_ok fmt libc open1 open2 t1 t2 _ b1 hw h
    have hc2 : CountFilesInDirectoryTree (argv.getD 1 []) 0 open1 t1 = .ok (C1, S1) := hc1
    rw [hc] at hc2
    simp only [Except.ok.injEq, Prod.mk.injEq] at hc2
    rw [length_visits] at hlen
    omega
  refine ⟨hno, ?_, ?_⟩
  · intro r out hm
    unfold main at hm
    rw [if_neg (by omega)] at hm
    simp only at hm
    split at hm
    · simp at hm
    · rename_i r1 b1 hcf
      split at hm
      · simp only [Option.some.injEq, Prod.mk.injEq] at hm
        exact ⟨by omega, hm.2.symm⟩
      · rename_i hr
        have hr0 : r1 = 0 := by simpa using hr
        subst hr0
        exact absurd hcf (hno b1)
  · intro hC hS
    obtain ⟨r, b1, h1, h2⟩ := CreateFileList_defined fmt libc open1 open2 t1 t2
      (initBuild (argv.getD 1 []) (argv.getD 2 [])) C S hc hC hS hw
    rcases h2 with rfl | rfl
    · exact absurd h1 (hno b1)
    · refine ⟨⟨b1, h1⟩, ?_⟩
      unfold main
      rw [if_neg (by omega)]
      simp only [h1]
      rfl

theorem C7_modification_detected_witness :
    3 ≤ [[102], [119, 119, 119], [111]].length ∧
    CountFilesInDirectoryTree ([[102], [119, 119, 119], [111]].getD 1 []) 0 true sampleTree
      = .ok (2, 16) ∧
    wellFormed shrunkTree = true ∧ fileTotal shrunkTree ≠ 2 ∧
    main ffsFormat stdLibc (treeOps [119, 119, 119] shrunkTree) true sampleTree true shrunkTree
      [[102], [119, 119, 119], [111]] = some (1, none) :=
  ⟨by decide, rfl, by decide, by decide,
   ((C7_modification_detected ffsFormat stdLibc (treeOps [119, 119, 119] shrunkTree)
      true true sampleTree shrunkTree [[102], [119, 119, 119], [111]] 2 16
      (by decide) rfl (by decide) (by decide)).2.2 (by decide) (by decide)).2⟩

theorem blob_eq_relFiles (d : Dir) (img : List Nat) :
    blob (visits img d) = (relFiles img d).flatMap (fun f => f.1 ++ [0]) := by
  have h1 : blob (visits img d)
      = ((visits img d).map (fun v => v.1 ++ v.2)).flatMap (fun p => p ++ [0]) := by
    simp [blob, List.flatMap_map]
  have h2 : (relFiles img d).flatMap (fun f => f.1 ++ [0])
      = ((relFiles img d).map Prod.fst).flatMap (fun p => p ++ [0]) := by
    simp [List.flatMap_map]
  rw [h1, h2, relFiles_eq_visits]

/-- The part of C9 that holds, the files of the tree being the entries the
S_IFDIR test takes for files: after a successful `_CreateFileList` on an
unmodified tree the filename buffer is exactly the concatenation, in the order the populate pass
visits the files, of each relative path followed by one NUL byte, it fills
`FilenameBufferSize` bytes, and it is the buffer the populate pass left:
sorting the entries does not change it. -/
theorem C9_filename_buffer (fmt : Format) (libc : Libc) (open1 open2 : Bool) (t : Dir)
    (b b1 : SFileSystemBuild) (hw : wellFormed t = true)
    (h : CreateFileList fmt libc open1 t open2 t b = some (0, b1)) :
    b1.pFilenameBuffer = some ((relFiles [] t).flatMap (fun f => f.1 ++ [0])) ∧
    b1.FilenameBufferSize = ((relFiles [] t).flatMap (fun f => f.1 ++ [0])).length ∧
    ∃ C S b4, CountFilesInDirectoryTree b.pRootSourceDirectory 0 open1 t = .ok (C, S) ∧
      PopulateEntriesFromDirectoryTree (populateInput fmt libc C S b)
        b.pRootSourceDirectory [] open2 t = some (0, b4) ∧
      b4.pFilenameBuffer = b1.pFilenameBuffer := by
  obtain ⟨C, S, hc, hlen, hbl, hC, hS, hnw, hb, hheap⟩ :=
    CreateFileList_ok fmt libc open1 open2 t t b b1 hw h
  obtain ⟨C1, S1, b4, hc1, hp, _, hbuf⟩ :=
    CreateFileList_populate fmt libc open1 open2 t t b b1 h
  obtain ⟨_, hS2⟩ := count_ok_mod _ _ _ _ _ _ hc
  have hbl2 := length_blob_visits t []
  simp only [List.length_nil] at hbl2
  have hSeq : (blob (visits [] t)).length = S := by
    have := Nat.mod_le (nameTotal 0 t) U32
    omega
  have hfull : blit ((List.range S).map libc.junkByte) 0 (blob (visits [] t))
      = blob (visits [] t) :=
    blit_zero_full _ _ (by simp [hSeq])
  refine ⟨?_, ?_, C1, S1, b4, hc1, hp, hbuf.symm⟩
  · rw [hb, ← blob_eq_relFiles]
    simp only [listBuilt, hfull]
  · rw [hb, ← blob_eq_relFiles]
    simp only [listBuilt, hSeq]

theorem C9_filename_buffer_witness :
    wellFormed sampleTree = true ∧
    CreateFileList ffsFormat stdLibc true sampleTree true sampleTree sampleInit
      = some (0, sampleList) ∧
    sampleList.pFilenameBuffer = some ((relFiles [] sampleTree).flatMap (fun f => f.1 ++ [0])) ∧
    (relFiles [] sampleTree).flatMap (fun f => f.1 ++ [0])
      = [115, 117, 98, 47, 98, 46, 116, 120, 116, 0, 97, 46, 116, 120, 116, 0] :=
  ⟨by decide, by decide,
   (C9_filename_buffer ffsFormat stdLibc true true sampleTree sampleInit sampleList
     (by decide) (by decide)).1, by decide⟩

/-- The part of C8 that holds, a file entry being an entry the S_IFDIR test
takes for a file: when `_CountFilesInDirectoryTree(dir, P)` returns 0, the
file count it returns is the number of file entries of the subtree and the
filename size is the sum over those files of image prefix length + basename
length + 1, each reduced modulo 2^32, hence exact whenever the exact value is
below 2^32; directory entries named "." and ".." contribute nothing. -/
theorem C8_scanner_totals (dir : List Nat) (P : Nat) (canOpen : Bool) (d : Dir) (c s : Nat)
    (h : CountFilesInDirectoryTree dir P canOpen d = .ok (c, s)) :
    c = fileTotal d % U32 ∧ s = nameTotal P d % U32 ∧
    (fileTotal d < U32 → c = fileTotal d) ∧ (nameTotal P d < U32 → s = nameTotal P d) := by
  obtain ⟨h1, h2⟩ := count_ok_mod dir P canOpen d c s h
  refine ⟨h1, h2, fun hlt => ?_, fun hlt => ?_⟩
  · rw [h1, Nat.mod_eq_of_lt hlt]
  · rw [h2, Nat.mod_eq_of_lt hlt]

theorem C8_scanner_totals_witness :
    CountFilesInDirectoryTree [119, 119, 119] 0 true sampleTree = .ok (2, 16) ∧
    2 = fileTotal sampleTree % U32 ∧ 16 = nameTotal 0 sampleTree % U32 ∧
    (fileTotal sampleTree < U32 → 2 = fileTotal sampleTree) ∧
    (nameTotal 0 sampleTree < U32 → 16 = nameTotal 0 sampleTree) :=
  ⟨rfl, C8_scanner_totals [119, 119, 119] 0 true sampleTree 2 16 rfl⟩

/-- The counting pass on a directory of 16777216 files with 255-byte names. -/
theorem count_bigDir :
    CountFilesInDirectoryTree [119, 119, 119] 0 true (manyFiles 16777216)
      = .ok (16777216, 0) := by
  obtain ⟨c, s, h⟩ := countLoop_manyFiles [119, 119, 119] 0 16777216 0 0
  have h1 : CountFilesInDirectoryTree [119, 119, 119] 0 true (manyFiles 16777216)
      = .ok (c, s) := by
    unfold CountFilesInDirectoryTree
    simpa using h
  obtain ⟨hc, hs⟩ := count_ok_mod _ _ _ _ _ _ h1
  rw [fileTotal_manyFiles] at hc
  rw [nameTotal_manyFiles] at hs
  rw [h1, hc, hs]
  norm_num [U32]

/-- The filename size wraps: on a directory of 16777216 files with 255-byte
names the counting pass started with prefix length 0 returns the filename size 0,
while the sum of basename length + 1 over the files is 4294967296. -/
theorem C8_counterexample :
    CountFilesInDirectoryTree [119, 119, 119] 0 true (manyFiles 16777216)
      = .ok (16777216, 0) ∧
    nameTotal 0 (manyFiles 16777216) = 4294967296 := by
  refine ⟨count_bigDir, ?_⟩
  rw [nameTotal_manyFiles]

/-! ## The image writer -/

theorem fwrite_append (ops : FileOps) (f : OutFile) (bytes : List Nat)
    (hp : f.pos = f.data.length) (h : (fwrite ops f bytes).1 = 1) :
    bytes ≠ [] ∧
    (fwrite ops f bytes).2 = { data := f.data ++ bytes, pos := f.data.length + bytes.length } := by
  unfold fwrite at h ⊢
  split at h
  · simp at h
  · rename_i hne
    simp only at h
    split at h
    · rename_i hl
      have hs : bytes.take (ops.accept f.pos bytes.length) = bytes := by
        apply List.take_of_length_le
        simp only [List.length_take] at hl
        omega
      refine ⟨fun hb => hne (by simp [hb]), ?_⟩
      rw [if_neg hne]
      simp only [hs]
      simp only [memcpy, blit, hp, List.take_length, OutFile.mk.injEq, and_true]
      rw [List.drop_of_length_le (by omega)]
      simp
    · simp at h

theorem get_mid {α : Type} (pre : List α) (e : α) (rest : List α)
    (h : pre.length < (pre ++ e :: rest).length) :
    (pre ++ e :: rest).get ⟨pre.length, h⟩ = e := by
  induction pre with
  | nil => rfl
  | cons a pre ih => exact ih (by simp at h; simp)

theorem set_mid {α : Type} (pre : List α) (e x : α) (rest : List α) :
    (pre ++ e :: rest).set pre.length x = (pre ++ [x]) ++ rest := by
  induction pre with
  | nil => simp
  | cons a pre ih => simp [ih]

theorem ret_ne {α : Type} {x y : α} (h : some (1, x) = some (0, y)) : False := by
  simp at h

theorem ftell_nonneg (pos : Nat) (h : ¬ ftell pos < 0) :
    pos ≤ LONG_MAX ∧ ftell pos = (pos : Int) := by
  unfold ftell at h ⊢
  split
  · rename_i hle; exact ⟨hle, rfl⟩
  · rename_i hle; rw [if_neg hle] at h; omega

theorem writeEntry_ok (ops : FileOps) (root buffer : List Nat) (fbp : Nat)
    (e : SFileSystemEntry) (out : OutFile) (bs : Nat) (hp : out.pos = out.data.length)
    (h : (writeEntry ops root buffer fbp e out bs).1 = 0) :
    ∃ content, ops.fopenSrc (srcPath root buffer fbp e) = some content ∧
      out.data.length ≤ LONG_MAX ∧ content.length ≤ LONG_MAX ∧
      (writeEntry ops root buffer fbp e out bs).2.1
        = { e with FileBinaryOffset := out.data.length, FileBinarySize := content.length } ∧
      (writeEntry ops root buffer fbp e out bs).2.2.1
        = { data := out.data ++ content, pos := out.data.length + content.length } := by
  generalize hres : writeEntry ops root buffer fbp e out bs = res at h ⊢
  unfold writeEntry at hres
  simp only at hres
  split at hres
  · subst hres; simp at h
  · rename_i hsp
    obtain ⟨hpos, hft⟩ := ftell_nonneg _ hsp
    split at hres
    · subst hres; simp at h
    · rename_i content hopen
      split at hres
      · subst hres; simp at h
      · split at hres
        · subst hres; simp at h
        · rename_i hfs
          obtain ⟨hclen, hcft⟩ := ftell_nonneg _ hfs
          have hU1 : out.pos % U32 = out.data.length := by
            rw [hp] at hpos ⊢
            exact Nat.mod_eq_of_lt (by simp only [U32, LONG_MAX] at *; omega)
          have hU2 : content.length % U32 = content.length :=
            Nat.mod_eq_of_lt (by simp only [U32, LONG_MAX] at *; omega)
          simp only [hft, hcft, Int.toNat_ofNat, hU1, hU2, List.take_length] at hres
          refine ⟨content, hopen, by rw [← hp]; exact hpos, hclen, ?_⟩
          split at hres
          · subst hres; simp at h
          · split at hres
            · split at hres
              · subst hres; simp at h
              · split at hres
                · subst hres; simp at h
                · split at hres
                  · subst hres; simp at h
                  · rename_i hw
                    have hw1 : (fwrite ops out content).1 = 1 := by simpa using hw
                    obtain ⟨_, hw2⟩ := fwrite_append ops out _ hp hw1
                    subst hres
                    simp only [hw2, and_self]
            · rename_i hgt
              have hc0 : content = [] := by
                have : content.length = 0 := by omega
                exact List.length_eq_zero.1 this
              subst hres
              subst hc0
              cases out
              simp only at hp
              simp [hp]

theorem writeLoop_ok (ops : FileOps) (root buffer : List Nat) (fbp : Nat)
    (es : List SFileSystemEntry) :
    ∀ (pre post : List SFileSystemEntry) (out : OutFile) (bs : Nat) (st1 : LoopState),
    out.pos = out.data.length →
    writeLoop ops root buffer fbp es.length pre.length
      { entries := pre ++ (es ++ post), out := out, BufferSize := bs } = some (0, st1) →
    st1.entries = pre ++ (patched ops root buffer fbp out.data.length es ++ post) ∧
    st1.out.data = out.data ++ payload ops root buffer fbp es ∧
    st1.out.pos = st1.out.data.length ∧
    (∀ e ∈ es, ∃ c, ops.fopenSrc (srcPath root buffer fbp e) = some c) ∧
    (∀ e ∈ patched ops root buffer fbp out.data.length es,
      e.FileBinaryOffset ≤ LONG_MAX ∧ e.FileBinarySize ≤ LONG_MAX) := by
  induction es with
  | nil =>
      intro pre post out bs st1 hp h
      simp only [List.length_nil, writeLoop, Option.some.injEq, Prod.mk.injEq, true_and] at h
      subst h
      simp [patched, payload, hp]
  | cons e es ih =>
      intro pre post out bs st1 hp h
      have hlt : pre.length < (pre ++ (e :: es ++ post)).length := by
        simp only [List.length_append, List.length_cons]; omega
      simp only [List.length_cons, writeLoop] at h
      rw [dif_pos hlt] at h
      have hget : (pre ++ (e :: es ++ post)).get ⟨pre.length, hlt⟩ = e :=
        get_mid pre e (es ++ post) hlt
      simp only [hget] at h
      by_cases hr : (writeEntry ops root buffer fbp e out bs).1 ≠ 0
      · rw [if_pos hr] at h
        exact (ret_ne h).elim
      · rw [if_neg hr] at h
        have hr0 : (writeEntry ops root buffer fbp e out bs).1 = 0 := by simpa using hr
        obtain ⟨content, hopen, hpos, hclen, he, ho⟩ :=
          writeEntry_ok ops root buffer fbp e out bs hp hr0
        have hsrc : srcContent ops root buffer fbp e = content := by
          simp only [srcContent, hopen, Option.getD_some]
        have hset : (pre ++ (e :: es ++ post)).set pre.length
            { e with FileBinaryOffset := out.data.length, FileBinarySize := content.length }
            = (pre ++ [{ e with FileBinaryOffset := out.data.length,
                                FileBinarySize := content.length }]) ++ (es ++ post) :=
          set_mid pre e _ (es ++ post)
        rw [he, ho, hset] at h
        have hlen1 : pre.length + 1 = (pre ++ [{ e with
            FileBinaryOffset := out.data.length,
            FileBinarySize := content.length }]).length := by simp
        rw [hlen1] at h
        obtain ⟨g1, g2, g3, g4, g5⟩ := ih _ post _ _ st1 (by simp) h
        simp only [List.length_append] at g1 g5
        refine ⟨?_, ?_, g3, ?_, ?_⟩
        · rw [g1]; simp [patched, hsrc]
        · rw [g2]; simp [payload, hsrc]
        · intro x hx
          rcases List.mem_cons.1 hx with rfl | hx
          · exact ⟨content, hopen⟩
          · exact g4 x hx
        · intro x hx
          simp only [patched, hsrc, List.mem_cons] at hx
          rcases hx with rfl | hx
          · exact ⟨hpos, hclen⟩
          · exact g5 x hx

theorem fwrite_blit (ops : FileOps) (f : OutFile) (bytes : List Nat)
    (h : (fwrite ops f bytes).1 = 1) :
    bytes ≠ [] ∧
    (fwrite ops f bytes).2 = { data := blit f.data f.pos bytes, pos := f.pos + bytes.length } := by
  unfold fwrite at h ⊢
  split at h
  · simp at h
  · rename_i hne
    simp only at h
    split at h
    · rename_i hl
      have hs : bytes.take (ops.accept f.pos bytes.length) = bytes := by
        apply List.take_of_length_le
        simp only [List.length_take] at hl
        omega
      refine ⟨fun hb => hne (by simp [hb]), ?_⟩
      rw [if_neg hne]
      simp only [hs, memcpy]
    · simp at h

theorem blit_mid {α : Type} (pre mid mid1 post : List α) (h : mid1.length = mid.length) :
    blit (pre ++ mid ++ post) pre.length mid1 = pre ++ mid1 ++ post := by
  have h1 : (pre ++ mid ++ post).take pre.length = pre := by
    rw [List.append_assoc, List.take_left]
  have h2 : (pre ++ mid ++ post).drop (pre.length + mid1.length) = post := by
    rw [h, show pre.length + mid.length = (pre ++ mid).length by simp, List.drop_left]
  unfold blit
  rw [h1, h2]

theorem length_flatMap_enc (fmt : Format) (es : List SFileSystemEntry) :
    (es.flatMap fmt.encEntry).length = fmt.entrySize * es.length := by
  induction es with
  | nil => simp
  | cons e es ih =>
      simp only [List.flatMap_cons, List.length_append, ih, fmt.encEntry_length,
        List.length_cons]
      ring

theorem length_patched (ops : FileOps) (root buffer : List Nat) (fbp : Nat)
    (es : List SFileSystemEntry) :
    ∀ pos, (patched ops root buffer fbp pos es).length = es.length := by
  induction es with
  | nil => intro pos; rfl
  | cons e es ih => intro pos; simp [patched, ih]

theorem entryBytes_full (fmt : Format) (es : List SFileSystemEntry) :
    entryBytes fmt es (fmt.entrySize * es.length) = some (es.flatMap fmt.encEntry) := by
  unfold entryBytes
  rw [length_flatMap_enc, if_pos (Nat.le_refl _)]
  congr 1
  apply List.take_of_length_le
  rw [length_flatMap_enc]

theorem ftell_pos (pos : Nat) (h : ¬ ftell pos ≤ 0) :
    pos ≤ LONG_MAX ∧ ftell pos = (pos : Int) := by
  unfold ftell at h ⊢
  split
  · rename_i hle; exact ⟨hle, rfl⟩
  · rename_i hle; rw [if_neg hle] at h; omega

theorem ret_ne3 {α β : Type} {x y : α} {u v : β} (h : some (1, x, u) = some (0, y, v)) :
    False := by
  simp at h

theorem writeFiles_ok (fmt : Format) (ops : FileOps) (b b1 : SFileSystemBuild)
    (outF : Option OutFile) (entries : List SFileSystemEntry) (buffer : List Nat)
    (out : OutFile) (fbp : Nat)
    (hlen : entries.length = b.FileCount) (hnw : fmt.entrySize * b.FileCount < U32)
    (hfbp : fbp ≤ LONG_MAX) (hpos : out.pos = out.data.length)
    (h : writeFiles fmt ops b buffer entries out (fmt.headerSize : Int) (fbp : Int)
      = some (0, b1, outF)) :
    b1 = { b with pFileEntries := some (patched ops b.pRootSourceDirectory buffer fbp
      out.data.length entries) } ∧
    outF = some
      { data := blit (out.data ++ payload ops b.pRootSourceDirectory buffer fbp entries)
          fmt.headerSize
          ((patched ops b.pRootSourceDirectory buffer fbp out.data.length
            entries).flatMap fmt.encEntry),
        pos := fmt.headerSize + fmt.entrySize * b.FileCount } ∧
    (∀ e ∈ patched ops b.pRootSourceDirectory buffer fbp out.data.length entries,
      e.FileBinaryOffset ≤ LONG_MAX ∧ e.FileBinarySize ≤ LONG_MAX) ∧
    (∀ e ∈ entries, ∃ c, ops.fopenSrc (srcPath b.pRootSourceDirectory buffer fbp e)
      = some c) := by
  have hsz : fmt.entrySize * b.FileCount % U32 = fmt.entrySize * b.FileCount :=
    Nat.mod_eq_of_lt hnw
  have hf : (fbp : Int).toNat % U32 = fbp := by
    rw [Int.toNat_ofNat]
    exact Nat.mod_eq_of_lt (by simp only [U32, LONG_MAX] at *; omega)
  unfold writeFiles at h
  rw [hf, hsz, ← hlen] at h
  split at h
  · simp at h
  · rename_i r st hloop
    dsimp only at h
    split at h
    · exact (ret_ne3 h).elim
    · rename_i hr
      have hr0 : r = 0 := by simpa using hr
      subst hr0
      have hloop2 : writeLoop ops b.pRootSourceDirectory buffer fbp entries.length
          ([] : List SFileSystemEntry).length
          { entries := [] ++ (entries ++ []), out := out, BufferSize := 0 } = some (0, st) := by
        simpa using hloop
      obtain ⟨g1, g2, g3, g4, g5⟩ := writeLoop_ok ops b.pRootSourceDirectory buffer fbp entries
        [] [] out 0 st hpos hloop2
      simp only [List.nil_append, List.append_nil] at g1
      split at h
      · exact (ret_ne3 h).elim
      · have hfull := entryBytes_full fmt st.entries
        rw [g1, length_patched] at hfull
        rw [g1, hfull] at h
        dsimp only at h
        split at h
        · exact (ret_ne3 h).elim
        · rename_i hw5
          have hw5a : (fwrite ops { data := st.out.data, pos := (fmt.headerSize : Int).toNat }
              ((patched ops b.pRootSourceDirectory buffer fbp out.data.length
                entries).flatMap fmt.encEntry)).1 = 1 := by
            simpa using hw5
          obtain ⟨_, e5⟩ := fwrite_blit ops _ _ hw5a
          simp only [Int.toNat_ofNat, length_flatMap_enc, length_patched] at e5
          simp only [Option.some.injEq, Prod.mk.injEq, true_and] at h
          obtain ⟨h1, h2⟩ := h
          refine ⟨?_, ?_, g5, g4⟩
          · rw [← h1, hlen]
          · rw [← h2]
            simp only [Int.toNat_ofNat]
            rw [e5, g2, hlen]

/-- The image and the final entry table of a `_CreateFileSystemImage` that
returns 0, for a build context whose arrays have the recorded sizes. -/
theorem CreateFileSystemImage_ok (fmt : Format) (ops : FileOps) (b b1 : SFileSystemBuild)
    (outF : Option OutFile) (entries : List SFileSystemEntry) (buffer : List Nat)
    (hE : b.pFileEntries = some entries) (hB : b.pFilenameBuffer = some buffer)
    (hlen : entries.length = b.FileCount) (hnw : fmt.entrySize * b.FileCount < U32)
    (hbl : buffer.length = b.FilenameBufferSize)
    (h : CreateFileSystemImage fmt ops b = some (0, b1, outF)) :
    0 < b.FileCount ∧ 0 < b.FilenameBufferSize ∧
    fmt.headerSize + fmt.entrySize * b.FileCount ≤ LONG_MAX ∧
    b1 = { b with pFileEntries := some (patched ops b.pRootSourceDirectory buffer
      (fmt.headerSize + fmt.entrySize * b.FileCount)
      (fmt.headerSize + fmt.entrySize * b.FileCount + buffer.length) entries) } ∧
    outF = some
      { data := fmt.encHeader b.FileCount ++
          (patched ops b.pRootSourceDirectory buffer
            (fmt.headerSize + fmt.entrySize * b.FileCount)
            (fmt.headerSize + fmt.entrySize * b.FileCount + buffer.length)
            entries).flatMap fmt.encEntry ++
          (buffer ++ payload ops b.pRootSourceDirectory buffer
            (fmt.headerSize + fmt.entrySize * b.FileCount) entries),
        pos := fmt.headerSize + fmt.entrySize * b.FileCount } ∧
    (∀ e ∈ patched ops b.pRootSourceDirectory buffer
        (fmt.headerSize + fmt.entrySize * b.FileCount)
        (fmt.headerSize + fmt.entrySize * b.FileCount + buffer.length) entries,
      e.FileBinaryOffset ≤ LONG_MAX ∧ e.FileBinarySize ≤ LONG_MAX) ∧
    (∀ e ∈ entries, ∃ c, ops.fopenSrc (srcPath b.pRootSourceDirectory buffer
      (fmt.headerSize + fmt.entrySize * b.FileCount) e) = some c) := by
  have hsz : fmt.entrySize * b.FileCount % U32 = fmt.entrySize * entries.length := by
    rw [hlen]; exact Nat.mod_eq_of_lt hnw
  unfold CreateFileSystemImage at h
  rw [hB, hE] at h
  dsimp only at h
  split at h
  · exact (ret_ne3 h).elim
  · split at h
    · exact (ret_ne3 h).elim
    · rename_i hw1
      have hw1a : (fwrite ops { data := [], pos := 0 } (fmt.encHeader b.FileCount)).1 = 1 := by
        simpa using hw1
      obtain ⟨_, e1⟩ := fwrite_append ops _ _ rfl hw1a
      simp only [List.nil_append, List.length_nil, Nat.zero_add, fmt.encHeader_length] at e1
      rw [e1] at h
      dsimp only at h
      split at h
      · exact (ret_ne3 h).elim
      · rename_i hfe
        have hfe1 : ftell fmt.headerSize = (fmt.headerSize : Int) := by simpa using hfe
        rw [hfe1] at h
        unfold writeTables at h
        rw [hsz, entryBytes_full] at h
        dsimp only at h
        split at h
        · exact (ret_ne3 h).elim
        · rename_i hw2
          have hw2a : (fwrite ops { data := fmt.encHeader b.FileCount, pos := fmt.headerSize }
              (entries.flatMap fmt.encEntry)).1 = 1 := by simpa using hw2
          obtain ⟨hne2, e2⟩ := fwrite_append ops _ _ (by simp [fmt.encHeader_length]) hw2a
          simp only [fmt.encHeader_length, length_flatMap_enc] at e2
          rw [e2] at h
          dsimp only at h
          split at h
          · exact (ret_ne3 h).elim
          · rename_i hfp
            obtain ⟨hpos, hft⟩ := ftell_pos _ hfp
            split at h
            · simp at h
            · have htk : buffer.take b.FilenameBufferSize = buffer :=
                List.take_of_length_le (by omega)
              rw [htk] at h
              split at h
              · exact (ret_ne3 h).elim
              · rename_i hw3
                have hw3a : (fwrite ops
                    { data := fmt.encHeader b.FileCount ++ entries.flatMap fmt.encEntry,
                      pos := fmt.headerSize + fmt.entrySize * entries.length } buffer).1 = 1 := by
                  simpa using hw3
                obtain ⟨hne3, e3⟩ := fwrite_append ops _ _
                  (by simp only [List.length_append, fmt.encHeader_length,
                    length_flatMap_enc]) hw3a
                rw [e3, hft] at h
                rw [hlen] at hpos h
                dsimp only at h
                obtain ⟨k1, k2, k3, k4⟩ := writeFiles_ok fmt ops b b1 outF entries buffer _ _
                  hlen hnw hpos (by simp only [List.length_append]) h
                have hdl : (fmt.encHeader b.FileCount ++ entries.flatMap fmt.encEntry
                    ++ buffer).length
                    = fmt.headerSize + fmt.entrySize * b.FileCount + buffer.length := by
                  simp only [List.length_append, fmt.encHeader_length, length_flatMap_enc, hlen]
                simp only [hdl] at k1 k2 k3
                have hC : 0 < b.FileCount := by
                  rcases Nat.eq_zero_or_pos b.FileCount with h0 | h0
                  · exfalso; apply hne2
                    have : entries = [] := List.length_eq_zero.1 (by omega)
                    simp [this]
                  · exact h0
                have hS : 0 < b.FilenameBufferSize := by
                  rcases Nat.eq_zero_or_pos b.FilenameBufferSize with h0 | h0
                  · exfalso; apply hne3
                    exact List.length_eq_zero.1 (by omega)
                  · exact h0
                refine ⟨hC, hS, hpos, k1, ?_, k3, k4⟩
                rw [k2]
                congr 2
                have := blit_mid (fmt.encHeader b.FileCount) (entries.flatMap fmt.encEntry)
                  ((patched ops b.pRootSourceDirectory buffer
                    (fmt.headerSize + fmt.entrySize * b.FileCount)
                    (fmt.headerSize + fmt.entrySize * b.FileCount + buffer.length)
                    entries).flatMap fmt.encEntry)
                  (buffer ++ payload ops b.pRootSourceDirectory buffer
                    (fmt.headerSize + fmt.entrySize * b.FileCount) entries)
                  (by simp only [length_flatMap_enc, length_patched])
                rw [fmt.encHeader_length] at this
                rw [← this]
                simp [List.append_assoc]

/-! ## Claims about the image -/

theorem take_drop_mid {α : Type} (H T R : List α) (n m : Nat) (hn : H.length = n)
    (hm : T.length = m) : ((H ++ T ++ R).drop n).take m = T := by
  subst hn; subst hm
  rw [List.append_assoc, List.drop_left, List.take_left]

theorem sum_sizes_patched (ops : FileOps) (root buffer : List Nat) (fbp : Nat)
    (es : List SFileSystemEntry) :
    ∀ pos, ((patched ops root buffer fbp pos es).map (fun e => e.FileBinarySize)).sum
      = (payload ops root buffer fbp es).length := by
  induction es with
  | nil => intro pos; rfl
  | cons e es ih =>
      intro pos
      simp only [patched, List.map_cons, List.sum_cons, ih, payload, List.flatMap_cons,
        List.length_append]

/-- The final entry table, the filename buffer and the output file of a whole
successful build. -/
theorem build_image (fmt : Format) (libc : Libc) (ops : FileOps) (open1 open2 : Bool)
    (t1 t2 : Dir) (b b1 b2 : SFileSystemBuild) (out : Option OutFile)
    (hw : wellFormed t2 = true)
    (h : BuildOk fmt libc ops open1 open2 t1 t2 b b1 b2 out) :
    ∃ sorted buffer,
      b1.pFileEntries = some sorted ∧ b1.pFilenameBuffer = some buffer ∧
      sorted.length = b1.FileCount ∧ buffer.length = b1.FilenameBufferSize ∧
      b2.FileCount = b1.FileCount ∧ b2.FilenameBufferSize = b1.FilenameBufferSize ∧
      0 < b1.FileCount ∧ 0 < b1.FilenameBufferSize ∧
      fmt.headerSize + fmt.entrySize * b1.FileCount ≤ LONG_MAX ∧
      b2.pFileEntries = some (patched ops b1.pRootSourceDirectory buffer
        (fmt.headerSize + fmt.entrySize * b1.FileCount)
        (fmt.headerSize + fmt.entrySize * b1.FileCount + buffer.length) sorted) ∧
      out = some
        { data := fmt.encHeader b1.FileCount ++
            (patched ops b1.pRootSourceDirectory buffer
              (fmt.headerSize + fmt.entrySize * b1.FileCount)
              (fmt.headerSize + fmt.entrySize * b1.FileCount + buffer.length)
              sorted).flatMap fmt.encEntry ++
            (buffer ++ payload ops b1.pRootSourceDirectory buffer
              (fmt.headerSize + fmt.entrySize * b1.FileCount) sorted),
          pos := fmt.headerSize + fmt.entrySize * b1.FileCount } ∧
      (∀ e ∈ patched ops b1.pRootSourceDirectory buffer
          (fmt.headerSize + fmt.entrySize * b1.FileCount)
          (fmt.headerSize + fmt.entrySize * b1.FileCount + buffer.length) sorted,
        e.FileBinaryOffset ≤ LONG_MAX ∧ e.FileBinarySize ≤ LONG_MAX) := by
  obtain ⟨hl, hi⟩ := h
  obtain ⟨sorted, buffer, unsorted, h1, h2, h3, h4, _, _, _, _, h9⟩ :=
    list_names fmt libc open1 open2 t1 t2 b b1 hw hl
  obtain ⟨k1, k2, k3, k4, k5, k6, _⟩ :=
    CreateFileSystemImage_ok fmt ops b1 b2 out sorted buffer h1 h2 h3 h9 h4 hi
  refine ⟨sorted, buffer, h1, h2, h3, h4, ?_, ?_, k1, k2, k3, ?_, k5, k6⟩
  · rw [k4]
  · rw [k4]
  · rw [k4]

/-- C4: in a successful build the length of the output image is
`sizeof(SFileSystemHeader) + FileCount * sizeof(SFileSystemEntry) +
FilenameBufferSize` plus the sum of `FileBinarySize` over the final entry
table. -/
theorem C4_size_accounting (fmt : Format) (libc : Libc) (ops : FileOps) (open1 open2 : Bool)
    (t1 t2 : Dir) (b b1 b2 : SFileSystemBuild) (out : Option OutFile)
    (hw : wellFormed t2 = true)
    (h : BuildOk fmt libc ops open1 open2 t1 t2 b b1 b2 out) :
    ∃ image table, out = some image ∧ b2.pFileEntries = some table ∧
      image.data.length = fmt.headerSize + b2.FileCount * fmt.entrySize
        + b2.FilenameBufferSize + (table.map (fun e => e.FileBinarySize)).sum := by
  obtain ⟨sorted, buffer, _, _, h3, h4, h5, h6, _, _, _, h10, h11, _⟩ :=
    build_image fmt libc ops open1 open2 t1 t2 b b1 b2 out hw h
  refine ⟨_, _, h11, h10, ?_⟩
  rw [sum_sizes_patched, h5, h6]
  simp only [List.length_append, fmt.encHeader_length, length_flatMap_enc, length_patched,
    h3, h4]
  rw [Nat.mul_comm b1.FileCount]
  omega

theorem sampleBuild_run :
    BuildOk ffsFormat stdLibc (treeOps [119, 119, 119] sampleTree) true true
      sampleTree sampleTree sampleInit sampleList sampleBuilt (some sampleImage) :=
  ⟨by decide, by decide⟩

theorem C4_size_accounting_witness :
    wellFormed sampleTree = true ∧
    BuildOk ffsFormat stdLibc (treeOps [119, 119, 119] sampleTree) true true
      sampleTree sampleTree sampleInit sampleList sampleBuilt (some sampleImage) ∧
    ∃ image table, some sampleImage = some image ∧ sampleBuilt.pFileEntries = some table ∧
      image.data.length = ffsFormat.headerSize + sampleBuilt.FileCount * ffsFormat.entrySize
        + sampleBuilt.FilenameBufferSize + (table.map (fun e => e.FileBinarySize)).sum :=
  ⟨by decide, ⟨by decide, by decide⟩,
   C4_size_accounting ffsFormat stdLibc (treeOps [119, 119, 119] sampleTree) true true
     sampleTree sampleTree sampleInit sampleList sampleBuilt (some sampleImage)
     (by decide) ⟨by decide, by decide⟩⟩

/-- C5: after a successful build no entry of the entry array has
`FileBinaryOffset` equal to the sentinel 0xFFFFFFFF: each holds an output
position that fits a `long`; and the entry table in the image is the
encoding of that array. -/
theorem C5_no_sentinel (fmt : Format) (libc : Libc) (ops : FileOps) (open1 open2 : Bool)
    (t1 t2 : Dir) (b b1 b2 : SFileSystemBuild) (out : Option OutFile)
    (hw : wellFormed t2 = true)
    (h : BuildOk fmt libc ops open1 open2 t1 t2 b b1 b2 out) :
    ∃ image table, out = some image ∧ b2.pFileEntries = some table ∧
      table.length = b2.FileCount ∧
      (∀ e ∈ table, e.FileBinaryOffset ≤ LONG_MAX ∧ e.FileBinaryOffset ≠ 4294967295) ∧
      (image.data.drop fmt.headerSize).take (fmt.entrySize * b2.FileCount)
        = table.flatMap fmt.encEntry := by
  obtain ⟨sorted, buffer, _, _, h3, h4, h5, h6, _, _, _, h10, h11, h12⟩ :=
    build_image fmt libc ops open1 open2 t1 t2 b b1 b2 out hw h
  refine ⟨_, _, h11, h10, ?_, ?_, ?_⟩
  · rw [length_patched, h3, h5]
  · intro e he
    have := (h12 e he).1
    exact ⟨this, by simp only [LONG_MAX] at this; omega⟩
  · exact take_drop_mid _ _ _ _ _ (fmt.encHeader_length _)
      (by rw [length_flatMap_enc, length_patched, h3, h5])

theorem C5_no_sentinel_witness :
    wellFormed sampleTree = true ∧
    BuildOk ffsFormat stdLibc (treeOps [119, 119, 119] sampleTree) true true
      sampleTree sampleTree sampleInit sampleList sampleBuilt (some sampleImage) ∧
    ∃ image table, some sampleImage = some image ∧ sampleBuilt.pFileEntries = some table ∧
      table.length = sampleBuilt.FileCount ∧
      (∀ e ∈ table, e.FileBinaryOffset ≤ LONG_MAX ∧ e.FileBinaryOffset ≠ 4294967295) ∧
      (image.data.drop ffsFormat.headerSize).take (ffsFormat.entrySize * sampleBuilt.FileCount)
        = table.flatMap ffsFormat.encEntry :=
  ⟨by decide, ⟨by decide, by decide⟩,
   C5_no_sentinel ffsFormat stdLibc (treeOps [119, 119, 119] sampleTree) true true
     sampleTree sampleTree sampleInit sampleList sampleBuilt (some sampleImage)
     (by decide) ⟨by decide, by decide⟩⟩

theorem popEntries_mem (start : Nat) (vs : List (List Nat × List Nat)) :
    ∀ cur e, cur + (blob vs).length < U32 → e ∈ popEntries start cur vs →
    ∃ pre v post, vs = pre ++ v :: post ∧
      e = { FilenameOffset := (start + (cur + (blob pre).length)) % U32,
            FileBinaryOffset := U32 - 1, FileBinarySize := 0 } := by
  induction vs with
  | nil => intro cur e _ he; simp [popEntries] at he
  | cons v vs ih =>
      intro cur e h he
      rw [blob_cons] at h
      simp only [List.length_append, List.length_singleton] at h
      simp only [popEntries, List.mem_cons] at he
      rcases he with rfl | he
      · exact ⟨[], v, vs, rfl, by simp [blob]⟩
      · have hm : (cur + (v.1.length + v.2.length + 1)) % U32
            = cur + (v.1.length + v.2.length + 1) := Nat.mod_eq_of_lt (by omega)
        rw [hm] at he
        obtain ⟨pre, w, post, h1, h2⟩ := ih _ e (by omega) he
        refine ⟨v :: pre, w, post, by rw [h1]; rfl, ?_⟩
        rw [h2, blob_cons]
        simp only [List.length_append, List.length_singleton]
        congr 2
        omega

/-- Where the bytes of one file lie in the data the file loop appends. -/
theorem patched_region (ops : FileOps) (root buffer : List Nat) (fbp : Nat)
    (es : List SFileSystemEntry) :
    ∀ (X : List Nat) (e : SFileSystemEntry),
    e ∈ patched ops root buffer fbp X.length es →
    ((X ++ payload ops root buffer fbp es).drop e.FileBinaryOffset).take e.FileBinarySize
      = srcContent ops root buffer fbp e ∧
    ∃ e0 ∈ es, e.FilenameOffset = e0.FilenameOffset := by
  induction es with
  | nil => intro X e he; simp [patched] at he
  | cons a es ih =>
      intro X e he
      simp only [patched, List.mem_cons] at he
      have hpay : payload ops root buffer fbp (a :: es)
          = srcContent ops root buffer fbp a ++ payload ops root buffer fbp es := by
        simp [payload]
      rcases he with rfl | he
      · refine ⟨?_, a, List.mem_cons_self _ _, rfl⟩
        simp only [hpay, List.drop_left]
        have hs : srcContent ops root buffer fbp
            { a with FileBinaryOffset := X.length,
                     FileBinarySize := (srcContent ops root buffer fbp a).length }
            = srcContent ops root buffer fbp a := rfl
        rw [hs, List.take_left]
      · have hX : X.length + (srcContent ops root buffer fbp a).length
            = (X ++ srcContent ops root buffer fbp a).length := by simp
        rw [hX] at he
        obtain ⟨g1, e0, g2, g3⟩ := ih _ e he
        refine ⟨?_, e0, List.mem_cons_of_mem _ g2, g3⟩
        rw [hpay, ← List.append_assoc]
        exact g1

/-- What the image of a successful build holds for each entry of the final
table: the string at image offset `FilenameOffset` is the relative path of a
file of the tree, and the bytes at `FileBinaryOffset`, `FileBinarySize` of
them, are the bytes of the file `fopen` opens for the path the writer
composes from that string. -/
theorem image_content (fmt : Format) (libc : Libc) (ops : FileOps) (open1 open2 : Bool)
    (t1 t2 : Dir) (b b1 b2 : SFileSystemBuild) (out : Option OutFile)
    (hw : wellFormed t2 = true)
    (h : BuildOk fmt libc ops open1 open2 t1 t2 b b1 b2 out) :
    ∃ image table, out = some image ∧ b2.pFileEntries = some table ∧
      ∀ e ∈ table,
        cstrAt image.data e.FilenameOffset ∈ (relFiles [] t2).map Prod.fst ∧
        ∃ content,
          ops.fopenSrc (snprintf PATH_CAP
            (b.pRootSourceDirectory ++ [92] ++ cstrAt image.data e.FilenameOffset))
            = some content ∧
          (image.data.drop e.FileBinaryOffset).take e.FileBinarySize = content := by
  obtain ⟨hl, hi⟩ := h
  obtain ⟨C, S, hc, hlen, hbl, hC, hS, hnw, hb, hheap⟩ :=
    CreateFileList_ok fmt libc open1 open2 t1 t2 b b1 hw hl
  have hjl : ((List.range S).map libc.junkByte).length = S := by simp
  have hbuf : blit ((List.range S).map libc.junkByte) 0 (blob (visits [] t2))
      = blob (visits [] t2) ++ ((List.range S).map libc.junkByte).drop
          (blob (visits [] t2)).length := by
    simp [blit]
  have hE1 : b1.pFileEntries = some (libc.qsort
      (CompareFileEntries (blit ((List.range S).map libc.junkByte) 0 (blob (visits [] t2)))
        ((fmt.headerSize + (C * fmt.entrySize) % U32) % U32))
      (popEntries ((fmt.headerSize + (C * fmt.entrySize) % U32) % U32) 0 (visits [] t2))) := by
    rw [hb]; rfl
  have hB1 : b1.pFilenameBuffer
      = some (blit ((List.range S).map libc.junkByte) 0 (blob (visits [] t2))) := by
    rw [hb]; rfl
  have hFC : b1.FileCount = C := by rw [hb]; rfl
  have hFS : b1.FilenameBufferSize = S := by rw [hb]; rfl
  have hroot : b1.pRootSourceDirectory = b.pRootSourceDirectory := by rw [hb]; rfl
  have hperm := libc.qsort_perm
    (CompareFileEntries (blit ((List.range S).map libc.junkByte) 0 (blob (visits [] t2)))
      ((fmt.headerSize + (C * fmt.entrySize) % U32) % U32))
    (popEntries ((fmt.headerSize + (C * fmt.entrySize) % U32) % U32) 0 (visits [] t2))
  generalize hsd : libc.qsort
    (CompareFileEntries (blit ((List.range S).map libc.junkByte) 0 (blob (visits [] t2)))
      ((fmt.headerSize + (C * fmt.entrySize) % U32) % U32))
    (popEntries ((fmt.headerSize + (C * fmt.entrySize) % U32) % U32) 0 (visits [] t2))
    = sorted at hE1 hperm
  generalize hbd : blit ((List.range S).map libc.junkByte) 0 (blob (visits [] t2))
    = buffer at hB1 hbuf
  have hblen : buffer.length = S := by
    rw [← hbd, length_blit _ _ _ (by simpa using hbl)]; simp
  have hslen : sorted.length = C := by
    rw [hperm.length_eq, length_popEntries]; exact hlen
  obtain ⟨k1, k2, k3, k4, k5, k6, k7⟩ :=
    CreateFileSystemImage_ok fmt ops b1 b2 out sorted buffer hE1 hB1
      (by rw [hslen, hFC]) (by rw [hFC]; exact hnw) (by rw [hblen, hFS]) hi
  rw [hFC] at k3 k4 k5 k6 k7
  rw [hroot] at k4 k5 k6 k7
  have hstart : (fmt.headerSize + (C * fmt.entrySize) % U32) % U32
      = fmt.headerSize + fmt.entrySize * C := by
    rw [Nat.mul_comm C, Nat.mod_eq_of_lt hnw]
    exact Nat.mod_eq_of_lt (by simp only [U32, LONG_MAX] at *; omega)
  have hfirst : fmt.headerSize + fmt.entrySize * C + buffer.length ≤ LONG_MAX := by
    cases hsc : sorted with
    | nil => rw [hsc] at hslen; simp at hslen; omega
    | cons a rest =>
        rw [hsc] at k6
        exact (k6 { a with
          FileBinaryOffset := fmt.headerSize + fmt.entrySize * C + buffer.length,
          FileBinarySize := (srcContent ops b.pRootSourceDirectory buffer
            (fmt.headerSize + fmt.entrySize * C) a).length }
          (by simp only [patched, List.mem_cons, true_or])).1
  refine ⟨_, _, k5, by rw [k4], ?_⟩
  intro e he
  obtain ⟨hreg, e0, he0, hoff⟩ := patched_region ops b.pRootSourceDirectory buffer
    (fmt.headerSize + fmt.entrySize * C) sorted
    (fmt.encHeader C ++ (patched ops b.pRootSourceDirectory buffer
      (fmt.headerSize + fmt.entrySize * C)
      (fmt.headerSize + fmt.entrySize * C + buffer.length) sorted).flatMap fmt.encEntry
      ++ buffer) e
    (by
      simp only [List.length_append, fmt.encHeader_length, length_flatMap_enc, length_patched,
        hslen]
      exact he)
  obtain ⟨pre, v, post, hvs, he0eq⟩ := popEntries_mem _ (visits [] t2) 0 e0 (by omega)
    (hperm.subset he0)
  have hnul : 0 ∉ v.1 ++ v.2 :=
    visits_nul t2 [] hw (by simp) v (by rw [hvs]; simp)
  have hbsplit : buffer = blob pre ++ (v.1 ++ v.2 ++ [0]) ++
      (blob post ++ ((List.range S).map libc.junkByte).drop (blob (visits [] t2)).length) := by
    rw [hbuf, hvs, blob_append, blob_cons]
    simp only [List.append_assoc]
  have hprelen : (blob pre).length < buffer.length := by
    rw [hbsplit]; simp only [List.length_append, List.length_singleton]; omega
  have hFO : e.FilenameOffset = fmt.headerSize + fmt.entrySize * C + (blob pre).length := by
    rw [hoff, he0eq, hstart]
    simp only [Nat.zero_add]
    exact Nat.mod_eq_of_lt (by simp only [U32, LONG_MAX] at *; omega)
  have hname : cstrAt (fmt.encHeader C ++ (patched ops b.pRootSourceDirectory buffer
      (fmt.headerSize + fmt.entrySize * C)
      (fmt.headerSize + fmt.entrySize * C + buffer.length) sorted).flatMap fmt.encEntry
      ++ (buffer ++ payload ops b.pRootSourceDirectory buffer
        (fmt.headerSize + fmt.entrySize * C) sorted)) e.FilenameOffset = v.1 ++ v.2 := by
    have := cstrAt_at (fmt.encHeader C ++ (patched ops b.pRootSourceDirectory buffer
      (fmt.headerSize + fmt.entrySize * C)
      (fmt.headerSize + fmt.entrySize * C + buffer.length) sorted).flatMap fmt.encEntry
      ++ blob pre) (v.1 ++ v.2)
      (blob post ++ ((List.range S).map libc.junkByte).drop (blob (visits [] t2)).length
        ++ payload ops b.pRootSourceDirectory buffer
          (fmt.headerSize + fmt.entrySize * C) sorted) hnul
    simp only [List.length_append, fmt.encHeader_length, length_flatMap_enc, length_patched,
      hslen] at this
    rw [hFO, ← this]
    congr 1
    rw [hbsplit]
    simp only [List.append_assoc]
  have hname2 : cstrAt buffer ((e.FilenameOffset + U32
      - (fmt.headerSize + fmt.entrySize * C) % U32) % U32) = v.1 ++ v.2 := by
    have := cstrAt_at (blob pre) (v.1 ++ v.2)
      (blob post ++ ((List.range S).map libc.junkByte).drop (blob (visits [] t2)).length) hnul
    rw [← hbsplit] at this
    rw [← this]
    congr 1
    rw [hFO]
    simp only [U32, LONG_MAX] at *
    omega
  obtain ⟨c, hc0⟩ := k7 e0 he0
  have hpath : srcPath b.pRootSourceDirectory buffer (fmt.headerSize + fmt.entrySize * C) e0
      = snprintf PATH_CAP (b.pRootSourceDirectory ++ [92] ++ (v.1 ++ v.2)) := by
    simp only [srcPath]
    rw [← hoff, hname2]
  have hsc : srcContent ops b.pRootSourceDirectory buffer (fmt.headerSize + fmt.entrySize * C) e
      = c := by
    simp only [srcContent, srcPath]
    rw [hname2, ← hpath, hc0]
    rfl
  simp only
  rw [hname]
  refine ⟨?_, c, ?_, ?_⟩
  · rw [relFiles_eq_visits, hvs]
    simp
  · rw [← hpath, hc0]
  · rw [← hsc, ← List.append_assoc]
    exact hreg

set_option maxRecDepth 100000 in
/-- C1 fails on the code: with a root directory name of 1000 bytes holding
the files "x"*22 (content 1) and "x"*30 (content 2) the build succeeds, the
second entry of the final table names "x"*30 (the string at image offset 59),
but the byte the image holds at its `FileBinaryOffset` 91 is 1, the content
of "x"*22: the path composed for "x"*30 is cut to 1023 bytes by `snprintf`
and names the other file, while the file "x"*30 itself holds 2. -/
theorem C1_truncated_source_path :
    wellFormed longTree = true ∧
    BuildOk ffsFormat stdLibc (treeOps longRoot longTree) true true longTree longTree
      (initBuild longRoot [111]) longList
      { longList with pFileEntries := some longTable } (some longImage) ∧
    cstrAt longImage.data 59 = List.replicate 30 120 ∧
    (longImage.data.drop 91).take 1 = [1] ∧
    (treeOps longRoot longTree).fopenSrc (longRoot ++ [92] ++ List.replicate 30 120)
      = some [2] ∧
    srcPath longRoot (List.replicate 22 120 ++ [0] ++ List.replicate 30 120 ++ [0]) 36
        { FilenameOffset := 59, FileBinaryOffset := 4294967295, FileBinarySize := 0 }
      = longRoot ++ [92] ++ List.replicate 22 120 := by
  refine ⟨by decide, ⟨by decide, by decide⟩, by decide, by decide, by decide, by decide⟩

/-! ## Agreement of the two passes -/

theorem countLoop_walkable (d : Dir) : ∀ (host : List Nat) (P c s : Nat) (r : Nat × Nat),
    countLoop host P d c s = .ok r → walkable host d = true := by
  induction d with
  | done => intro host P c s r _; rfl
  | file name content rest ih =>
      intro host P c s r h
      simp only [countLoop] at h
      simp only [walkable]
      exact ih _ _ _ _ _ h
  | sub name canOpen inner rest ihi ihr =>
      intro host P c s r h
      simp only [countLoop] at h
      simp only [walkable]
      split at h
      · rename_i hn
        rw [if_pos hn]
        split at h
        · cases h
        · rename_i hchk
          split at h
          · cases h
          · rename_i hop
            split at h
            · cases h
            · rename_i fc fs heq
              have h1 := ihi _ _ _ _ _ heq
              have h2 := ihr _ _ _ _ _ h
              have hop2 : canOpen = true := by simpa using hop
              simp only [h1, h2, hop2, Bool.and_true, decide_eq_true_eq]
              omega
      · rename_i hn
        rw [if_neg hn]
        exact ihr _ _ _ _ _ h

theorem populateFile_succeeds (img name : List Nat) (b : SFileSystemBuild)
    (E : List SFileSystemEntry) (B : List Nat)
    (hE : b.pFileEntries = some E) (hB : b.pFilenameBuffer = some B)
    (hi : img.length ≤ 511) (hn : name.length < 65536)
    (hF : b.FilesLeft ≠ 0) (hpe : b.pCurrEntry < E.length)
    (hpb : b.pCurrFilename + (img.length + name.length + 1) ≤ B.length)
    (hck : b.CurrFilenameOffset + (img.length + name.length + 1) ≤ b.FilenameBufferSize)
    (hS : b.FilenameBufferSize < U32) (hFl : b.FilesLeft < U32) :
    populateFile img name b = some (0, afterFile img name E B b) := by
  have hi1 : img.length % U32 = img.length := Nat.mod_eq_of_lt (by simp only [U32]; omega)
  have hl : (img.length + name.length + 1) % U32 = img.length + name.length + 1 :=
    Nat.mod_eq_of_lt (by simp only [U32]; omega)
  have hm : (b.CurrFilenameOffset + (img.length + name.length + 1)) % U32
      = b.CurrFilenameOffset + (img.length + name.length + 1) :=
    Nat.mod_eq_of_lt (by omega)
  have hfl : (b.FilesLeft + U32 - 1) % U32 = b.FilesLeft - 1 := by
    simp only [U32] at *; omega
  unfold populateFile
  simp only [hE, hB, hi1, hl, hm, hfl]
  rw [if_neg hF, if_pos hpe, if_neg (by omega), if_pos (by omega)]
  simp only [afterFile, memcpy, List.take_length, hm]
  rw [blit_blit _ _ _ _ (by omega), set_eq_blit _ _ _ hpe]
  simp [List.append_assoc]

/-- Closed form of a populate run that returns 0, from a context with both
buffers allocated. -/
theorem populateLoop_closed (d : Dir) (host img : List Nat) (b b1 : SFileSystemBuild)
    (E : List SFileSystemEntry) (B : List Nat)
    (hw : wellFormed d = true) (hi : img.length ≤ 511)
    (hE : b.pFileEntries = some E) (hB : b.pFilenameBuffer = some B)
    (hF : b.FilesLeft < U32) (hC : b.CurrFilenameOffset < U32)
    (hpe : b.pCurrEntry ≤ E.length) (hpb : b.pCurrFilename ≤ B.length)
    (h : populateLoop host img d b = some (0, b1)) :
    fileTotal d ≤ b.FilesLeft ∧ b.pCurrEntry + fileTotal d ≤ E.length ∧
    b.pCurrFilename + nameTotal img.length d ≤ B.length ∧
    b1 = afterFiles (visits img d) E B b := by
  obtain ⟨f1, f2⟩ := populateLoop_flat d host img b b1 hw hi h
  obtain ⟨g1, g2, g3, g4⟩ := popFiles_ok _ b b1 E B hE hB f2 hF hC hpe hpb f1
  rw [length_visits] at g1 g2
  rw [length_blob_visits] at g3
  exact ⟨g1, g2, g3, g4⟩

/-- On a tree the counting pass can walk, the populate loop returns 0 when
the counters and buffers leave room for the files of the subtree. -/
theorem populateLoop_succeeds (d : Dir) :
    ∀ (host img : List Nat) (b : SFileSystemBuild) (E : List SFileSystemEntry) (B : List Nat),
    wellFormed d = true → walkable host d = true →
    img.length ≤ host.length → host.length ≤ LONG_MAX → img.length ≤ 511 →
    b.pFileEntries = some E → b.pFilenameBuffer = some B →
    b.FilesLeft < U32 → b.FilenameBufferSize < U32 →
    fileTotal d ≤ b.FilesLeft → b.pCurrEntry + fileTotal d ≤ E.length →
    b.pCurrFilename + nameTotal img.length d ≤ B.length →
    b.CurrFilenameOffset + nameTotal img.length d ≤ b.FilenameBufferSize →
    ∃ b1, populateLoop host img d b = some (0, b1) := by
  induction d with
  | done => intro host img b E B _ _ _ _ _ _ _ _ _ _ _ _ _; exact ⟨b, rfl⟩
  | file name content rest ih =>
      intro host img b E B hw hwalk hih hh hi hE hB hF hS hft hpe hpb hck
      simp only [wellFormed, Bool.and_eq_true] at hw
      simp only [walkable] at hwalk
      simp only [fileTotal, nameTotal] at hft hpe hpb hck
      have hnl := nameOk_length _ hw.1
      have hpf := populateFile_succeeds img name b E B hE hB hi hnl (by omega) (by omega)
        (by omega) (by omega) hS hF
      simp only [populateLoop, hpf]
      have hU : 0 < U32 := by decide
      have hm : (b.CurrFilenameOffset + (img.length + name.length + 1)) % U32
          = b.CurrFilenameOffset + (img.length + name.length + 1) :=
        Nat.mod_eq_of_lt (by omega)
      have := ih host img (afterFile img name E B b) _ _ hw.2 hwalk hih hh hi rfl rfl
        (by simp only [afterFile]; omega) (by simpa [afterFile] using hS)
        (by simp only [afterFile]; omega)
        (by
          simp only [afterFile]
          rw [length_blit _ _ _ (by simp only [List.length_singleton]; omega)]
          omega)
        (by
          simp only [afterFile]
          rw [length_blit _ _ _ (by
            simp only [List.length_append, List.length_singleton]; omega)]
          omega)
        (by simp only [afterFile, hm]; omega)
      simpa using this
  | sub name canOpen inner rest ihi ihr =>
      intro host img b E B hw hwalk hih hh hi hE hB hF hS hft hpe hpb hck
      simp only [wellFormed, Bool.and_eq_true] at hw
      simp only [walkable] at hwalk
      simp only [fileTotal, nameTotal] at hft hpe hpb hck
      simp only [populateLoop]
      split
      · rename_i hn
        rw [if_pos hn] at hwalk hft hpe hpb hck
        simp only [Bool.and_eq_true, decide_eq_true_eq] at hwalk
        obtain ⟨⟨⟨hchk, hop⟩, hwi⟩, hwr⟩ := hwalk
        have hnl := nameOk_length _ hw.1.1
        have hhost : host.length + 1 + name.length ≤ 511 := by
          simp only [U32, SUBDIR_CAP, LONG_MAX] at hchk hh; omega
        have hs1 : snprintf SUBDIR_CAP (host ++ [47] ++ name) = host ++ [47] ++ name :=
          snprintf_fits _ _ (by
            simp only [List.length_append, List.length_singleton, SUBDIR_CAP]; omega)
        have hs2 : snprintf SUBDIR_CAP (img ++ name ++ [47]) = img ++ name ++ [47] :=
          snprintf_fits _ _ (by
            simp only [List.length_append, List.length_singleton, SUBDIR_CAP]; omega)
        rw [if_neg (by simp only [U32, SUBDIR_CAP] at *; omega),
          if_neg (by simp only [U32, SUBDIR_CAP] at *; omega), if_neg (by simp [hop])]
        rw [hs1, hs2]
        rw [hs1] at hwi
        have hil : (img ++ name ++ [47]).length = img.length + name.length + 1 := by
          simp only [List.length_append, List.length_singleton]
        obtain ⟨b2, hb2⟩ := ihi (host ++ [47] ++ name) (img ++ name ++ [47]) b E B hw.1.2 hwi
          (by simp only [List.length_append, List.length_singleton]; omega)
          (by simp only [List.length_append, List.length_singleton, LONG_MAX]; omega)
          (by omega) hE hB hF hS (by omega) (by omega)
          (by rw [hil]; omega) (by rw [hil]; omega)
        rw [hb2]
        have hC : b.CurrFilenameOffset < U32 := by omega
        obtain ⟨c1, c2, c3, c4⟩ := populateLoop_closed inner _ _ b b2 E B hw.1.2 (by omega)
          hE hB hF hC (by omega) (by omega) hb2
        rw [hil] at c3
        have hlv := length_visits inner (img ++ name ++ [47])
        have hlb := length_blob_visits inner (img ++ name ++ [47])
        rw [hil] at hlb
        have hm : (b.CurrFilenameOffset + nameTotal (img.length + name.length + 1) inner) % U32
            = b.CurrFilenameOffset + nameTotal (img.length + name.length + 1) inner :=
          Nat.mod_eq_of_lt (by omega)
        have := ihr host img b2 _ _ hw.2 hwr hih hh hi (by rw [c4]; rfl) (by rw [c4]; rfl)
          (by rw [c4]; simp only [afterFiles]; omega)
          (by rw [c4]; simpa [afterFiles] using hS)
          (by rw [c4]; simp only [afterFiles, hlv]; omega)
          (by
            rw [c4]; simp only [afterFiles, hlv]
            rw [length_blit _ _ _ (by rw [length_popEntries, hlv]; omega)]
            omega)
          (by
            rw [c4]; simp only [afterFiles, hlb]
            rw [length_blit _ _ _ (by rw [hlb]; omega)]
            omega)
          (by rw [c4]; simp only [afterFiles, hlb, hm]; omega)
        simpa using this
      · rename_i hn
        rw [if_neg hn] at hwalk hft hpe hpb hck
        exact ihr host img b E B hw.2 hwalk hih hh hi hE hB hF hS hft hpe hpb hck

/-- The part of C6 that holds, when the S_IFDIR test sorts the entries in
the same way in both passes: for a tree that is the same in both passes,
whose exact file count times the entry size and whose exact total of filename bytes are
both below 2^32, and on which `_CountFilesInDirectoryTree(root, 0)` returns
0 with totals (FileCount, FilenameBufferSize),
`_PopulateEntriesFromDirectoryTree(root, "")` run on the buffers
`_CreateFileList` sizes from those totals returns 0, has stored exactly
FileCount entries, ends with FilesLeft = 0 and with CurrFilenameOffset =
FilenameBufferSize, and has written every byte of the filename buffer. -/
theorem C6_scan_populate_agree (fmt : Format) (libc : Libc) (canOpen : Bool) (t : Dir)
    (b : SFileSystemBuild) (C S : Nat)
    (hw : wellFormed t = true) (hroot : b.pRootSourceDirectory.length ≤ LONG_MAX)
    (hc : CountFilesInDirectoryTree b.pRootSourceDirectory 0 canOpen t = .ok (C, S))
    (hC : fmt.entrySize * fileTotal t < U32) (hS : nameTotal 0 t < U32) :
    ∃ b1, PopulateEntriesFromDirectoryTree (populateInput fmt libc C S b)
        b.pRootSourceDirectory [] canOpen t = some (0, b1) ∧
      b1.pCurrEntry = C ∧ b1.FilesLeft = 0 ∧ b1.CurrFilenameOffset = S ∧
      b1.FilenameBufferSize = S ∧ b1.FileCount = C ∧
      b1.pFilenameBuffer = some ((relFiles [] t).flatMap (fun f => f.1 ++ [0])) ∧
      ((relFiles [] t).flatMap (fun f => f.1 ++ [0])).length = S ∧
      ∃ entries, b1.pFileEntries = some entries ∧ entries.length = C := by
  obtain ⟨hC1, hS1⟩ := count_ok_mod _ _ _ _ _ _ hc
  rw [Nat.mod_eq_of_lt hS] at hS1
  have hpos := fmt.entrySize_pos
  have hft : fileTotal t < U32 := by
    calc fileTotal t = 1 * fileTotal t := (Nat.one_mul _).symm
      _ ≤ fmt.entrySize * fileTotal t := Nat.mul_le_mul_right _ hpos
      _ < U32 := hC
  rw [Nat.mod_eq_of_lt hft] at hC1
  subst hC1; subst hS1
  have hopen : canOpen = true := by
    unfold CountFilesInDirectoryTree at hc
    split at hc
    · cases hc
    · rename_i h; simpa using h
  have hwalk : walkable b.pRootSourceDirectory t = true := by
    unfold CountFilesInDirectoryTree at hc
    rw [if_neg (by simp [hopen])] at hc
    exact countLoop_walkable t _ _ _ _ _ hc
  have hM : fmt.entrySize * fileTotal t % U32 / fmt.entrySize = fileTotal t := by
    rw [Nat.mod_eq_of_lt hC, Nat.mul_div_cancel_left _ hpos]
  have hEl : ((List.range (fmt.entrySize * fileTotal t % U32 / fmt.entrySize)).map
      libc.junkEntry).length = fileTotal t := by simp [hM]
  have hBl : ((List.range (nameTotal 0 t)).map libc.junkByte).length = nameTotal 0 t := by simp
  obtain ⟨b1, hb1⟩ := populateLoop_succeeds t b.pRootSourceDirectory []
    (populateInput fmt libc (fileTotal t) (nameTotal 0 t) b) _ _ hw hwalk (by simp) hroot
    (by simp) rfl rfl hft hS (Nat.le_refl _)
    (by rw [hEl]; simp [populateInput]) (by rw [hBl]; simp [populateInput])
    (by simp [populateInput])
  obtain ⟨c1, c2, c3, c4⟩ := populateLoop_closed t _ [] _ b1 _ _ hw (by simp) rfl rfl
    hft (by simp [populateInput, U32]) (by simp [populateInput]) (by simp [populateInput]) hb1
  have hlv := length_visits t []
  have hlb := length_blob_visits t []
  simp only [List.length_nil] at hlb
  refine ⟨b1, ?_, ?_, ?_, ?_, ?_, ?_, ?_, ?_, ?_⟩
  · unfold PopulateEntriesFromDirectoryTree
    rw [if_neg (by simp [hopen])]
    exact hb1
  · rw [c4]; simp [afterFiles, populateInput, hlv]
  · rw [c4]; simp [afterFiles, populateInput, hlv]
  · rw [c4]; simp only [afterFiles, populateInput, hlb, Nat.zero_add]
    exact Nat.mod_eq_of_lt hS
  · rw [c4]; rfl
  · rw [c4]; rfl
  · rw [c4, ← blob_eq_relFiles]
    simp only [afterFiles, populateInput]
    rw [blit_zero_full _ _ (by rw [hlb, hBl])]
  · rw [← blob_eq_relFiles, hlb]
  · refine ⟨_, by rw [c4]; rfl, ?_⟩
    rw [length_blit _ _ _ (by
      rw [length_popEntries, hlv, hEl]; simp [populateInput])]
    exact hEl

theorem C6_scan_populate_agree_witness :
    wellFormed sampleTree = true ∧ sampleInit.pRootSourceDirectory.length ≤ LONG_MAX ∧
    CountFilesInDirectoryTree sampleInit.pRootSourceDirectory 0 true sampleTree = .ok (2, 16) ∧
    ffsFormat.entrySize * fileTotal sampleTree < U32 ∧ nameTotal 0 sampleTree < U32 ∧
    ∃ b1, PopulateEntriesFromDirectoryTree (populateInput ffsFormat stdLibc 2 16 sampleInit)
        sampleInit.pRootSourceDirectory [] true sampleTree = some (0, b1) ∧
      b1.pCurrEntry = 2 ∧ b1.FilesLeft = 0 ∧ b1.CurrFilenameOffset = 16 ∧
      b1.FilenameBufferSize = 16 ∧ b1.FileCount = 2 ∧
      b1.pFilenameBuffer = some ((relFiles [] sampleTree).flatMap (fun f => f.1 ++ [0])) ∧
      ((relFiles [] sampleTree).flatMap (fun f => f.1 ++ [0])).length = 16 ∧
      ∃ entries, b1.pFileEntries = some entries ∧ entries.length = 2 :=
  ⟨by decide, by decide, rfl, by decide, by decide,
   C6_scan_populate_agree ffsFormat stdLibc true sampleTree sampleInit 2 16
     (by decide) (by decide) rfl (by decide) (by decide)⟩

/-- The totals of the counting pass wrap: on a directory of 16777216 files
with 255-byte names the counting pass returns 0 with totals (16777216, 0), and the populate pass
over the same directory, run on the buffers sized from those totals, returns
1 at the first file, because its 256 name bytes do not fit the 0-byte
filename buffer. -/
theorem C6_counterexample :
    CountFilesInDirectoryTree [119, 119, 119] 0 true (manyFiles 16777216)
      = .ok (16777216, 0) ∧
    (PopulateEntriesFromDirectoryTree (populateInput ffsFormat stdLibc 16777216 0 sampleInit)
      [119, 119, 119] [] true (manyFiles 16777216)).map Prod.fst = some 1 := by
  refine ⟨count_bigDir, ?_⟩
  have hm : manyFiles 16777216 = .file (bigName 16777215) [] (manyFiles 16777215) := rfl
  have hinv : PopInv (populateInput ffsFormat stdLibc 16777216 0 sampleInit) :=
    populateInput_inv ffsFormat stdLibc 16777216 0 sampleInit (by decide) (by decide)
  obtain ⟨r, b2, hq, hr, _⟩ := populateFile_defined [] (bigName 16777215) _ hinv (by simp)
    (by rw [length_bigName]; decide)
  have hr1 : r = 1 := by
    rcases hr with rfl | rfl
    · exfalso
      obtain ⟨_, _, _, hck, _⟩ := populateFile_ok [] (bigName 16777215) _ b2 _ _ rfl rfl
        (by simp) (by rw [length_bigName]; decide) (by decide) hq
      rw [length_bigName] at hck
      revert hck
      decide
    · rfl
  subst hr1
  unfold PopulateEntriesFromDirectoryTree
  rw [hm, if_neg (by decide), populateLoop.eq_2, hq]
  rfl

/-! ## Entries stored by any run of the populate pass -/

theorem popEntries_mod (start cur : Nat) (l : List (List Nat × List Nat)) :
    popEntries start (cur % U32) l = popEntries start cur l := by
  cases l with
  | nil => rfl
  | cons v l =>
      simp only [popEntries, List.cons.injEq, SFileSystemEntry.mk.injEq, and_true]
      constructor
      · simp only [U32]; omega
      · congr 1
        simp only [U32]; omega

theorem popEntries_append (start : Nat) (l1 l2 : List (List Nat × List Nat)) :
    ∀ cur, popEntries start cur (l1 ++ l2)
      = popEntries start cur l1 ++ popEntries start ((cur + (blob l1).length) % U32) l2 := by
  induction l1 with
  | nil =>
      intro cur
      simp only [List.nil_append, popEntries, blob, List.flatMap_nil, List.length_nil,
        Nat.add_zero, popEntries_mod]
  | cons w l1 ih =>
      intro cur
      have hmod : ((cur + (w.1.length + w.2.length + 1)) % U32 + (blob l1).length) % U32
          = (cur + (w.1.length + w.2.length + 1 + (blob l1).length)) % U32 := by
        simp only [U32]; omega
      show popEntries start cur (w :: (l1 ++ l2)) = _
      simp only [popEntries, blob_cons, List.length_append, List.length_singleton,
        List.cons_append, List.cons.injEq, true_and]
      rw [ih, hmod]

theorem populateFile_stored (img name : List Nat) (b b1 : SFileSystemBuild) (r : Nat)
    (ws : List (List Nat × List Nat)) (hv : Visited b ws)
    (hi : img.length ≤ 511) (hn : name.length < 65536)
    (h : populateFile img name b = some (r, b1)) :
    b1.FilenameStartOffset = b.FilenameStartOffset ∧
    (r = 0 → Visited b1 (ws ++ [(img, name)])) ∧
    (r ≠ 0 → Stored b1 ws ∨ Stored b1 (ws ++ [(img, name)])) := by
  obtain ⟨⟨E, hE, hle, htk⟩, hcur, hoff⟩ := hv
  have hi1 : img.length % U32 = img.length := Nat.mod_eq_of_lt (by simp only [U32]; omega)
  have hl : (img.length + name.length + 1) % U32 = img.length + name.length + 1 :=
    Nat.mod_eq_of_lt (by simp only [U32]; omega)
  have hstore : ∀ (_ : ws.length < E.length),
      (E.set ws.length
        ⟨(b.FilenameStartOffset + b.CurrFilenameOffset) % U32, U32 - 1, 0⟩).take
          (ws ++ [(img, name)]).length
      = popEntries b.FilenameStartOffset 0 (ws ++ [(img, name)]) := by
    intro hlt
    rw [popEntries_append, ← htk, set_eq_blit _ _ _ hlt]
    simp only [blit, List.length_append, List.length_singleton, popEntries, Nat.zero_add, hoff]
    rw [List.append_assoc, List.take_append_eq_append_take]
    simp only [List.length_take, Nat.min_eq_left hle, Nat.add_sub_cancel_left,
      List.take_succ_cons, List.take_zero]
    rw [List.take_of_length_le (by simp only [List.length_take]; omega)]
    simp
  unfold populateFile at h
  simp only [hi1, hl] at h
  split at h
  · simp only [Option.some.injEq, Prod.mk.injEq] at h
    obtain ⟨h1, h2⟩ := h
    subst h1; subst h2
    refine ⟨rfl, fun h0 => by omega, fun _ => Or.inl ⟨E, hE, hle, htk⟩⟩
  · simp only [hE] at h
    split at h
    · rename_i entries buffer he hb
      simp only [Option.some.injEq] at he
      subst he
      rw [hcur] at h
      split at h
      · rename_i hlt
        split at h
        · simp only [Option.some.injEq, Prod.mk.injEq] at h
          obtain ⟨h1, h2⟩ := h
          subst h1; subst h2
          refine ⟨rfl, fun h0 => by omega, fun _ => Or.inr ⟨_, rfl, ?_, hstore hlt⟩⟩
          simp only [List.length_set, List.length_append, List.length_singleton]
          omega
        · split at h
          · simp only [Option.some.injEq, Prod.mk.injEq] at h
            obtain ⟨h1, h2⟩ := h
            subst h1; subst h2
            refine ⟨rfl, fun _ => ⟨⟨_, rfl, ?_, hstore hlt⟩, ?_, ?_⟩, fun h0 => absurd rfl h0⟩
            · simp only [List.length_set, List.length_append, List.length_singleton]
              omega
            · simp only [List.length_append, List.length_singleton]
            · have hb1 : (blob [(img, name)]).length = img.length + name.length + 1 := by
                simp only [blob, List.flatMap_cons, List.flatMap_nil, List.append_nil,
                  List.length_append, List.length_singleton]
              simp only [blob_append, List.length_append, hb1, hoff]
              simp only [U32]; omega
          · simp at h
      · simp at h
    · simp at h

theorem stored_of_visited (b : SFileSystemBuild) (ws : List (List Nat × List Nat))
    (h : Visited b ws) : Stored b ws := h.1

/-- Whatever a populate run returns, the entry array starts with the entries
of the files for which the file branch stored one, and these files are an
initial part of the files of the tree in traversal order, all of them when
the run returns 0. -/
theorem populateLoop_stored (d : Dir) :
    ∀ (host img : List Nat) (b b1 : SFileSystemBuild) (r : Nat)
      (ws : List (List Nat × List Nat)),
    Visited b ws → wellFormed d = true → img.length ≤ 511 →
    populateLoop host img d b = some (r, b1) →
    ∃ us later, visits img d = us ++ later ∧ Stored b1 (ws ++ us) ∧
      b1.FilenameStartOffset = b.FilenameStartOffset ∧
      (r = 0 → later = [] ∧ Visited b1 (ws ++ us)) := by
  induction d with
  | done =>
      intro host img b b1 r ws hv _ _ h
      simp only [populateLoop, Option.some.injEq, Prod.mk.injEq] at h
      obtain ⟨h1, h2⟩ := h
      subst h1; subst h2
      exact ⟨[], [], rfl, by simpa using hv.1, rfl, fun _ => ⟨rfl, by simpa using hv⟩⟩
  | file name content rest ih =>
      intro host img b b1 r ws hv hw hi h
      simp only [wellFormed, Bool.and_eq_true] at hw
      simp only [populateLoop] at h
      cases hpf : populateFile img name b with
      | none => rw [hpf] at h; simp at h
      | some rb =>
          obtain ⟨r1, b2⟩ := rb
          rw [hpf] at h
          obtain ⟨s1, s2, s3⟩ :=
            populateFile_stored img name b b2 r1 ws hv hi (nameOk_length _ hw.1) hpf
          simp only at h
          by_cases hr : r1 ≠ 0
          · rw [if_pos hr] at h
            simp only [Option.some.injEq, Prod.mk.injEq] at h
            obtain ⟨h1, h2⟩ := h
            subst h1; subst h2
            rcases s3 hr with hs | hs
            · exact ⟨[], visits img (.file name content rest), rfl, by simpa using hs, s1,
                fun h0 => absurd h0 hr⟩
            · exact ⟨[(img, name)], visits img rest, rfl, hs, s1, fun h0 => absurd h0 hr⟩
          · rw [if_neg hr] at h
            have hr0 : r1 = 0 := by simpa using hr
            obtain ⟨us, later, g1, g2, g3, g4⟩ :=
              ih host img b2 b1 r (ws ++ [(img, name)]) (s2 hr0) hw.2 hi h
            refine ⟨(img, name) :: us, later, ?_, ?_, ?_, ?_⟩
            · simp only [visits, g1, List.cons_append]
            · simpa [List.append_assoc] using g2
            · rw [g3, s1]
            · intro h0
              obtain ⟨k1, k2⟩ := g4 h0
              exact ⟨k1, by simpa [List.append_assoc] using k2⟩
  | sub name canOpen inner rest ihi ihr =>
      intro host img b b1 r ws hv hw hi h
      simp only [wellFormed, Bool.and_eq_true] at hw
      simp only [populateLoop] at h
      simp only [visits]
      have hfail : ∀ (x : List (List Nat × List Nat)), some (1, b) = some (r, b1) →
          ∃ us later, x = us ++ later ∧ Stored b1 (ws ++ us) ∧
            b1.FilenameStartOffset = b.FilenameStartOffset ∧
            (r = 0 → later = [] ∧ Visited b1 (ws ++ us)) := by
        intro x hx
        simp only [Option.some.injEq, Prod.mk.injEq] at hx
        obtain ⟨h1, h2⟩ := hx
        subst h1; subst h2
        exact ⟨[], x, rfl, by simpa using hv.1, rfl, fun h0 => by omega⟩
      split at h
      · rename_i hn
        rw [if_pos hn]
        split at h
        · exact hfail _ h
        · split at h
          · exact hfail _ h
          · rename_i hchk
            split at h
            · exact hfail _ h
            · have hnl := nameOk_length _ hw.1.1
              have hlen : img.length + name.length + 1 ≤ 511 := by
                simp only [U32, SUBDIR_CAP] at hchk; omega
              have hs : snprintf SUBDIR_CAP (img ++ name ++ [47]) = img ++ name ++ [47] :=
                snprintf_fits _ _ (by
                  simp only [List.length_append, List.length_singleton, SUBDIR_CAP]; omega)
              rw [hs] at h
              split at h
              · simp at h
              · rename_i r1 b2 hin
                obtain ⟨us1, later1, g1, g2, g3, g4⟩ := ihi _ _ b b2 r1 ws hv hw.1.2
                  (by simp only [List.length_append, List.length_singleton]; omega) hin
                by_cases hr : r1 ≠ 0
                · rw [if_pos hr] at h
                  simp only [Option.some.injEq, Prod.mk.injEq] at h
                  obtain ⟨h1, h2⟩ := h
                  subst h1; subst h2
                  exact ⟨us1, later1 ++ visits img rest, by rw [g1, List.append_assoc], g2, g3,
                    fun h0 => absurd h0 hr⟩
                · rw [if_neg hr] at h
                  have hr0 : r1 = 0 := by simpa using hr
                  obtain ⟨k1, k2⟩ := g4 hr0
                  obtain ⟨us2, later2, f1, f2, f3, f4⟩ :=
                    ihr host img b2 b1 r (ws ++ us1) k2 hw.2 hi h
                  refine ⟨us1 ++ us2, later2, ?_, ?_, ?_, ?_⟩
                  · rw [g1, k1, f1]; simp
                  · simpa [List.append_assoc] using f2
                  · rw [f3, g3]
                  · intro h0
                    obtain ⟨m1, m2⟩ := f4 h0
                    exact ⟨m1, by simpa [List.append_assoc] using m2⟩
      · rename_i hn
        rw [if_neg hn]
        exact ihr host img b b1 r ws hv hw.2 hi h

theorem stored_entry (b : SFileSystemBuild) (ws : List (List Nat × List Nat)) (k : Nat)
    (h : Stored b ws) (hk : k < ws.length) :
    ∃ E, b.pFileEntries = some E ∧
      E[k]? = some { FilenameOffset :=
                       (b.FilenameStartOffset + (blob (ws.take k)).length) % U32,
                     FileBinaryOffset := U32 - 1, FileBinarySize := 0 } := by
  obtain ⟨E, hE, hle, htk⟩ := h
  refine ⟨E, hE, ?_⟩
  have h1 : E[k]? = (E.take ws.length)[k]? := by
    rw [List.getElem?_take_of_lt hk]
  have hsplit : ws = ws.take k ++ ws.drop k := (List.take_append_drop k ws).symm
  have hdrop : ∃ v rest, ws.drop k = v :: rest := by
    cases hd : ws.drop k with
    | nil =>
        have := congrArg List.length hd
        simp only [List.length_drop, List.length_nil] at this
        omega
    | cons v rest => exact ⟨v, rest, rfl⟩
  obtain ⟨v, rest, hd⟩ := hdrop
  have hlk : (popEntries b.FilenameStartOffset 0 (ws.take k)).length = k := by
    rw [length_popEntries, List.length_take]; omega
  rw [h1, htk]
  conv_lhs => rw [hsplit]
  rw [popEntries_append, hd]
  simp only [popEntries, Nat.zero_add]
  rw [List.getElem?_append_right (by omega), hlk]
  simp only [Nat.sub_self, List.getElem?_cons_zero, Option.some.injEq,
    SFileSystemEntry.mk.injEq, and_true]
  simp only [U32]; omega

theorem visited_populateInput (fmt : Format) (libc : Libc) (C S : Nat) (b : SFileSystemBuild) :
    Visited (populateInput fmt libc C S b) [] :=
  ⟨⟨_, rfl, Nat.zero_le _, rfl⟩, rfl, rfl⟩

/-- The file branch in a state that has stored the entries of `ws`: when it
leaves at `0 == FilesLeft--` the array is as it was, and once it is past that
test the entry of the file is stored, whether or not the filename-buffer
check then fails. -/
theorem populateFile_reaches (img name : List Nat) (b b1 : SFileSystemBuild) (r : Nat)
    (ws : List (List Nat × List Nat)) (hv : Visited b ws)
    (hi : img.length ≤ 511) (hn : name.length < 65536)
    (h : populateFile img name b = some (r, b1)) :
    b1.FilenameStartOffset = b.FilenameStartOffset ∧
    (b.FilesLeft = 0 → r ≠ 0 ∧ Stored b1 ws) ∧
    (b.FilesLeft ≠ 0 → Stored b1 (ws ++ [(img, name)])) ∧
    (r = 0 → Visited b1 (ws ++ [(img, name)])) := by
  obtain ⟨s1, s2, s3⟩ := populateFile_stored img name b b1 r ws hv hi hn h
  refine ⟨s1, ?_, ?_, s2⟩
  · intro hF
    unfold populateFile at h
    simp only at h
    rw [if_pos hF] at h
    simp only [Option.some.injEq, Prod.mk.injEq] at h
    obtain ⟨h1, h2⟩ := h
    subst h1; subst h2
    obtain ⟨E, hE, hle, htk⟩ := hv.1
    exact ⟨by decide, ⟨E, hE, hle, htk⟩⟩
  · intro hF
    by_cases hr : r = 0
    · exact (s2 hr).1
    · obtain ⟨⟨E, hE, hle, htk⟩, hcur, hoff⟩ := hv
      have hi1 : img.length % U32 = img.length :=
        Nat.mod_eq_of_lt (by simp only [U32]; omega)
      have hl : (img.length + name.length + 1) % U32 = img.length + name.length + 1 :=
        Nat.mod_eq_of_lt (by simp only [U32]; omega)
      have hstore : ∀ (_ : ws.length < E.length),
          (E.set ws.length
            ⟨(b.FilenameStartOffset + b.CurrFilenameOffset) % U32, U32 - 1, 0⟩).take
              (ws ++ [(img, name)]).length
          = popEntries b.FilenameStartOffset 0 (ws ++ [(img, name)]) := by
        intro hlt
        rw [popEntries_append, ← htk, set_eq_blit _ _ _ hlt]
        simp only [blit, List.length_append, List.length_singleton, popEntries, Nat.zero_add,
          hoff]
        rw [List.append_assoc, List.take_append_eq_append_take]
        simp only [List.length_take, Nat.min_eq_left hle, Nat.add_sub_cancel_left,
          List.take_succ_cons, List.take_zero]
        rw [List.take_of_length_le (by simp only [List.length_take]; omega)]
        simp
      unfold populateFile at h
      simp only [hi1, hl] at h
      rw [if_neg hF] at h
      simp only [hE] at h
      split at h
      · rename_i entries buffer he hb
        simp only [Option.some.injEq] at he
        subst he
        rw [hcur] at h
        split at h
        · rename_i hlt
          split at h
          · simp only [Option.some.injEq, Prod.mk.injEq] at h
            obtain ⟨h1, h2⟩ := h
            subst h1; subst h2
            refine ⟨_, rfl, ?_, hstore hlt⟩
            simp only [List.length_set, List.length_append, List.length_singleton]
            omega
          · split at h
            · simp only [Option.some.injEq, Prod.mk.injEq] at h
              exact absurd h.1.symm hr
            · simp at h
        · simp at h
      · simp at h

/-- Whatever a populate run returns, the entry array starts with the entries
of the files at which the run reached the store of the entry, and these
files are an initial part of the files of the tree in traversal order, all
of them when the run returns 0. -/
theorem populateLoopFiles_stored (d : Dir) :
    ∀ (host img : List Nat) (b b1 : SFileSystemBuild) (r : Nat)
      (ws : List (List Nat × List Nat)),
    Visited b ws → wellFormed d = true → img.length ≤ 511 →
    populateLoop host img d b = some (r, b1) →
    (∃ later, visits img d = populateLoopFiles host img d b ++ later ∧ (r = 0 → later = [])) ∧
      Stored b1 (ws ++ populateLoopFiles host img d b) ∧
      b1.FilenameStartOffset = b.FilenameStartOffset ∧
      (r = 0 → Visited b1 (ws ++ populateLoopFiles host img d b)) := by
  induction d with
  | done =>
      intro host img b b1 r ws hv _ _ h
      simp only [populateLoop, Option.some.injEq, Prod.mk.injEq] at h
      obtain ⟨h1, h2⟩ := h
      subst h1; subst h2
      have hf : populateLoopFiles host img .done b = [] := rfl
      rw [hf, List.append_nil]
      exact ⟨⟨[], rfl, fun _ => rfl⟩, hv.1, rfl, fun _ => hv⟩
  | file name content rest ih =>
      intro host img b b1 r ws hv hw hi h
      simp only [wellFormed, Bool.and_eq_true] at hw
      simp only [populateLoop] at h
      simp only [populateLoopFiles, visits]
      cases hpf : populateFile img name b with
      | none => rw [hpf] at h; simp at h
      | some rb =>
          obtain ⟨r1, b2⟩ := rb
          rw [hpf] at h
          obtain ⟨s1, s2, s3, s4⟩ :=
            populateFile_reaches img name b b2 r1 ws hv hi (nameOk_length _ hw.1) hpf
          simp only at h
          by_cases hF : b.FilesLeft = 0
          · obtain ⟨hr, hs⟩ := s2 hF
            rw [if_pos hr] at h
            simp only [Option.some.injEq, Prod.mk.injEq] at h
            obtain ⟨h1, h2⟩ := h
            subst h1; subst h2
            rw [if_pos hF]
            exact ⟨⟨_, (List.nil_append _).symm, fun h0 => absurd h0 hr⟩,
              by simpa using hs, s1, fun h0 => absurd h0 hr⟩
          · rw [if_neg hF]
            dsimp only
            by_cases hr : r1 ≠ 0
            · rw [if_pos hr] at h ⊢
              simp only [Option.some.injEq, Prod.mk.injEq] at h
              obtain ⟨h1, h2⟩ := h
              subst h1; subst h2
              exact ⟨⟨visits img rest, rfl, fun h0 => absurd h0 hr⟩, s3 hF, s1,
                fun h0 => absurd h0 hr⟩
            · rw [if_neg hr] at h ⊢
              have hr0 : r1 = 0 := by simpa using hr
              obtain ⟨⟨later, g1, g1b⟩, g2, g3, g4⟩ :=
                ih host img b2 b1 r (ws ++ [(img, name)]) (s4 hr0) hw.2 hi h
              refine ⟨⟨later, ?_, g1b⟩, ?_, ?_, ?_⟩
              · rw [g1]; rfl
              · simpa [List.append_assoc] using g2
              · rw [g3, s1]
              · intro h0
                simpa [List.append_assoc] using g4 h0
  | sub name canOpen inner rest ihi ihr =>
      intro host img b b1 r ws hv hw hi h
      simp only [wellFormed, Bool.and_eq_true] at hw
      simp only [populateLoop] at h
      simp only [visits, populateLoopFiles]
      have hfail : ∀ (x : List (List Nat × List Nat)), some (1, b) = some (r, b1) →
          (∃ later, x = [] ++ later ∧ (r = 0 → later = [])) ∧ Stored b1 (ws ++ []) ∧
            b1.FilenameStartOffset = b.FilenameStartOffset ∧
            (r = 0 → Visited b1 (ws ++ [])) := by
        intro x hx
        simp only [Option.some.injEq, Prod.mk.injEq] at hx
        obtain ⟨h1, h2⟩ := hx
        subst h1; subst h2
        exact ⟨⟨x, rfl, fun h0 => by omega⟩, by simpa using hv.1, rfl, fun h0 => by omega⟩
      split at h
      · rename_i hn
        simp only [if_pos hn]
        split at h
        · rename_i hc1
          simp only [if_pos hc1]
          exact hfail _ h
        · rename_i hc1
          simp only [if_neg hc1]
          split at h
          · rename_i hc2
            simp only [if_pos hc2]
            exact hfail _ h
          · rename_i hchk
            simp only [if_neg hchk]
            split at h
            · rename_i hc3
              simp only [if_pos hc3]
              exact hfail _ h
            · rename_i hc3
              simp only [if_neg hc3]
              have hnl := nameOk_length _ hw.1.1
              have hlen : img.length + name.length + 1 ≤ 511 := by
                simp only [U32, SUBDIR_CAP] at hchk; omega
              have hs : snprintf SUBDIR_CAP (img ++ name ++ [47]) = img ++ name ++ [47] :=
                snprintf_fits _ _ (by
                  simp only [List.length_append, List.length_singleton, SUBDIR_CAP]; omega)
              rw [hs] at h ⊢
              cases hin : populateLoop (snprintf SUBDIR_CAP (host ++ [47] ++ name))
                  (img ++ name ++ [47]) inner b with
              | none => rw [hin] at h; simp at h
              | some p =>
                obtain ⟨r1, b2⟩ := p
                rw [hin] at h
                dsimp only at h ⊢
                obtain ⟨⟨later1, g1, g1b⟩, g2, g3, g4⟩ := ihi _ _ b b2 r1 ws hv hw.1.2
                  (by simp only [List.length_append, List.length_singleton]; omega) hin
                by_cases hr : r1 ≠ 0
                · rw [if_pos hr] at h
                  simp only [if_pos hr]
                  simp only [Option.some.injEq, Prod.mk.injEq] at h
                  obtain ⟨h1, h2⟩ := h
                  subst h1; subst h2
                  exact ⟨⟨later1 ++ visits img rest, by rw [g1, List.append_assoc],
                    fun h0 => absurd h0 hr⟩, g2, g3, fun h0 => absurd h0 hr⟩
                · rw [if_neg hr] at h
                  simp only [if_neg hr]
                  have hr0 : r1 = 0 := by simpa using hr
                  have hl1 := g1b hr0
                  subst hl1
                  rw [List.append_nil] at g1
                  obtain ⟨⟨later2, f1, f1b⟩, f2, f3, f4⟩ :=
                    ihr host img b2 b1 r _ (g4 hr0) hw.2 hi h
                  refine ⟨⟨later2, ?_, f1b⟩, ?_, ?_, ?_⟩
                  · rw [g1, f1]
                    exact (List.append_assoc _ _ _).symm
                  · simpa [List.append_assoc] using f2
                  · rw [f3, g3]
                  · intro h0
                    simpa [List.append_assoc] using f4 h0
      · rename_i hn
        simp only [if_neg hn]
        exact ihr host img b b1 r ws hv hw.2 hi h

/-- C10 (amended): whatever the populate pass returns, let `visited` be the
files at which it reached the store of the entry, in order; they are an
initial part of the files of the tree in traversal order, and all of them
when the pass returns 0.  For the k-th of them (k from 0) the entry at index
k of the entry array, before sorting, is { FilenameOffset =
(sizeof(SFileSystemHeader) + FileCount * sizeof(SFileSystemEntry) + the
lengths, NUL included, of the k paths before it) modulo 2^32,
FileBinaryOffset = 0xFFFFFFFF, FileBinarySize = 0 }; the offset is the exact
sum whenever that sum is below 2^32.  This covers the entry stored by a step
that then fails the filename-buffer check. -/
theorem C10_populated_entry (fmt : Format) (libc : Libc) (canOpen : Bool) (t : Dir)
    (b b1 : SFileSystemBuild) (C S r : Nat) (visited : List (List Nat × List Nat))
    (hw : wellFormed t = true)
    (h : PopulateEntriesFromDirectoryTree (populateInput fmt libc C S b)
      b.pRootSourceDirectory [] canOpen t = some (r, b1))
    (hv : populateFiles (populateInput fmt libc C S b) b.pRootSourceDirectory [] canOpen t
      = visited) :
    ∃ later E, visits [] t = visited ++ later ∧ (r = 0 → later = []) ∧
      b1.pFileEntries = some E ∧
      ∀ k, k < visited.length →
        E[k]? = some
          { FilenameOffset :=
              (fmt.headerSize + C * fmt.entrySize + (blob (visited.take k)).length) % U32,
            FileBinaryOffset := 4294967295, FileBinarySize := 0 } ∧
        (fmt.headerSize + C * fmt.entrySize + (blob (visited.take k)).length < U32 →
          E[k]? = some
            { FilenameOffset :=
                fmt.headerSize + C * fmt.entrySize + (blob (visited.take k)).length,
              FileBinaryOffset := 4294967295, FileBinarySize := 0 }) := by
  have hstart : (populateInput fmt libc C S b).FilenameStartOffset
      = (fmt.headerSize + (C * fmt.entrySize) % U32) % U32 := rfl
  have key : ∃ later, visits [] t = visited ++ later ∧ (r = 0 → later = []) ∧
      Stored b1 visited ∧
      b1.FilenameStartOffset = (fmt.headerSize + (C * fmt.entrySize) % U32) % U32 := by
    unfold PopulateEntriesFromDirectoryTree at h
    unfold populateFiles at hv
    split at h
    · rename_i ho
      rw [if_pos ho] at hv
      simp only [Option.some.injEq, Prod.mk.injEq] at h
      obtain ⟨h1, h2⟩ := h
      subst h1; subst h2; subst hv
      exact ⟨visits [] t, rfl, fun h0 => by omega,
        (visited_populateInput fmt libc C S b).1, hstart⟩
    · rename_i ho
      rw [if_neg ho] at hv
      obtain ⟨⟨later, g1, g1b⟩, g2, g3, _⟩ := populateLoopFiles_stored t _ [] _ b1 r []
        (visited_populateInput fmt libc C S b) hw (by simp) h
      rw [hv] at g1 g2
      exact ⟨later, g1, g1b, by simpa using g2, by rw [g3, hstart]⟩
  obtain ⟨later, k1, k2, k3, k4⟩ := key
  have k3c := k3
  obtain ⟨E, hE, _, _⟩ := k3c
  refine ⟨later, E, k1, k2, hE, ?_⟩
  intro k hk
  obtain ⟨E1, hE1, hget⟩ := stored_entry b1 visited k k3 hk
  rw [hE] at hE1
  simp only [Option.some.injEq] at hE1
  subst hE1
  rw [k4] at hget
  have hmod : ((fmt.headerSize + C * fmt.entrySize % U32) % U32
      + (blob (visited.take k)).length) % U32
      = (fmt.headerSize + C * fmt.entrySize + (blob (visited.take k)).length) % U32 := by
    simp only [U32]; omega
  rw [hmod] at hget
  refine ⟨by rw [hget]; rfl, fun hlt => ?_⟩
  rw [hget, Nat.mod_eq_of_lt hlt]
  rfl

theorem C10_populated_entry_witness :
    wellFormed sampleTree = true ∧
    PopulateEntriesFromDirectoryTree (populateInput ffsFormat stdLibc 2 12 sampleInit)
      sampleInit.pRootSourceDirectory [] true sampleTree = some (1, cutPopulated) ∧
    populateFiles (populateInput ffsFormat stdLibc 2 12 sampleInit)
      sampleInit.pRootSourceDirectory [] true sampleTree
      = [([115, 117, 98, 47], [98, 46, 116, 120, 116]), ([], [97, 46, 116, 120, 116])] ∧
    ∃ later E, visits [] sampleTree
        = [([115, 117, 98, 47], [98, 46, 116, 120, 116]),
           ([], [97, 46, 116, 120, 116])] ++ later ∧
      (1 = 0 → later = []) ∧ cutPopulated.pFileEntries = some E ∧
      ∀ k, k < [([115, 117, 98, 47], [98, 46, 116, 120, 116]),
                ([], [97, 46, 116, 120, 116])].length →
        E[k]? = some
          { FilenameOffset :=
              (ffsFormat.headerSize + 2 * ffsFormat.entrySize
                + (blob ([([115, 117, 98, 47], [98, 46, 116, 120, 116]),
                          ([], [97, 46, 116, 120, 116])].take k)).length) % U32,
            FileBinaryOffset := 4294967295, FileBinarySize := 0 } ∧
        (ffsFormat.headerSize + 2 * ffsFormat.entrySize
            + (blob ([([115, 117, 98, 47], [98, 46, 116, 120, 116]),
                      ([], [97, 46, 116, 120, 116])].take k)).length < U32 →
          E[k]? = some
            { FilenameOffset :=
                ffsFormat.headerSize + 2 * ffsFormat.entrySize
                  + (blob ([([115, 117, 98, 47], [98, 46, 116, 120, 116]),
                            ([], [97, 46, 116, 120, 116])].take k)).length,
              FileBinaryOffset := 4294967295, FileBinarySize := 0 }) :=
  ⟨by decide, by decide, by decide,
   C10_populated_entry ffsFormat stdLibc true sampleTree sampleInit cutPopulated 2 12 1
     [([115, 117, 98, 47], [98, 46, 116, 120, 116]), ([], [97, 46, 116, 120, 116])]
     (by decide) (by decide) (by decide)⟩

theorem count_manyFiles (root : List Nat) (n : Nat) :
    CountFilesInDirectoryTree root 0 true (manyFiles n)
      = .ok (n % U32, (n * 256) % U32) := by
  obtain ⟨c, s, h⟩ := countLoop_manyFiles root 0 n 0 0
  have h1 : CountFilesInDirectoryTree root 0 true (manyFiles n) = .ok (c, s) := by
    unfold CountFilesInDirectoryTree
    simpa using h
  obtain ⟨hc, hs⟩ := count_ok_mod _ _ _ _ _ _ h1
  rw [fileTotal_manyFiles] at hc
  rw [nameTotal_manyFiles] at hs
  rw [h1, hc, hs]

theorem populateFile_overflow (img name : List Nat) (b : SFileSystemBuild)
    (E : List SFileSystemEntry) (B : List Nat)
    (hE : b.pFileEntries = some E) (hB : b.pFilenameBuffer = some B)
    (hi : img.length ≤ 511) (hn : name.length < 65536)
    (hF : b.FilesLeft ≠ 0) (hpe : b.pCurrEntry < E.length)
    (hck : (b.CurrFilenameOffset + (img.length + name.length + 1)) % U32
      > b.FilenameBufferSize) :
    populateFile img name b = some (1,
      { b with
        FilesLeft := (b.FilesLeft + U32 - 1) % U32
        pFileEntries := some (E.set b.pCurrEntry
          ⟨(b.FilenameStartOffset + b.CurrFilenameOffset) % U32, U32 - 1, 0⟩) }) := by
  have hi1 : img.length % U32 = img.length := Nat.mod_eq_of_lt (by simp only [U32]; omega)
  have hl : (img.length + name.length + 1) % U32 = img.length + name.length + 1 :=
    Nat.mod_eq_of_lt (by simp only [U32]; omega)
  unfold populateFile
  simp only [hE, hB, hi1, hl]
  rw [if_neg hF, if_pos hpe, if_pos hck]

/-- In the run on the directory of 369098752 files the populate pass reaches
the store of the entry for the first file only: the entry is stored and the
filename-buffer check then fails. -/
theorem overflow_run_files :
    populateFiles (populateInput ffsFormat stdLibc 369098752 0 sampleInit)
      [119, 119, 119] [] true (manyFiles 369098752) = [([], bigName 369098751)] := by
  have hm : manyFiles 369098752 = .file (bigName 369098751) [] (manyFiles 369098751) := rfl
  have hlen : (0 : Nat) < ((List.range (ffsFormat.entrySize * 369098752 % U32
      / ffsFormat.entrySize)).map stdLibc.junkEntry).length := by
    rw [List.length_map, List.length_range]
    decide
  have hF : (populateInput ffsFormat stdLibc 369098752 0 sampleInit).FilesLeft ≠ 0 := by
    simp [populateInput]
  have hpf := populateFile_overflow [] (bigName 369098751)
    (populateInput ffsFormat stdLibc 369098752 0 sampleInit) _ _ rfl rfl (by simp)
    (by rw [length_bigName]; decide) hF hlen
    (by rw [length_bigName]; decide)
  unfold populateFiles
  rw [hm, if_neg (by decide), populateLoopFiles.eq_2, if_neg hF, hpf]
  simp only [if_pos (show (1 : Nat) ≠ 0 by decide)]

/-- C10 as stated fails: on a directory of 369098752 files with 255-byte
names the counting pass returns FileCount = 369098752 (and filename size 0),
and the populate pass over the same directory stores for the first file the
FilenameOffset 134217740, while sizeof(SFileSystemHeader) + FileCount *
sizeof(SFileSystemEntry) + 0 is 4429185036; that file is the only one at
which the pass reaches the store of the entry. -/
theorem C10_counterexample :
    CountFilesInDirectoryTree [119, 119, 119] 0 true (manyFiles 369098752)
      = .ok (369098752, 0) ∧
    (PopulateEntriesFromDirectoryTree (populateInput ffsFormat stdLibc 369098752 0 sampleInit)
      [119, 119, 119] [] true (manyFiles 369098752)).bind
        (fun rb => rb.2.pFileEntries.bind (fun E => E[0]?))
      = some { FilenameOffset := 134217740, FileBinaryOffset := 4294967295,
               FileBinarySize := 0 } ∧
    ffsFormat.headerSize + 369098752 * ffsFormat.entrySize + 0 = 4429185036 ∧
    populateFiles (populateInput ffsFormat stdLibc 369098752 0 sampleInit)
      [119, 119, 119] [] true (manyFiles 369098752) = [([], bigName 369098751)] := by
  refine ⟨?_, ?_, by decide, overflow_run_files⟩
  · rw [count_manyFiles]
    rfl
  · have hm : manyFiles 369098752 = .file (bigName 369098751) [] (manyFiles 369098751) := rfl
    have hlen : (0 : Nat) < ((List.range (ffsFormat.entrySize * 369098752 % U32
        / ffsFormat.entrySize)).map stdLibc.junkEntry).length := by
      rw [List.length_map, List.length_range]
      decide
    have hpf := populateFile_overflow [] (bigName 369098751)
      (populateInput ffsFormat stdLibc 369098752 0 sampleInit) _ _ rfl rfl (by simp)
      (by rw [length_bigName]; decide) (by decide) hlen
      (by rw [length_bigName]; decide)
    unfold PopulateEntriesFromDirectoryTree
    rw [hm, if_neg (by decide), populateLoop.eq_2, hpf]
    simp only [populateInput]
    rw [if_pos (show (1:Nat) ≠ 0 by decide), Option.some_bind]
    dsimp only
    rw [Option.some_bind]
    refine (List.getElem?_set_self hlen).trans ?_
    decide

/-! ## Claims about offsets, the patch phase and aborted runs -/

/-- C11: after a successful `_CreateFileList` every entry of the array has
`FilenameStartOffset ≤ FilenameOffset < FilenameStartOffset +
FilenameBufferSize` (the sum does not wrap), and the filename buffer holds a
NUL byte at some index from `FilenameOffset - FilenameStartOffset` on and
below `FilenameBufferSize`, no byte before it from that index on being NUL:
the entry addresses a NUL-terminated string inside the filename region. -/
theorem C11_offsets_in_region (fmt : Format) (libc : Libc) (open1 open2 : Bool) (t1 t2 : Dir)
    (b b1 : SFileSystemBuild) (hw : wellFormed t2 = true)
    (h : CreateFileList fmt libc open1 t1 open2 t2 b = some (0, b1)) :
    ∃ entries buffer,
      b1.pFileEntries = some entries ∧ b1.pFilenameBuffer = some buffer ∧
      entries.length = b1.FileCount ∧ buffer.length = b1.FilenameBufferSize ∧
      b1.FilenameStartOffset + b1.FilenameBufferSize < U32 ∧
      ∀ e ∈ entries,
        b1.FilenameStartOffset ≤ e.FilenameOffset ∧
        e.FilenameOffset < b1.FilenameStartOffset + b1.FilenameBufferSize ∧
        ∃ j, e.FilenameOffset - b1.FilenameStartOffset ≤ j ∧ j < b1.FilenameBufferSize ∧
          buffer[j]? = some 0 ∧
          ∀ i, e.FilenameOffset - b1.FilenameStartOffset ≤ i → i < j → buffer[i]? ≠ some 0 := by
  obtain ⟨C, S, hc, hlen, hbl, hC, hS, hnw, hb, hheap⟩ :=
    CreateFileList_ok fmt libc open1 open2 t1 t2 b b1 hw h
  have hH := fmt.headerSize_le
  have hL := libc.heapSize_le
  have hstart : (fmt.headerSize + (C * fmt.entrySize) % U32) % U32
      = fmt.headerSize + fmt.entrySize * C := by
    rw [Nat.mul_comm C, Nat.mod_eq_of_lt hnw]
    exact Nat.mod_eq_of_lt (by simp only [U32, LONG_MAX] at *; omega)
  have hperm := libc.qsort_perm
    (CompareFileEntries (blit ((List.range S).map libc.junkByte) 0 (blob (visits [] t2)))
      ((fmt.headerSize + (C * fmt.entrySize) % U32) % U32))
    (popEntries ((fmt.headerSize + (C * fmt.entrySize) % U32) % U32) 0 (visits [] t2))
  have hjl : ((List.range S).map libc.junkByte).length = S := by simp
  subst hb
  refine ⟨_, _, rfl, rfl, ?_, ?_, ?_, ?_⟩
  · rw [hperm.length_eq, length_popEntries]; exact hlen
  · rw [length_blit _ _ _ (by simpa using hbl)]; simp [listBuilt]
  · simp only [listBuilt]
    rw [hstart]
    simp only [U32, LONG_MAX] at *; omega
  · intro e he
    have he0 := hperm.subset he
    obtain ⟨pre, v, post, hvs, heq⟩ := popEntries_mem _ (visits [] t2) 0 e (by omega) he0
    have hnul : 0 ∉ v.1 ++ v.2 :=
      visits_nul t2 [] hw (by simp) v (by rw [hvs]; simp)
    have hbsplit : blit ((List.range S).map libc.junkByte) 0 (blob (visits [] t2))
        = blob pre ++ (v.1 ++ v.2) ++ [0] ++
          (blob post ++ ((List.range S).map libc.junkByte).drop (blob (visits [] t2)).length) := by
      simp only [blit, List.take_zero, List.nil_append, Nat.zero_add]
      rw [hvs, blob_append, blob_cons]
      simp only [List.append_assoc]
    have hblen : (blob (visits [] t2)).length
        = (blob pre).length + (v.1 ++ v.2).length + 1 + (blob post).length := by
      rw [hvs, blob_append, blob_cons]
      simp only [List.length_append, List.length_singleton]
      omega
    have hFO : e.FilenameOffset = fmt.headerSize + fmt.entrySize * C + (blob pre).length := by
      rw [heq, hstart]
      simp only [Nat.zero_add]
      exact Nat.mod_eq_of_lt (by simp only [U32, LONG_MAX] at *; omega)
    simp only [listBuilt]
    rw [hstart, hFO]
    have hsub : fmt.headerSize + fmt.entrySize * C + (blob pre).length
        - (fmt.headerSize + fmt.entrySize * C) = (blob pre).length := by omega
    rw [hsub]
    refine ⟨by omega, by omega, (blob pre).length + (v.1 ++ v.2).length, by omega, by omega, ?_, ?_⟩
    · rw [hbsplit]
      rw [List.getElem?_append_left
        (by simp only [List.length_append, List.length_singleton]; omega)]
      rw [List.getElem?_append_right (by simp only [List.length_append]; omega)]
      simp
    · intro i hi1 hi2
      rw [hbsplit]
      rw [List.getElem?_append_left
        (by simp only [List.length_append, List.length_singleton] at *; omega)]
      rw [List.getElem?_append_left
        (by simp only [List.length_append, List.length_singleton] at *; omega)]
      rw [List.getElem?_append_right (by omega)]
      intro hcon
      obtain ⟨hlt, hget⟩ := List.getElem?_eq_some_iff.1 hcon
      exact hnul (hget ▸ List.getElem_mem hlt)

theorem C11_offsets_in_region_witness :
    wellFormed sampleTree = true ∧
    CreateFileList ffsFormat stdLibc true sampleTree true sampleTree sampleInit
      = some (0, sampleList) ∧
    ∃ entries buffer,
      sampleList.pFileEntries = some entries ∧ sampleList.pFilenameBuffer = some buffer ∧
      entries.length = sampleList.FileCount ∧ buffer.length = sampleList.FilenameBufferSize ∧
      sampleList.FilenameStartOffset + sampleList.FilenameBufferSize < U32 ∧
      ∀ e ∈ entries,
        sampleList.FilenameStartOffset ≤ e.FilenameOffset ∧
        e.FilenameOffset < sampleList.FilenameStartOffset + sampleList.FilenameBufferSize ∧
        ∃ j, e.FilenameOffset - sampleList.FilenameStartOffset ≤ j ∧
          j < sampleList.FilenameBufferSize ∧ buffer[j]? = some 0 ∧
          ∀ i, e.FilenameOffset - sampleList.FilenameStartOffset ≤ i → i < j →
            buffer[i]? ≠ some 0 :=
  ⟨by decide, by decide,
   C11_offsets_in_region ffsFormat stdLibc true true sampleTree sampleTree sampleInit sampleList
     (by decide) (by decide)⟩

theorem patched_head (ops : FileOps) (root buffer : List Nat) (fbp : Nat)
    (es : List SFileSystemEntry) (pos : Nat) (e : SFileSystemEntry)
    (h : (patched ops root buffer fbp pos es)[0]? = some e) : e.FileBinaryOffset = pos := by
  cases es with
  | nil => simp [patched] at h
  | cons a es =>
      simp only [patched, List.getElem?_cons_zero, Option.some.injEq] at h
      rw [← h]

theorem patched_chain (ops : FileOps) (root buffer : List Nat) (fbp : Nat)
    (es : List SFileSystemEntry) :
    ∀ (pos i : Nat) (e e1 : SFileSystemEntry),
    (patched ops root buffer fbp pos es)[i]? = some e →
    (patched ops root buffer fbp pos es)[i + 1]? = some e1 →
    e1.FileBinaryOffset = e.FileBinaryOffset + e.FileBinarySize := by
  induction es with
  | nil => intro pos i e e1 h; simp [patched] at h
  | cons a es ih =>
      intro pos i e e1 h h1
      simp only [patched, List.getElem?_cons_succ] at h1
      cases i with
      | zero =>
          simp only [patched, List.getElem?_cons_zero, Option.some.injEq] at h
          rw [patched_head _ _ _ _ _ _ _ h1, ← h]
      | succ k =>
          simp only [patched, List.getElem?_cons_succ] at h
          exact ih _ k e e1 h h1

theorem patched_last (ops : FileOps) (root buffer : List Nat) (fbp : Nat)
    (es : List SFileSystemEntry) :
    ∀ (pos : Nat) (e : SFileSystemEntry),
    (patched ops root buffer fbp pos es)[es.length - 1]? = some e →
    e.FileBinaryOffset + e.FileBinarySize
      = pos + (payload ops root buffer fbp es).length := by
  induction es with
  | nil => intro pos e h; simp [patched] at h
  | cons a es ih =>
      intro pos e h
      have hpay : payload ops root buffer fbp (a :: es)
          = srcContent ops root buffer fbp a ++ payload ops root buffer fbp es := by
        simp [payload]
      rw [hpay, List.length_append]
      cases es with
      | nil =>
          simp only [patched, List.length_singleton, Nat.sub_self, List.getElem?_cons_zero,
            Option.some.injEq] at h
          rw [← h]
          simp [payload]
      | cons a1 es1 =>
          have hidx : (a :: a1 :: es1).length - 1 = ((a1 :: es1).length - 1) + 1 := by
            simp
          rw [hidx] at h
          simp only [patched, List.getElem?_cons_succ] at h
          have := ih (pos + (srcContent ops root buffer fbp a).length) e
            (by simpa only [patched] using h)
          omega

theorem patched_names (ops : FileOps) (root buffer : List Nat) (fbp : Nat)
    (es : List SFileSystemEntry) :
    ∀ pos, (patched ops root buffer fbp pos es).map (fun e => e.FilenameOffset)
      = es.map (fun e => e.FilenameOffset) := by
  induction es with
  | nil => intro pos; rfl
  | cons a es ih => intro pos; simp only [patched, List.map_cons, ih]

/-- C12: in a successful build the final table has the names of the sorted
entry array in the same order; its first entry has `FileBinaryOffset =
sizeof(SFileSystemHeader) + FileCount * sizeof(SFileSystemEntry) +
FilenameBufferSize`, each later entry starts where the one before it ends
(`FileBinaryOffset + FileBinarySize`), and the last one ends at the end of the
image. -/
theorem C12_contiguous_offsets (fmt : Format) (libc : Libc) (ops : FileOps)
    (open1 open2 : Bool) (t1 t2 : Dir) (b b1 b2 : SFileSystemBuild) (out : Option OutFile)
    (hw : wellFormed t2 = true)
    (h : BuildOk fmt libc ops open1 open2 t1 t2 b b1 b2 out) :
    ∃ sorted table image,
      b1.pFileEntries = some sorted ∧ b2.pFileEntries = some table ∧ out = some image ∧
      table.length = b2.FileCount ∧ 0 < table.length ∧
      table.map (fun e => e.FilenameOffset) = sorted.map (fun e => e.FilenameOffset) ∧
      (∀ e, table[0]? = some e →
        e.FileBinaryOffset
          = fmt.headerSize + b2.FileCount * fmt.entrySize + b2.FilenameBufferSize) ∧
      (∀ i e e1, table[i]? = some e → table[i + 1]? = some e1 →
        e1.FileBinaryOffset = e.FileBinaryOffset + e.FileBinarySize) ∧
      (∀ e, table[table.length - 1]? = some e →
        e.FileBinaryOffset + e.FileBinarySize = image.data.length) := by
  obtain ⟨sorted, buffer, h1, _, h3, h4, h5, h6, h7, _, _, h10, h11, _⟩ :=
    build_image fmt libc ops open1 open2 t1 t2 b b1 b2 out hw h
  refine ⟨sorted, _, _, h1, h10, h11, ?_, ?_, patched_names _ _ _ _ _ _, ?_, ?_, ?_⟩
  · rw [length_patched, h3, h5]
  · rw [length_patched, h3]; exact h7
  · intro e he
    rw [patched_head _ _ _ _ _ _ _ he, h5, h6, h4, Nat.mul_comm]
  · intro i e e1 he he1
    exact patched_chain _ _ _ _ _ _ _ _ _ he he1
  · intro e he
    rw [length_patched] at he
    rw [patched_last _ _ _ _ _ _ _ he]
    simp only [List.length_append, fmt.encHeader_length, length_flatMap_enc, length_patched,
      h3]
    omega

theorem C12_contiguous_offsets_witness :
    wellFormed sampleTree = true ∧
    BuildOk ffsFormat stdLibc (treeOps [119, 119, 119] sampleTree) true true
      sampleTree sampleTree sampleInit sampleList sampleBuilt (some sampleImage) ∧
    ∃ sorted table image,
      sampleList.pFileEntries = some sorted ∧ sampleBuilt.pFileEntries = some table ∧
      some sampleImage = some image ∧
      table.length = sampleBuilt.FileCount ∧ 0 < table.length ∧
      table.map (fun e => e.FilenameOffset) = sorted.map (fun e => e.FilenameOffset) ∧
      (∀ e, table[0]? = some e →
        e.FileBinaryOffset = ffsFormat.headerSize + sampleBuilt.FileCount * ffsFormat.entrySize
          + sampleBuilt.FilenameBufferSize) ∧
      (∀ i e e1, table[i]? = some e → table[i + 1]? = some e1 →
        e1.FileBinaryOffset = e.FileBinaryOffset + e.FileBinarySize) ∧
      (∀ e, table[table.length - 1]? = some e →
        e.FileBinaryOffset + e.FileBinarySize = image.data.length) :=
  ⟨by decide, ⟨by decide, by decide⟩,
   C12_contiguous_offsets ffsFormat stdLibc (treeOps [119, 119, 119] sampleTree) true true
     sampleTree sampleTree sampleInit sampleList sampleBuilt (some sampleImage)
     (by decide) ⟨by decide, by decide⟩⟩

/-- The loop body for an entry whose source file opens and is empty, when it
runs to its end: the entry gets the current output position and size 0, and
the output stream is left as it was. -/
theorem empty_source_entry (ops : FileOps) (root buffer : List Nat) (fbp : Nat)
    (e : SFileSystemEntry) (out : OutFile) (bs : Nat) (hp : out.pos = out.data.length)
    (hsrc : ops.fopenSrc (srcPath root buffer fbp e) = some [])
    (h : (writeEntry ops root buffer fbp e out bs).1 = 0) :
    (writeEntry ops root buffer fbp e out bs).2.1
        = { e with FileBinaryOffset := out.pos, FileBinarySize := 0 } ∧
    (writeEntry ops root buffer fbp e out bs).2.2.1 = out := by
  obtain ⟨content, h1, _, _, h4, h5⟩ := writeEntry_ok ops root buffer fbp e out bs hp h
  rw [hsrc] at h1
  cases h1
  refine ⟨?_, ?_⟩
  · rw [h4, hp]; rfl
  · rw [h5]
    cases out
    simp only at hp
    simp [hp]

theorem patched_at (ops : FileOps) (root buffer : List Nat) (fbp : Nat)
    (es : List SFileSystemEntry) :
    ∀ (pos i : Nat) (e0 e : SFileSystemEntry), es[i]? = some e0 →
    (patched ops root buffer fbp pos es)[i]? = some e →
    e.FileBinarySize = (srcContent ops root buffer fbp e0).length ∧
    e.FileBinaryOffset = pos + (payload ops root buffer fbp (es.take i)).length := by
  induction es with
  | nil => intro pos i e0 e h; simp at h
  | cons a es ih =>
      intro pos i e0 e h0 h
      cases i with
      | zero =>
          simp only [List.getElem?_cons_zero, Option.some.injEq] at h0
          simp only [patched, List.getElem?_cons_zero, Option.some.injEq] at h
          subst h0; subst h
          simp [payload]
      | succ k =>
          simp only [List.getElem?_cons_succ] at h0
          simp only [patched, List.getElem?_cons_succ] at h
          obtain ⟨g1, g2⟩ := ih _ k e0 e h0 h
          refine ⟨g1, ?_⟩
          rw [g2]
          simp only [List.take_succ_cons, payload, List.flatMap_cons, List.length_append]
          omega

/-- The part of C13 that holds: in a successful build, an entry for which
the file the writer opens (the one at the path `snprintf` composes) has no
bytes gets `FileBinarySize` 0 and, as `FileBinaryOffset`, the output
position at which it is processed: the end of
the filename buffer plus the bytes of the files written before it; the entry
after it, if any, gets the same `FileBinaryOffset`.  In the loop body such an
entry receives the current output position and leaves the output stream as
it was. -/
theorem C13_empty_file (fmt : Format) (libc : Libc) (ops : FileOps) (open1 open2 : Bool)
    (t1 t2 : Dir) (b b1 b2 : SFileSystemBuild) (out : Option OutFile)
    (hw : wellFormed t2 = true)
    (h : BuildOk fmt libc ops open1 open2 t1 t2 b b1 b2 out) :
    ∃ sorted buffer table,
      b1.pFileEntries = some sorted ∧ b1.pFilenameBuffer = some buffer ∧
      b2.pFileEntries = some table ∧ table.length = sorted.length ∧
      (∀ i e0 e, sorted[i]? = some e0 → table[i]? = some e →
        ops.fopenSrc (srcPath b1.pRootSourceDirectory buffer
          (fmt.headerSize + fmt.entrySize * b1.FileCount) e0) = some [] →
        e.FileBinarySize = 0 ∧
        e.FileBinaryOffset = fmt.headerSize + fmt.entrySize * b1.FileCount
          + b1.FilenameBufferSize
          + (payload ops b1.pRootSourceDirectory buffer
              (fmt.headerSize + fmt.entrySize * b1.FileCount) (sorted.take i)).length ∧
        ∀ e1, table[i + 1]? = some e1 → e1.FileBinaryOffset = e.FileBinaryOffset) ∧
      (∀ e0 (o : OutFile) (bs : Nat), o.pos = o.data.length →
        ops.fopenSrc (srcPath b1.pRootSourceDirectory buffer
          (fmt.headerSize + fmt.entrySize * b1.FileCount) e0) = some [] →
        (writeEntry ops b1.pRootSourceDirectory buffer
          (fmt.headerSize + fmt.entrySize * b1.FileCount) e0 o bs).1 = 0 →
        (writeEntry ops b1.pRootSourceDirectory buffer
          (fmt.headerSize + fmt.entrySize * b1.FileCount) e0 o bs).2.1
            = { e0 with FileBinaryOffset := o.pos, FileBinarySize := 0 } ∧
        (writeEntry ops b1.pRootSourceDirectory buffer
          (fmt.headerSize + fmt.entrySize * b1.FileCount) e0 o bs).2.2.1 = o) := by
  obtain ⟨sorted, buffer, h1, h2, h3, h4, _, _, _, _, _, h10, _, _⟩ :=
    build_image fmt libc ops open1 open2 t1 t2 b b1 b2 out hw h
  refine ⟨sorted, buffer, _, h1, h2, h10, length_patched _ _ _ _ _ _, ?_, ?_⟩
  · intro i e0 e he0 he hsrc
    obtain ⟨g1, g2⟩ := patched_at _ _ _ _ _ _ _ _ _ he0 he
    have hz : (srcContent ops b1.pRootSourceDirectory buffer
        (fmt.headerSize + fmt.entrySize * b1.FileCount) e0).length = 0 := by
      simp only [srcContent, hsrc, Option.getD_some, List.length_nil]
    refine ⟨by rw [g1, hz], by rw [g2, h4], ?_⟩
    intro e1 he1
    rw [patched_chain _ _ _ _ _ _ _ _ _ he he1, g1, hz, Nat.add_zero]
  · intro e0 o bs hp hsrc hr
    exact empty_source_entry _ _ _ _ _ _ _ hp hsrc hr

theorem C13_empty_file_witness :
    wellFormed sampleTree = true ∧
    BuildOk ffsFormat stdLibc (treeOps [119, 119, 119] sampleTree) true true
      sampleTree sampleTree sampleInit sampleList sampleBuilt (some sampleImage) ∧
    (treeOps [119, 119, 119] sampleTree).fopenSrc
      (srcPath [119, 119, 119] [115, 117, 98, 47, 98, 46, 116, 120, 116, 0, 97, 46, 116, 120, 116, 0]
        36 { FilenameOffset := 36, FileBinaryOffset := 4294967295, FileBinarySize := 0 })
      = some [] ∧
    sampleTable[1]? = some { FilenameOffset := 36, FileBinaryOffset := 55, FileBinarySize := 0 } ∧
    ∃ sorted buffer table,
      sampleList.pFileEntries = some sorted ∧ sampleList.pFilenameBuffer = some buffer ∧
      sampleBuilt.pFileEntries = some table ∧ table.length = sorted.length ∧
      (∀ i e0 e, sorted[i]? = some e0 → table[i]? = some e →
        (treeOps [119, 119, 119] sampleTree).fopenSrc (srcPath sampleList.pRootSourceDirectory
          buffer (ffsFormat.headerSize + ffsFormat.entrySize * sampleList.FileCount) e0)
          = some [] →
        e.FileBinarySize = 0 ∧
        e.FileBinaryOffset = ffsFormat.headerSize + ffsFormat.entrySize * sampleList.FileCount
          + sampleList.FilenameBufferSize
          + (payload (treeOps [119, 119, 119] sampleTree) sampleList.pRootSourceDirectory buffer
              (ffsFormat.headerSize + ffsFormat.entrySize * sampleList.FileCount)
              (sorted.take i)).length ∧
        ∀ e1, table[i + 1]? = some e1 → e1.FileBinaryOffset = e.FileBinaryOffset) :=
  have h := C13_empty_file ffsFormat stdLibc (treeOps [119, 119, 119] sampleTree) true true
    sampleTree sampleTree sampleInit sampleList sampleBuilt (some sampleImage)
    (by decide) ⟨by decide, by decide⟩
  ⟨by decide, ⟨by decide, by decide⟩, by decide, by decide,
   h.elim fun sorted h1 => h1.elim fun buffer h2 => h2.elim fun table h3 =>
     ⟨sorted, buffer, table, h3.1, h3.2.1, h3.2.2.1, h3.2.2.2.1, h3.2.2.2.2.1⟩⟩

theorem exampleBuild_run :
    BuildOk ffsFormat stdLibc (treeOps [119, 119, 119] exampleTree) true true
      exampleTree exampleTree sampleInit exampleList exampleBuilt (some exampleImage) :=
  ⟨by decide, by decide⟩

/-- The run of `_CreateFileSystemImage` up to the file loop, for a build
context whose arrays have the recorded sizes: either the output file opens,
the header, the provisional entry table and the filename buffer are written
and the rest of the run is the file loop and the rewrite of the table, or the
function returns 1 before the loop with the context unchanged. -/
theorem image_before_loop (fmt : Format) (ops : FileOps) (b : SFileSystemBuild)
    (entries : List SFileSystemEntry) (buffer : List Nat)
    (hE : b.pFileEntries = some entries) (hB : b.pFilenameBuffer = some buffer)
    (hlen : entries.length = b.FileCount) (hnw : fmt.entrySize * b.FileCount < U32)
    (hbl : buffer.length = b.FilenameBufferSize) :
    (ops.fopenOut = true ∧
      (fwrite ops { data := [], pos := 0 } (fmt.encHeader b.FileCount)).1 = 1 ∧
      (fwrite ops { data := fmt.encHeader b.FileCount, pos := fmt.headerSize }
        (entries.flatMap fmt.encEntry)).1 = 1 ∧
      fmt.headerSize + fmt.entrySize * b.FileCount ≤ LONG_MAX ∧
      (fwrite ops { data := fmt.encHeader b.FileCount ++ entries.flatMap fmt.encEntry,
                    pos := fmt.headerSize + fmt.entrySize * b.FileCount } buffer).1 = 1 ∧
      CreateFileSystemImage fmt ops b = writeFiles fmt ops b buffer entries
        { data := fmt.encHeader b.FileCount ++ entries.flatMap fmt.encEntry ++ buffer,
          pos := fmt.headerSize + fmt.entrySize * b.FileCount + buffer.length }
        (fmt.headerSize : Int) ((fmt.headerSize + fmt.entrySize * b.FileCount : Nat) : Int)) ∨
    (¬ (ops.fopenOut = true ∧
        (fwrite ops { data := [], pos := 0 } (fmt.encHeader b.FileCount)).1 = 1 ∧
        (fwrite ops { data := fmt.encHeader b.FileCount, pos := fmt.headerSize }
          (entries.flatMap fmt.encEntry)).1 = 1 ∧
        fmt.headerSize + fmt.entrySize * b.FileCount ≤ LONG_MAX ∧
        (fwrite ops { data := fmt.encHeader b.FileCount ++ entries.flatMap fmt.encEntry,
                      pos := fmt.headerSize + fmt.entrySize * b.FileCount } buffer).1 = 1) ∧
      ∃ o, CreateFileSystemImage fmt ops b = some (1, b, o)) := by
  have hsz : fmt.entrySize * b.FileCount % U32 = fmt.entrySize * entries.length := by
    rw [hlen]; exact Nat.mod_eq_of_lt hnw
  have hH := fmt.headerSize_le
  unfold CreateFileSystemImage
  rw [hB, hE]
  dsimp only
  by_cases hopen : ops.fopenOut = false
  · right; rw [if_pos hopen]
    exact ⟨fun hc => (by rw [hc.1] at hopen; cases hopen), _, rfl⟩
  rw [if_neg hopen]
  by_cases hw1 : (fwrite ops { data := [], pos := 0 } (fmt.encHeader b.FileCount)).1 ≠ 1
  · right; rw [if_pos hw1]; exact ⟨fun hc => hw1 hc.2.1, _, rfl⟩
  rw [if_neg hw1]
  have hw1a : (fwrite ops { data := [], pos := 0 } (fmt.encHeader b.FileCount)).1 = 1 := by
    simpa using hw1
  obtain ⟨_, e1⟩ := fwrite_append ops _ _ rfl hw1a
  simp only [List.nil_append, List.length_nil, Nat.zero_add, fmt.encHeader_length] at e1
  rw [e1]
  dsimp only
  have hfe : ftell fmt.headerSize = (fmt.headerSize : Int) := by
    unfold ftell; rw [if_pos hH]
  rw [hfe, if_neg (by simp)]
  unfold writeTables
  rw [hsz, entryBytes_full]
  dsimp only
  by_cases hw2 : (fwrite ops { data := fmt.encHeader b.FileCount, pos := fmt.headerSize }
      (entries.flatMap fmt.encEntry)).1 ≠ 1
  · right; rw [if_pos hw2]; exact ⟨fun hc => hw2 hc.2.2.1, _, rfl⟩
  rw [if_neg hw2]
  have hw2a : (fwrite ops { data := fmt.encHeader b.FileCount, pos := fmt.headerSize }
      (entries.flatMap fmt.encEntry)).1 = 1 := by simpa using hw2
  obtain ⟨_, e2⟩ := fwrite_append ops _ _ (by simp [fmt.encHeader_length]) hw2a
  simp only [fmt.encHeader_length, length_flatMap_enc] at e2
  rw [e2]
  dsimp only
  by_cases hfp : ftell (fmt.headerSize + fmt.entrySize * entries.length) ≤ 0
  · right; rw [if_pos hfp]
    refine ⟨fun hc => ?_, _, rfl⟩
    have h4 := hc.2.2.2.1
    rw [← hlen] at h4
    unfold ftell at hfp
    rw [if_pos h4] at hfp
    have := fmt.headerSize_pos
    omega
  rw [if_neg hfp]
  obtain ⟨hpos, hft⟩ := ftell_pos _ hfp
  rw [if_neg (by omega)]
  have htk : buffer.take b.FilenameBufferSize = buffer :=
    List.take_of_length_le (by omega)
  rw [htk]
  by_cases hw3 : (fwrite ops
      { data := fmt.encHeader b.FileCount ++ entries.flatMap fmt.encEntry,
        pos := fmt.headerSize + fmt.entrySize * entries.length } buffer).1 ≠ 1
  · right; rw [if_pos hw3]
    refine ⟨fun hc => hw3 ?_, _, rfl⟩
    rw [hlen]; exact hc.2.2.2.2
  rw [if_neg hw3]
  have hw3a : (fwrite ops
      { data := fmt.encHeader b.FileCount ++ entries.flatMap fmt.encEntry,
        pos := fmt.headerSize + fmt.entrySize * entries.length } buffer).1 = 1 := by
    simpa using hw3
  obtain ⟨_, e3⟩ := fwrite_append ops _ _
    (by simp only [List.length_append, fmt.encHeader_length, length_flatMap_enc]) hw3a
  left
  rw [e3, hft]
  simp only [List.length_append, fmt.encHeader_length, length_flatMap_enc]
  rw [hlen] at hpos hw3a ⊢
  exact ⟨by simpa using hopen, hw1a, hw2a, hpos, hw3a, rfl⟩

/-- The file loop inside a run of the last part of `_CreateFileSystemImage`
that returns 0: the loop ends normally, and the function then stores the
encoding of the entry array over the table in the output file. -/
theorem writeFiles_loop (fmt : Format) (ops : FileOps) (b b1 : SFileSystemBuild)
    (outF : Option OutFile) (entries : List SFileSystemEntry) (buffer : List Nat)
    (out : OutFile) (fbp : Nat)
    (hlen : entries.length = b.FileCount) (hnw : fmt.entrySize * b.FileCount < U32)
    (hfbp : fbp ≤ LONG_MAX) (hpos : out.pos = out.data.length)
    (h : writeFiles fmt ops b buffer entries out (fmt.headerSize : Int) (fbp : Int)
      = some (0, b1, outF)) :
    ∃ st, writeLoop ops b.pRootSourceDirectory buffer fbp b.FileCount 0
        { entries := entries, out := out, BufferSize := 0 } = some (0, st) ∧
      b1 = { b with pFileEntries := some st.entries } ∧
      outF = some { data := blit st.out.data fmt.headerSize (st.entries.flatMap fmt.encEntry),
                    pos := fmt.headerSize + fmt.entrySize * b.FileCount } ∧
      st.entries = patched ops b.pRootSourceDirectory buffer fbp out.data.length entries ∧
      st.out.data = out.data ++ payload ops b.pRootSourceDirectory buffer fbp entries := by
  have hsz : fmt.entrySize * b.FileCount % U32 = fmt.entrySize * b.FileCount :=
    Nat.mod_eq_of_lt hnw
  have hf : (fbp : Int).toNat % U32 = fbp := by
    rw [Int.toNat_ofNat]
    exact Nat.mod_eq_of_lt (by simp only [U32, LONG_MAX] at *; omega)
  unfold writeFiles at h
  rw [hf, hsz] at h
  split at h
  · simp at h
  · rename_i r st hloop
    dsimp only at h
    split at h
    · exact (ret_ne3 h).elim
    · rename_i hr
      have hr0 : r = 0 := by simpa using hr
      subst hr0
      have hloop2 : writeLoop ops b.pRootSourceDirectory buffer fbp entries.length
          ([] : List SFileSystemEntry).length
          { entries := [] ++ (entries ++ []), out := out, BufferSize := 0 } = some (0, st) := by
        rw [hlen]; simpa using hloop
      obtain ⟨g1, g2, g3, g4, g5⟩ := writeLoop_ok ops b.pRootSourceDirectory buffer fbp entries
        [] [] out 0 st hpos hloop2
      simp only [List.nil_append, List.append_nil] at g1
      refine ⟨st, hloop, ?_, ?_, g1, g2⟩
      · split at h
        · exact (ret_ne3 h).elim
        · have hfull := entryBytes_full fmt st.entries
          rw [g1, length_patched, hlen] at hfull
          rw [g1, hfull] at h
          dsimp only at h
          split at h
          · exact (ret_ne3 h).elim
          · simp only [Option.some.injEq, Prod.mk.injEq, true_and] at h
            rw [g1]; exact h.1.symm
      · split at h
        · exact (ret_ne3 h).elim
        · have hfull := entryBytes_full fmt st.entries
          rw [g1, length_patched, hlen] at hfull
          rw [g1, hfull] at h
          dsimp only at h
          split at h
          · exact (ret_ne3 h).elim
          · rename_i hw5
            have hw5a : (fwrite ops { data := st.out.data, pos := (fmt.headerSize : Int).toNat }
                ((patched ops b.pRootSourceDirectory buffer fbp out.data.length
                  entries).flatMap fmt.encEntry)).1 = 1 := by
              simpa using hw5
            obtain ⟨_, e5⟩ := fwrite_blit ops _ _ hw5a
            simp only [Int.toNat_ofNat, length_flatMap_enc, length_patched] at e5
            simp only [Option.some.injEq, Prod.mk.injEq, true_and] at h
            rw [← h.2]
            simp only [Int.toNat_ofNat]
            rw [e5, g1, hlen]

theorem drop_app {α : Type} (A R : List α) (n : Nat) (h : A.length = n) :
    (A ++ R).drop n = R := by
  subst h
  exact List.drop_left _ _

/-- C15: in a successful build, when the file loop ends the output file
holds the header, the encoding of the sorted entry array as `_CreateFileList`
left it (the provisional table), the filename buffer and the file data; the
final write at `FileEntryPos = sizeof(SFileSystemHeader)` leaves the length of
the file, its first `sizeof(SFileSystemHeader)` bytes and everything from
offset `sizeof(SFileSystemHeader) + FileCount * sizeof(SFileSystemEntry)` on
as they were and puts the encoding of the entry array in between; that array
has the same length and, entry by entry, the same `FilenameOffset` as the
sorted array. -/
theorem C15_patch_frame (fmt : Format) (libc : Libc) (ops : FileOps) (open1 open2 : Bool)
    (t1 t2 : Dir) (b b1 b2 : SFileSystemBuild) (out : Option OutFile)
    (hw : wellFormed t2 = true)
    (h : BuildOk fmt libc ops open1 open2 t1 t2 b b1 b2 out) :
    ∃ sorted buffer st table image,
      b1.pFileEntries = some sorted ∧ b1.pFilenameBuffer = some buffer ∧
      writeLoop ops b1.pRootSourceDirectory buffer
        (fmt.headerSize + fmt.entrySize * b1.FileCount) b1.FileCount 0
        { entries := sorted,
          out := { data := fmt.encHeader b1.FileCount ++ sorted.flatMap fmt.encEntry ++ buffer,
                   pos := fmt.headerSize + fmt.entrySize * b1.FileCount + buffer.length },
          BufferSize := 0 } = some (0, st) ∧
      b2.pFileEntries = some table ∧ out = some image ∧ table = st.entries ∧
      table.length = b1.FileCount ∧
      table.map (fun e => e.FilenameOffset) = sorted.map (fun e => e.FilenameOffset) ∧
      st.out.data.take fmt.headerSize = fmt.encHeader b1.FileCount ∧
      (st.out.data.drop fmt.headerSize).take (fmt.entrySize * b1.FileCount)
        = sorted.flatMap fmt.encEntry ∧
      image.data.length = st.out.data.length ∧
      image.data.take fmt.headerSize = st.out.data.take fmt.headerSize ∧
      (image.data.drop fmt.headerSize).take (fmt.entrySize * b1.FileCount)
        = table.flatMap fmt.encEntry ∧
      image.data.drop (fmt.headerSize + fmt.entrySize * b1.FileCount)
        = st.out.data.drop (fmt.headerSize + fmt.entrySize * b1.FileCount) := by
  obtain ⟨hl, hi⟩ := h
  obtain ⟨sorted, buffer, unsorted, e1, e2, e3, e4, _, _, _, _, e9⟩ :=
    list_names fmt libc open1 open2 t1 t2 b b1 hw hl
  rcases image_before_loop fmt ops b1 sorted buffer e1 e2 e3 e9 e4 with
    ⟨_, _, _, hfit, _, heq⟩ | ⟨_, o, ho⟩
  · rw [heq] at hi
    obtain ⟨st, hloop, hb2, hout, hst, hdata⟩ := writeFiles_loop fmt ops b1 b2 out sorted buffer
      _ _ e3 e9 hfit
      (by simp only [List.length_append, fmt.encHeader_length, length_flatMap_enc, e3]) hi
    have hH : (fmt.encHeader b1.FileCount).length = fmt.headerSize := fmt.encHeader_length _
    have hT : (sorted.flatMap fmt.encEntry).length = fmt.entrySize * b1.FileCount := by
      rw [length_flatMap_enc, e3]
    have hT2 : (st.entries.flatMap fmt.encEntry).length = fmt.entrySize * b1.FileCount := by
      rw [length_flatMap_enc, hst, length_patched, e3]
    have hblit : blit st.out.data fmt.headerSize (st.entries.flatMap fmt.encEntry)
        = fmt.encHeader b1.FileCount ++ st.entries.flatMap fmt.encEntry ++
          (buffer ++ payload ops b1.pRootSourceDirectory buffer
            (fmt.headerSize + fmt.entrySize * b1.FileCount) sorted) := by
      rw [hdata]
      have := blit_mid (fmt.encHeader b1.FileCount) (sorted.flatMap fmt.encEntry)
        (st.entries.flatMap fmt.encEntry)
        (buffer ++ payload ops b1.pRootSourceDirectory buffer
          (fmt.headerSize + fmt.entrySize * b1.FileCount) sorted) (by rw [hT, hT2])
      rw [hH] at this
      rw [← this]
      simp only [List.append_assoc]
    refine ⟨sorted, buffer, st, st.entries, _, e1, e2, hloop, by rw [hb2], hout, rfl, ?_, ?_,
      ?_, ?_, ?_, ?_, ?_, ?_⟩
    · rw [hst, length_patched, e3]
    · rw [hst]; exact patched_names _ _ _ _ _ _
    · rw [hdata, List.append_assoc, List.append_assoc, ← hH, List.take_left]
    · rw [hdata]
      simp only [List.append_assoc]
      rw [← hH, List.drop_left, ← hT, List.take_left]
    · simp only
      rw [hblit, hdata]
      simp only [List.length_append, hT, hT2, hH]
      omega
    · simp only
      rw [hblit, hdata]
      simp only [List.append_assoc]
      rw [← hH, List.take_left, List.take_left]
    · simp only
      rw [hblit]
      simp only [List.append_assoc]
      rw [← hH, List.drop_left, ← hT2, List.take_left]
    · simp only
      rw [hblit, hdata]
      rw [List.append_assoc (fmt.encHeader b1.FileCount ++ sorted.flatMap fmt.encEntry)]
      rw [drop_app _ _ _ (by rw [List.length_append, hH, hT2]),
        drop_app _ _ _ (by rw [List.length_append, hH, hT])]
  · rw [ho] at hi
    exact (ret_ne3 hi).elim

theorem C15_patch_frame_witness :
    wellFormed sampleTree = true ∧
    BuildOk ffsFormat stdLibc (treeOps [119, 119, 119] sampleTree) true true
      sampleTree sampleTree sampleInit sampleList sampleBuilt (some sampleImage) ∧
    ∃ sorted buffer st table image,
      sampleList.pFileEntries = some sorted ∧ sampleList.pFilenameBuffer = some buffer ∧
      writeLoop (treeOps [119, 119, 119] sampleTree) sampleList.pRootSourceDirectory buffer
        (ffsFormat.headerSize + ffsFormat.entrySize * sampleList.FileCount)
        sampleList.FileCount 0
        { entries := sorted,
          out := { data := ffsFormat.encHeader sampleList.FileCount
                     ++ sorted.flatMap ffsFormat.encEntry ++ buffer,
                   pos := ffsFormat.headerSize + ffsFormat.entrySize * sampleList.FileCount
                     + buffer.length },
          BufferSize := 0 } = some (0, st) ∧
      sampleBuilt.pFileEntries = some table ∧ some sampleImage = some image ∧
      table = st.entries ∧ table.length = sampleList.FileCount ∧
      table.map (fun e => e.FilenameOffset) = sorted.map (fun e => e.FilenameOffset) ∧
      st.out.data.take ffsFormat.headerSize = ffsFormat.encHeader sampleList.FileCount ∧
      (st.out.data.drop ffsFormat.headerSize).take
          (ffsFormat.entrySize * sampleList.FileCount)
        = sorted.flatMap ffsFormat.encEntry ∧
      image.data.length = st.out.data.length ∧
      image.data.take ffsFormat.headerSize = st.out.data.take ffsFormat.headerSize ∧
      (image.data.drop ffsFormat.headerSize).take (ffsFormat.entrySize * sampleList.FileCount)
        = table.flatMap ffsFormat.encEntry ∧
      image.data.drop (ffsFormat.headerSize + ffsFormat.entrySize * sampleList.FileCount)
        = st.out.data.drop
            (ffsFormat.headerSize + ffsFormat.entrySize * sampleList.FileCount) :=
  ⟨by decide, ⟨by decide, by decide⟩,
   C15_patch_frame ffsFormat stdLibc (treeOps [119, 119, 119] sampleTree) true true
     sampleTree sampleTree sampleInit sampleList sampleBuilt (some sampleImage)
     (by decide) ⟨by decide, by decide⟩⟩

/-- The run of `_CreateFileSystemImage` up to the file loop when the output
file opens and the header, the provisional entry table and the filename
buffer are written. -/
theorem image_to_loop (fmt : Format) (ops : FileOps) (b : SFileSystemBuild)
    (entries : List SFileSystemEntry) (buffer : List Nat)
    (hE : b.pFileEntries = some entries) (hB : b.pFilenameBuffer = some buffer)
    (hlen : entries.length = b.FileCount) (hnw : fmt.entrySize * b.FileCount < U32)
    (hbl : buffer.length = b.FilenameBufferSize)
    (hopen : ops.fopenOut = true)
    (hw1 : (fwrite ops { data := [], pos := 0 } (fmt.encHeader b.FileCount)).1 = 1)
    (hw2 : (fwrite ops { data := fmt.encHeader b.FileCount, pos := fmt.headerSize }
        (entries.flatMap fmt.encEntry)).1 = 1)
    (hfit : fmt.headerSize + fmt.entrySize * b.FileCount ≤ LONG_MAX)
    (hw3 : (fwrite ops
      { data := fmt.encHeader b.FileCount ++ entries.flatMap fmt.encEntry,
        pos := fmt.headerSize + fmt.entrySize * b.FileCount } buffer).1 = 1) :
    CreateFileSystemImage fmt ops b = writeFiles fmt ops b buffer entries
      { data := fmt.encHeader b.FileCount ++ entries.flatMap fmt.encEntry ++ buffer,
        pos := fmt.headerSize + fmt.entrySize * b.FileCount + buffer.length }
      (fmt.headerSize : Int) ((fmt.headerSize + fmt.entrySize * b.FileCount : Nat) : Int) := by
  rcases image_before_loop fmt ops b entries buffer hE hB hlen hnw hbl with
    ⟨_, _, _, _, _, heq⟩ | ⟨hn, _⟩
  · exact heq
  · exact (hn ⟨hopen, hw1, hw2, hfit, hw3⟩).elim

theorem fwrite_data (ops : FileOps) (f : OutFile) (bytes : List Nat)
    (hp : f.pos = f.data.length) :
    (∃ extra, (fwrite ops f bytes).2.data = f.data ++ extra) ∧
    (fwrite ops f bytes).2.pos = (fwrite ops f bytes).2.data.length := by
  unfold fwrite
  split
  · exact ⟨⟨[], by simp⟩, hp⟩
  · simp only [memcpy, blit, hp, List.take_length, List.length_append]
    refine ⟨⟨bytes.take (ops.accept f.data.length bytes.length), ?_⟩, ?_⟩
    · rw [List.drop_of_length_le (by omega), List.append_nil]
    · rw [List.drop_of_length_le (by omega)]; simp

theorem writeEntry_data (ops : FileOps) (root buffer : List Nat) (fbp : Nat)
    (e : SFileSystemEntry) (out : OutFile) (bs : Nat) (hp : out.pos = out.data.length) :
    (∃ extra, (writeEntry ops root buffer fbp e out bs).2.2.1.data = out.data ++ extra) ∧
    (writeEntry ops root buffer fbp e out bs).2.2.1.pos
      = (writeEntry ops root buffer fbp e out bs).2.2.1.data.length := by
  have hsame : (∃ extra, out.data = out.data ++ extra) ∧ out.pos = out.data.length :=
    ⟨⟨[], by simp⟩, hp⟩
  generalize hres : writeEntry ops root buffer fbp e out bs = res
  unfold writeEntry at hres
  simp only at hres
  split at hres
  · subst hres; exact hsame
  · split at hres
    · subst hres; exact hsame
    · rename_i content _
      split at hres
      · subst hres; exact hsame
      · split at hres
        · subst hres; exact hsame
        · split at hres
          · subst hres; exact hsame
          · split at hres
            · split at hres
              · subst hres; exact hsame
              · split at hres
                · subst hres; exact hsame
                · split at hres
                  · subst hres; exact fwrite_data ops out _ hp
                  · subst hres; exact fwrite_data ops out _ hp
            · subst hres; exact hsame

/-- A file loop that stops at `Error`: some entry of index `k` failed; the
entries after it are as they were, and the output file is the one at loop
start followed by what the loop appended. -/
theorem writeLoop_abort (ops : FileOps) (root buffer : List Nat) (fbp : Nat) :
    ∀ (n p : Nat) (st st1 : LoopState), st.out.pos = st.out.data.length →
    writeLoop ops root buffer fbp n p st = some (1, st1) →
    (∃ extra, st1.out.data = st.out.data ++ extra) ∧
    st1.entries.length = st.entries.length ∧
    ∃ k, p ≤ k ∧ k < p + n ∧ ∀ i, k < i → st1.entries[i]? = st.entries[i]? := by
  intro n
  induction n with
  | zero => intro p st st1 _ h; simp [writeLoop] at h
  | succ n ih =>
      intro p st st1 hp h
      unfold writeLoop at h
      split at h
      · rename_i hlt
        obtain ⟨⟨x, hx⟩, hpos⟩ := writeEntry_data ops root buffer fbp
          (st.entries.get ⟨p, hlt⟩) st.out st.BufferSize hp
        dsimp only at h
        split at h
        · simp only [Option.some.injEq, Prod.mk.injEq, true_and] at h
          subst h
          refine ⟨⟨x, hx⟩, by simp, p, Nat.le_refl _, by omega, ?_⟩
          intro i hi
          simp only
          rw [List.getElem?_set_ne (by omega)]
        · obtain ⟨⟨y, hy⟩, hl, k, hk1, hk2, hk3⟩ := ih (p + 1) _ st1 hpos h
          refine ⟨⟨x ++ y, ?_⟩, ?_, k, by omega, by omega, ?_⟩
          · rw [hy]; simp only; rw [hx, List.append_assoc]
          · rw [hl]; simp
          · intro i hi
            rw [hk3 i hi]
            simp only
            rw [List.getElem?_set_ne (by omega)]
      · simp at h

/-- What `fwrite` at the end of the output file leaves: the file followed by
an initial part of the bytes. -/
theorem fwrite_sent (ops : FileOps) (f : OutFile) (bytes : List Nat)
    (hp : f.pos = f.data.length) :
    ∃ m, (fwrite ops f bytes).2.data = f.data ++ bytes.take m := by
  unfold fwrite
  split
  · exact ⟨0, by simp⟩
  · simp only [memcpy, blit, hp, List.take_length, List.length_append]
    refine ⟨ops.accept f.data.length bytes.length, ?_⟩
    rw [List.drop_of_length_le (by omega), List.append_nil]

/-- The loop body appends to the output file nothing but an initial part of
the bytes of the source file of its entry, and leaves the `FilenameOffset`
of the entry as it was. -/
theorem writeEntry_extra (ops : FileOps) (root buffer : List Nat) (fbp : Nat)
    (e : SFileSystemEntry) (out : OutFile) (bs : Nat) (hp : out.pos = out.data.length) :
    (∃ extra, (writeEntry ops root buffer fbp e out bs).2.2.1.data = out.data ++ extra ∧
      extra <+: srcContent ops root buffer fbp e) ∧
    (writeEntry ops root buffer fbp e out bs).2.1.FilenameOffset = e.FilenameOffset := by
  have hsame : ∀ e1 : SFileSystemEntry, e1.FilenameOffset = e.FilenameOffset →
      (∃ extra, out.data = out.data ++ extra ∧
        extra <+: srcContent ops root buffer fbp e) ∧
      e1.FilenameOffset = e.FilenameOffset :=
    fun e1 h1 => ⟨⟨[], by simp, List.nil_prefix⟩, h1⟩
  generalize hres : writeEntry ops root buffer fbp e out bs = res
  unfold writeEntry at hres
  simp only at hres
  split at hres
  · subst hres; exact hsame _ rfl
  · split at hres
    · subst hres; exact hsame _ rfl
    · rename_i content hopen
      have hsrc : srcContent ops root buffer fbp e = content := by
        simp only [srcContent, hopen, Option.getD_some]
      have hw : ∀ n, ∃ extra,
          (fwrite ops out (content.take n)).2.data = out.data ++ extra ∧
          extra <+: srcContent ops root buffer fbp e := by
        intro n
        obtain ⟨m, hm⟩ := fwrite_sent ops out (content.take n) hp
        exact ⟨_, hm, by
          rw [hsrc]
          exact (List.take_prefix _ _).trans (List.take_prefix _ _)⟩
      split at hres
      · subst hres; exact hsame _ rfl
      · split at hres
        · subst hres; exact hsame _ rfl
        · split at hres
          · subst hres; exact hsame _ rfl
          · split at hres
            · split at hres
              · subst hres; exact hsame _ rfl
              · split at hres
                · subst hres; exact hsame _ rfl
                · split at hres
                  · subst hres; exact ⟨hw _, rfl⟩
                  · subst hres; exact ⟨hw _, rfl⟩
            · subst hres; exact hsame _ rfl

/-- A file loop that stops at `Error`: the entries before the failing one
were processed and carry their offsets and sizes, the loop body failed on the
failing entry in the output file that holds the bytes of the files before it,
and the loop stopped there: the entries after the failing one are as they
were and the loop state is the one the failing body left. -/
theorem writeLoop_stop (ops : FileOps) (root buffer : List Nat) (fbp : Nat)
    (es : List SFileSystemEntry) :
    ∀ (pre post : List SFileSystemEntry) (out : OutFile) (bs : Nat) (st1 : LoopState),
    out.pos = out.data.length →
    writeLoop ops root buffer fbp es.length pre.length
      { entries := pre ++ (es ++ post), out := out, BufferSize := bs } = some (1, st1) →
    ∃ (done : List SFileSystemEntry) (e : SFileSystemEntry) (todo : List SFileSystemEntry)
      (bs1 : Nat) (outk : OutFile),
      es = done ++ e :: todo ∧
      outk.data = out.data ++ payload ops root buffer fbp done ∧
      outk.pos = outk.data.length ∧
      (∀ x ∈ done, ∃ c, ops.fopenSrc (srcPath root buffer fbp x) = some c) ∧
      (writeEntry ops root buffer fbp e outk bs1).1 ≠ 0 ∧
      st1.entries = pre ++ (patched ops root buffer fbp out.data.length done
        ++ (writeEntry ops root buffer fbp e outk bs1).2.1 :: todo ++ post) ∧
      st1.out = (writeEntry ops root buffer fbp e outk bs1).2.2.1 := by
  induction es with
  | nil =>
      intro pre post out bs st1 _ h
      simp [writeLoop] at h
  | cons e es ih =>
      intro pre post out bs st1 hp h
      have hlt : pre.length < (pre ++ (e :: es ++ post)).length := by
        simp only [List.length_append, List.length_cons]; omega
      simp only [List.length_cons, writeLoop] at h
      rw [dif_pos hlt] at h
      have hget : (pre ++ (e :: es ++ post)).get ⟨pre.length, hlt⟩ = e :=
        get_mid pre e (es ++ post) hlt
      simp only [hget] at h
      by_cases hr : (writeEntry ops root buffer fbp e out bs).1 ≠ 0
      · rw [if_pos hr] at h
        simp only [Option.some.injEq, Prod.mk.injEq, true_and] at h
        subst h
        refine ⟨[], e, es, bs, out, rfl, by simp [payload], hp, by simp, hr, ?_, rfl⟩
        simp only [patched, List.nil_append]
        exact (set_mid pre e _ (es ++ post)).trans (by simp)
      · rw [if_neg hr] at h
        have hr0 : (writeEntry ops root buffer fbp e out bs).1 = 0 := by simpa using hr
        obtain ⟨content, hopen, hpos, hclen, he, ho⟩ :=
          writeEntry_ok ops root buffer fbp e out bs hp hr0
        have hsrc : srcContent ops root buffer fbp e = content := by
          simp only [srcContent, hopen, Option.getD_some]
        have hset : (pre ++ (e :: es ++ post)).set pre.length
            { e with FileBinaryOffset := out.data.length, FileBinarySize := content.length }
            = (pre ++ [{ e with FileBinaryOffset := out.data.length,
                                FileBinarySize := content.length }]) ++ (es ++ post) :=
          set_mid pre e _ (es ++ post)
        rw [he, ho, hset] at h
        have hlen1 : pre.length + 1 = (pre ++ [{ e with
            FileBinaryOffset := out.data.length,
            FileBinarySize := content.length }]).length := by simp
        rw [hlen1] at h
        obtain ⟨done, e1, todo, bs1, outk, g1, g2, g3, g4, g5, g6, g7⟩ :=
          ih _ post _ _ st1 (by simp) h
        simp only [List.length_append] at g6
        refine ⟨e :: done, e1, todo, bs1, outk, by rw [g1]; rfl, ?_, g3, ?_, g5, ?_, g7⟩
        · rw [g2]
          simp [payload, hsrc]
        · intro x hx
          rcases List.mem_cons.1 hx with rfl | hx
          · exact ⟨content, hopen⟩
          · exact g4 x hx
        · rw [g6]
          simp [patched, hsrc]

/-- C19: take the build context of a successful `_CreateFileList` and a run
of `_CreateFileSystemImage` on it that opens the output file and writes the
header, the entry table and the filename buffer.  If the file loop then jumps
to `Error` while processing some entry, the function returns 1 with the
output file as the loop left it: its first `sizeof(SFileSystemHeader)` bytes
are the header and the next `FileCount * sizeof(SFileSystemEntry)` bytes are
still the encoding of the entry array as it was before the loop, in which
every `FileBinaryOffset` is 0xFFFFFFFF.  The loop stopped in the body of the
failing entry: the entries before it carry their offsets and sizes, the
entries after it are as they were, the state returned is the one the failing
body left, and the output file holds, after the filename buffer, the bytes of
the files before the failing entry and then nothing but an initial part of
the bytes of the failing entry's file. -/
theorem C19_writer_abort (fmt : Format) (libc : Libc) (ops : FileOps) (open1 open2 : Bool)
    (t1 t2 : Dir) (b b1 : SFileSystemBuild) (entries : List SFileSystemEntry)
    (buffer : List Nat) (st : LoopState)
    (hw : wellFormed t2 = true)
    (hl : CreateFileList fmt libc open1 t1 open2 t2 b = some (0, b1))
    (hE : b1.pFileEntries = some entries) (hB : b1.pFilenameBuffer = some buffer)
    (hopen : ops.fopenOut = true)
    (hw1 : (fwrite ops { data := [], pos := 0 } (fmt.encHeader b1.FileCount)).1 = 1)
    (hw2 : (fwrite ops { data := fmt.encHeader b1.FileCount, pos := fmt.headerSize }
        (entries.flatMap fmt.encEntry)).1 = 1)
    (hfit : fmt.headerSize + fmt.entrySize * b1.FileCount ≤ LONG_MAX)
    (hw3 : (fwrite ops
      { data := fmt.encHeader b1.FileCount ++ entries.flatMap fmt.encEntry,
        pos := fmt.headerSize + fmt.entrySize * b1.FileCount } buffer).1 = 1)
    (hloop : writeLoop ops b1.pRootSourceDirectory buffer
      (fmt.headerSize + fmt.entrySize * b1.FileCount) b1.FileCount 0
      { entries := entries,
        out := { data := fmt.encHeader b1.FileCount ++ entries.flatMap fmt.encEntry ++ buffer,
                 pos := fmt.headerSize + fmt.entrySize * b1.FileCount + buffer.length },
        BufferSize := 0 } = some (1, st)) :
    CreateFileSystemImage fmt ops b1
      = some (1, { b1 with pFileEntries := some st.entries }, some st.out) ∧
    (∀ e ∈ entries, e.FileBinaryOffset = 4294967295) ∧
    st.out.data.take fmt.headerSize = fmt.encHeader b1.FileCount ∧
    (st.out.data.drop fmt.headerSize).take (fmt.entrySize * b1.FileCount)
      = entries.flatMap fmt.encEntry ∧
    ∃ (done : List SFileSystemEntry) (e : SFileSystemEntry) (todo : List SFileSystemEntry)
      (bs : Nat) (outk : OutFile),
      entries = done ++ e :: todo ∧
      outk.data = fmt.encHeader b1.FileCount ++ entries.flatMap fmt.encEntry ++ buffer
        ++ payload ops b1.pRootSourceDirectory buffer
            (fmt.headerSize + fmt.entrySize * b1.FileCount) done ∧
      outk.pos = outk.data.length ∧
      (writeEntry ops b1.pRootSourceDirectory buffer
        (fmt.headerSize + fmt.entrySize * b1.FileCount) e outk bs).1 ≠ 0 ∧
      st.entries = patched ops b1.pRootSourceDirectory buffer
          (fmt.headerSize + fmt.entrySize * b1.FileCount)
          (fmt.headerSize + fmt.entrySize * b1.FileCount + buffer.length) done
        ++ (writeEntry ops b1.pRootSourceDirectory buffer
          (fmt.headerSize + fmt.entrySize * b1.FileCount) e outk bs).2.1 :: todo ∧
      (writeEntry ops b1.pRootSourceDirectory buffer
        (fmt.headerSize + fmt.entrySize * b1.FileCount) e outk bs).2.1.FilenameOffset
          = e.FilenameOffset ∧
      st.out = (writeEntry ops b1.pRootSourceDirectory buffer
        (fmt.headerSize + fmt.entrySize * b1.FileCount) e outk bs).2.2.1 ∧
      (∃ extra, st.out.data
          = fmt.encHeader b1.FileCount ++ entries.flatMap fmt.encEntry ++ buffer
            ++ payload ops b1.pRootSourceDirectory buffer
                (fmt.headerSize + fmt.entrySize * b1.FileCount) done ++ extra ∧
        extra <+: srcContent ops b1.pRootSourceDirectory buffer
          (fmt.headerSize + fmt.entrySize * b1.FileCount) e) ∧
      ∀ i, done.length < i → st.entries[i]? = entries[i]? := by
  obtain ⟨sorted, buffer1, unsorted, e1, e2, e3, e4, _, _, _, _, e9⟩ :=
    list_names fmt libc open1 open2 t1 t2 b b1 hw hl
  rw [hE] at e1
  rw [hB] at e2
  cases e1
  cases e2
  have heq := image_to_loop fmt ops b1 entries buffer hE hB e3 e9 e4 hopen hw1 hw2 hfit hw3
  have hf : (((fmt.headerSize + fmt.entrySize * b1.FileCount : Nat) : Int)).toNat % U32
      = fmt.headerSize + fmt.entrySize * b1.FileCount := by
    rw [Int.toNat_ofNat]
    exact Nat.mod_eq_of_lt (by simp only [U32, LONG_MAX] at *; omega)
  have hH : (fmt.encHeader b1.FileCount).length = fmt.headerSize := fmt.encHeader_length _
  have hT : (entries.flatMap fmt.encEntry).length = fmt.entrySize * b1.FileCount := by
    rw [length_flatMap_enc, e3]
  have hD : (fmt.encHeader b1.FileCount ++ entries.flatMap fmt.encEntry ++ buffer).length
      = fmt.headerSize + fmt.entrySize * b1.FileCount + buffer.length := by
    simp only [List.length_append, hH, hT]
  obtain ⟨⟨extra, hx⟩, _, _⟩ := writeLoop_abort ops _ _ _ _ _ _ st
    (by simp only [List.length_append, hH, hT]) hloop
  simp only at hx
  have hloop2 : writeLoop ops b1.pRootSourceDirectory buffer
      (fmt.headerSize + fmt.entrySize * b1.FileCount) entries.length
      ([] : List SFileSystemEntry).length
      { entries := [] ++ (entries ++ []),
        out := { data := fmt.encHeader b1.FileCount ++ entries.flatMap fmt.encEntry ++ buffer,
                 pos := fmt.headerSize + fmt.entrySize * b1.FileCount + buffer.length },
        BufferSize := 0 } = some (1, st) := by
    rw [e3]; simpa using hloop
  obtain ⟨done, e, todo, bs, outk, k1, k2, k3, _, k5, k6, k7⟩ :=
    writeLoop_stop ops _ _ _ entries [] [] _ 0 st (by simp only [hD]) hloop2
  simp only [List.nil_append, List.append_nil, hD] at k2 k6
  obtain ⟨⟨ex2, hx2, hpre⟩, hfo⟩ := writeEntry_extra ops b1.pRootSourceDirectory buffer
    (fmt.headerSize + fmt.entrySize * b1.FileCount) e outk bs k3
  refine ⟨?_, ?_, ?_, ?_, done, e, todo, bs, outk, k1, k2, k3, k5, k6, hfo, k7,
    ⟨ex2, by rw [k7, hx2, k2], hpre⟩, ?_⟩
  · rw [heq]
    unfold writeFiles
    rw [hf, hloop]
    rfl
  · obtain ⟨C, S, hc, hlen, hbl, hC, hS, hnw, hb, hheap⟩ :=
      CreateFileList_ok fmt libc open1 open2 t1 t2 b b1 hw hl
    have hperm := libc.qsort_perm
      (CompareFileEntries (blit ((List.range S).map libc.junkByte) 0 (blob (visits [] t2)))
        ((fmt.headerSize + (C * fmt.entrySize) % U32) % U32))
      (popEntries ((fmt.headerSize + (C * fmt.entrySize) % U32) % U32) 0 (visits [] t2))
    have hE2 : b1.pFileEntries = some (libc.qsort
        (CompareFileEntries (blit ((List.range S).map libc.junkByte) 0 (blob (visits [] t2)))
          ((fmt.headerSize + (C * fmt.entrySize) % U32) % U32))
        (popEntries ((fmt.headerSize + (C * fmt.entrySize) % U32) % U32) 0 (visits [] t2))) := by
      rw [hb]; rfl
    rw [hE] at hE2
    cases hE2
    intro e he
    obtain ⟨_, _, _, _, heq2⟩ := popEntries_mem _ (visits [] t2) 0 e (by omega) (hperm.subset he)
    rw [heq2]
    rfl
  · rw [hx, List.append_assoc, List.append_assoc, ← hH, List.take_left]
  · rw [hx]
    simp only [List.append_assoc]
    rw [← hH, List.drop_left, ← hT, List.take_left]
  · intro i hi
    rw [k6, k1]
    have hlp := length_patched ops b1.pRootSourceDirectory buffer
      (fmt.headerSize + fmt.entrySize * b1.FileCount) done
      (fmt.headerSize + fmt.entrySize * b1.FileCount + buffer.length)
    rw [List.getElem?_append_right (by omega), List.getElem?_append_right (by omega), hlp]
    have hi2 : i - done.length = (i - done.length - 1) + 1 := by omega
    rw [hi2, List.getElem?_cons_succ, List.getElem?_cons_succ]

theorem C19_writer_abort_witness :
    wellFormed sampleTree = true ∧
    CreateFileList ffsFormat stdLibc true sampleTree true sampleTree sampleInit
      = some (0, sampleList) ∧
    firstLostOps.fopenOut = true ∧
    writeLoop firstLostOps sampleList.pRootSourceDirectory
      [115, 117, 98, 47, 98, 46, 116, 120, 116, 0, 97, 46, 116, 120, 116, 0] 36 2 0
      { entries :=
          [{ FilenameOffset := 46, FileBinaryOffset := 4294967295, FileBinarySize := 0 },
           { FilenameOffset := 36, FileBinaryOffset := 4294967295, FileBinarySize := 0 }],
        out := { data := firstAbortState.out.data, pos := 52 },
        BufferSize := 0 } = some (1, firstAbortState) ∧
    firstAbortState.entries[1]?
      = some { FilenameOffset := 36, FileBinaryOffset := 4294967295, FileBinarySize := 0 } ∧
    srcContent firstLostOps [119, 119, 119]
        [115, 117, 98, 47, 98, 46, 116, 120, 116, 0, 97, 46, 116, 120, 116, 0] 36
        { FilenameOffset := 36, FileBinaryOffset := 4294967295, FileBinarySize := 0 } = [7, 7] ∧
    firstAbortState.out.data.length = 52 ∧
    CreateFileSystemImage ffsFormat firstLostOps sampleList
      = some (1, { sampleList with pFileEntries := some firstAbortState.entries },
          some firstAbortState.out) ∧
    (firstAbortState.out.data.drop ffsFormat.headerSize).take
        (ffsFormat.entrySize * sampleList.FileCount)
      = [46, 0, 0, 0, 255, 255, 255, 255, 0, 0, 0, 0,
         36, 0, 0, 0, 255, 255, 255, 255, 0, 0, 0, 0] :=
  have h := C19_writer_abort ffsFormat stdLibc firstLostOps true true sampleTree sampleTree
    sampleInit sampleList
    [{ FilenameOffset := 46, FileBinaryOffset := 4294967295, FileBinarySize := 0 },
     { FilenameOffset := 36, FileBinaryOffset := 4294967295, FileBinarySize := 0 }]
    [115, 117, 98, 47, 98, 46, 116, 120, 116, 0, 97, 46, 116, 120, 116, 0] firstAbortState
    (by decide) (by decide) (by decide) (by decide) (by decide) (by decide) (by decide)
    (by decide) (by decide) (by decide)
  ⟨by decide, by decide, by decide, by decide, by decide, by decide, by decide, h.1,
   h.2.2.2.1⟩

/-! ## The scanner with the call of stat -/

/-- The counting loop with the call of `stat` is the counting loop on the
directory as the S_IFDIR test sorts its entries; when it returns 0 the whole
tree was traversed and the buffer `s` is left as that traversal leaves it. -/
theorem countLoopStat_seen (stat : List Nat → Option Bool) (d : Dir) :
    ∀ (dir : List Nat) (P : Nat) (s : Bool) (c n : Nat),
    (countLoopStat stat dir P d s c n).1 = countLoop dir P (seen stat d s).1 c n ∧
    (∀ r, (countLoopStat stat dir P d s c n).1 = .ok r →
      (countLoopStat stat dir P d s c n).2 = (seen stat d s).2) := by
  induction d with
  | done => intro dir P s c n; exact ⟨rfl, fun _ _ => rfl⟩
  | file name content rest ih =>
      intro dir P s c n
      simp only [countLoopStat, seen]
      split
      · simp only [countLoop]
        split
        · split
          · exact ⟨rfl, fun r hr => by cases hr⟩
          · exact ⟨rfl, fun r hr => by cases hr⟩
        · exact ih _ _ _ _ _
      · simp only [countLoop]
        exact ih _ _ _ _ _
  | sub name canOpen inner rest ihi ihr =>
      intro dir P s c n
      simp only [countLoopStat, seen]
      split
      · split
        · simp only [countLoop]
          rename_i hn
          rw [if_pos hn]
          split
          · exact ⟨rfl, fun r hr => by cases hr⟩
          · split
            · exact ⟨rfl, fun r hr => by cases hr⟩
            · obtain ⟨h1, h2⟩ := ihi (snprintf SUBDIR_CAP (dir ++ [47] ++ name))
                ((P + name.length + 1) % U32) (statDir stat s name) 0 0
              rw [← h1]
              split
              · rename_i r1 s1 heq
                rw [heq]
                exact ⟨rfl, fun r hr => by cases hr⟩
              · rename_i fc fs s1 heq
                rw [heq] at h2 ⊢
                have hs1 := h2 (fc, fs) rfl
                simp only at hs1
                rw [← hs1]
                exact ihr _ _ _ _ _
        · simp only [countLoop]
          rename_i hn
          rw [if_neg hn]
          exact ihr _ _ _ _ _
      · simp only [countLoop]
        exact ihr _ _ _ _ _

/-- `_CountFilesInDirectoryTree` with the call of `stat` returns what the
definition without it returns on the directory as the S_IFDIR test sorts its
entries. -/
theorem count_stat_seen (stat : List Nat → Option Bool) (dir : List Nat) (P : Nat)
    (canOpen : Bool) (d : Dir) (s : Bool) :
    (CountFilesInDirectoryTreeStat stat dir P canOpen d s).1
      = CountFilesInDirectoryTree dir P canOpen (seen stat d s).1 := by
  unfold CountFilesInDirectoryTreeStat CountFilesInDirectoryTree
  split
  · rfl
  · exact (countLoopStat_seen stat d dir P s 0 0).1

theorem walkable_countLoop (d : Dir) : ∀ (host : List Nat) (P c n : Nat),
    walkable host d = true → ∃ r, countLoop host P d c n = .ok r := by
  induction d with
  | done => intro host P c n _; exact ⟨_, rfl⟩
  | file name content rest ih =>
      intro host P c n h
      simp only [walkable] at h
      simp only [countLoop]
      exact ih _ _ _ _ h
  | sub name canOpen inner rest ihi ihr =>
      intro host P c n h
      simp only [walkable] at h
      simp only [countLoop]
      split
      · rename_i hn
        rw [if_pos hn] at h
        simp only [Bool.and_eq_true, decide_eq_true_eq] at h
        obtain ⟨⟨⟨h1, h2⟩, h3⟩, h4⟩ := h
        rw [if_neg (by omega), if_neg (by simp [h2])]
        obtain ⟨r, hr⟩ := ihi (snprintf SUBDIR_CAP (host ++ [47] ++ name))
          ((P + name.length + 1) % U32) 0 0 h3
        rw [hr]
        exact ihr _ _ _ _ h4
      · rename_i hn
        rw [if_neg hn] at h
        exact ihr _ _ _ _ h

theorem walkable_eq_pathsFit (d : Dir) : ∀ host : List Nat, host.length ≤ LONG_MAX →
    wellFormed d = true → walkable host d = pathsFit host d := by
  induction d with
  | done => intro host _ _; rfl
  | file name content rest ih =>
      intro host hh hw
      simp only [wellFormed, Bool.and_eq_true] at hw
      simp only [walkable, pathsFit]
      exact ih host hh hw.2
  | sub name canOpen inner rest ihi ihr =>
      intro host hh hw
      simp only [wellFormed, Bool.and_eq_true] at hw
      obtain ⟨⟨hw1, hw2⟩, hw3⟩ := hw
      have hnl := nameOk_length name hw1
      simp only [walkable, pathsFit]
      split
      · have hm : (host.length % U32 + 1 + name.length) % U32 = host.length + 1 + name.length := by
          rw [Nat.mod_eq_of_lt (show host.length < U32 by
            simp only [U32, LONG_MAX] at *; omega)]
          exact Nat.mod_eq_of_lt (by simp only [U32, LONG_MAX] at *; omega)
        rw [hm, ihr host hh hw3]
        by_cases hfit : host.length + 1 + name.length ≤ 511
        · have hsn : snprintf SUBDIR_CAP (host ++ [47] ++ name) = host ++ [47] ++ name :=
            snprintf_fits _ _ (by
              simp only [SUBDIR_CAP, List.length_append, List.length_singleton]; omega)
          rw [hsn, ihi (host ++ [47] ++ name) (by
            simp only [List.length_append, List.length_singleton, LONG_MAX]; omega) hw2]
          simp [SUBDIR_CAP]
        · simp [SUBDIR_CAP, hfit]
      · exact ihr host hh hw3

theorem seen_wellFormed (stat : List Nat → Option Bool) (d : Dir) :
    ∀ s, wellFormed d = true → wellFormed (seen stat d s).1 = true := by
  induction d with
  | done => intro s _; rfl
  | file name content rest ih =>
      intro s hw
      simp only [wellFormed, Bool.and_eq_true] at hw
      simp only [seen]
      split
      · simp only [wellFormed, Bool.and_eq_true, and_true]
        exact ⟨hw.1, ih _ hw.2⟩
      · simp only [wellFormed, Bool.and_eq_true]
        exact ⟨hw.1, ih _ hw.2⟩
  | sub name canOpen inner rest ihi ihr =>
      intro s hw
      simp only [wellFormed, Bool.and_eq_true] at hw
      obtain ⟨⟨hw1, hw2⟩, hw3⟩ := hw
      simp only [seen]
      split
      · split
        · simp only [wellFormed, Bool.and_eq_true]
          exact ⟨⟨hw1, ihi _ hw2⟩, ihr _ hw3⟩
        · simp only [wellFormed, Bool.and_eq_true]
          exact ⟨⟨hw1, hw2⟩, ihr _ hw3⟩
      · simp only [wellFormed, Bool.and_eq_true]
        exact ⟨hw1, ihr _ hw3⟩

/-- The part of C16 that holds: `_CountFilesInDirectoryTree(root, 0)`
returns a non-zero value exactly when the directory it is called on cannot be opened or, among the
entries the traversal takes for directories (the S_IFDIR test is set for
them; "." and ".." apart), one has a composed host path longer than 511 bytes
or cannot be opened, at any depth; otherwise it returns 0.  The root name is
a C string of at most `LONG_MAX` bytes and the names are as `readdir`
delivers them. -/
theorem C16_scanner_failure (stat : List Nat → Option Bool) (root : List Nat)
    (canOpen : Bool) (d : Dir) (s : Bool)
    (hroot : root.length ≤ LONG_MAX) (hw : wellFormed d = true) :
    ((∃ r, (CountFilesInDirectoryTreeStat stat root 0 canOpen d s).1 = .error r ∧ r ≠ 0) ↔
      (canOpen = false ∨ pathsFit root (seen stat d s).1 = false)) ∧
    ((∃ c n, (CountFilesInDirectoryTreeStat stat root 0 canOpen d s).1 = .ok (c, n)) ↔
      (canOpen = true ∧ pathsFit root (seen stat d s).1 = true)) := by
  rw [count_stat_seen]
  have hws := seen_wellFormed stat d s hw
  have hwp := walkable_eq_pathsFit (seen stat d s).1 root hroot hws
  rw [← hwp]
  have hok : (∃ c n, CountFilesInDirectoryTree root 0 canOpen (seen stat d s).1 = .ok (c, n)) ↔
      (canOpen = true ∧ walkable root (seen stat d s).1 = true) := by
    constructor
    · rintro ⟨c, n, h⟩
      unfold CountFilesInDirectoryTree at h
      split at h
      · cases h
      · rename_i ho
        exact ⟨by simpa using ho, countLoop_walkable _ _ _ _ _ _ h⟩
    · rintro ⟨h1, h2⟩
      obtain ⟨r, hr⟩ := walkable_countLoop (seen stat d s).1 root 0 0 0 h2
      refine ⟨r.1, r.2, ?_⟩
      unfold CountFilesInDirectoryTree
      rw [if_neg (by simp [h1])]
      exact hr
  refine ⟨?_, hok⟩
  constructor
  · rintro ⟨r, h, _⟩
    by_cases hc : canOpen = true ∧ walkable root (seen stat d s).1 = true
    · obtain ⟨c, n, h2⟩ := hok.2 hc
      rw [h2] at h
      cases h
    · cases canOpen <;> simp_all
  · intro h
    cases hres : CountFilesInDirectoryTree root 0 canOpen (seen stat d s).1 with
    | error r =>
        exact ⟨r, rfl, by rw [count_error _ _ _ _ _ hres]; decide⟩
    | ok v =>
        exfalso
        obtain ⟨h1, h2⟩ := hok.1 ⟨v.1, v.2, hres⟩
        rcases h with h | h
        · rw [h1] at h; cases h
        · rw [h2] at h; cases h

theorem C16_scanner_failure_witness :
    [119, 119, 119].length ≤ LONG_MAX ∧ wellFormed sampleTree = true ∧
    (CountFilesInDirectoryTreeStat knownStat [119, 119, 119] 0 true sampleTree false).1
      = .ok (2, 16) ∧
    pathsFit [119, 119, 119] (seen knownStat sampleTree false).1 = true ∧
    ((∃ r, (CountFilesInDirectoryTreeStat knownStat [119, 119, 119] 0 false sampleTree false).1
          = .error r ∧ r ≠ 0) ↔
      (false = false ∨ pathsFit [119, 119, 119] (seen knownStat sampleTree false).1 = false)) :=
  ⟨by decide, by decide, rfl, by decide,
   (C16_scanner_failure knownStat [119, 119, 119] false sampleTree false (by decide)
     (by decide)).1⟩

/-- Run in the root directory of the example (root name ".", so that `stat`
finds `a.txt` and `sub` but not `b.txt`, which lies in `sub`), the scanner
returns 1: `stat("b.txt")` fails, the buffer `s` still holds the directory
"..", and the scanner calls `opendir` on the regular file `./sub/b.txt`. -/
theorem example_scan_fails :
    CountFilesInDirectoryTreeStat rootStat [46] 0 true exampleTree false = (.error 1, true) ∧
    pathsFit [46] exampleTree = true ∧
    pathsFit [46] (seen rootStat exampleTree false).1 = false :=
  ⟨rfl, by decide, by decide⟩

/-- What the scanner returns does not depend on what the buffer `s` held
before when `stat` succeeds on the first entry of the directory. -/
theorem count_first_stat (stat : List Nat → Option Bool) (dir : List Nat) (P : Nat)
    (canOpen : Bool) (d : Dir) (s1 s2 : Bool) (h : firstStat stat d = true) :
    (CountFilesInDirectoryTreeStat stat dir P canOpen d s1).1
      = (CountFilesInDirectoryTreeStat stat dir P canOpen d s2).1 := by
  unfold CountFilesInDirectoryTreeStat
  split
  · rfl
  · cases d with
    | done => rfl
    | file name content rest =>
        simp only [firstStat, Option.isSome_iff_exists] at h
        obtain ⟨v, hv⟩ := h
        simp only [countLoopStat, statDir, hv]
    | sub name canOpen1 inner rest =>
        simp only [firstStat, Option.isSome_iff_exists] at h
        obtain ⟨v, hv⟩ := h
        simp only [countLoopStat, statDir, hv]

/-- C17 fails on the code: the root directory of a drive holds the file
`a.txt` and the empty directory `lib`, and the current directory holds a
directory `lib` and no `a.txt`.  The first run, with the zero-initialised
buffer `s`, takes `a.txt` for a file (`stat` fails, the S_IFDIR bit of `s` is
clear), returns 0 with one file and 6 filename bytes and leaves the bit set
by the ".." of `lib`; the second run on the same tree finds the bit set when
`stat("a.txt")` fails, takes `a.txt` for a directory and returns 1. -/
theorem C17_stale_stat_buffer :
    CountFilesInDirectoryTreeStat cwdStat [68, 58] 0 true driveTree false
      = (.ok (1, 6), true) ∧
    CountFilesInDirectoryTreeStat cwdStat [68, 58] 0 true driveTree true
      = (.error 1, true) ∧
    firstStat cwdStat driveTree = false :=
  ⟨rfl, rfl, rfl⟩

/-! ## Exit status and source paths -/

/-- C18: `main` returns 0 exactly when `_ParseCommandLine` returns 0,
`_CreateFileList` returns 0 on the context it filled in and
`_CreateFileSystemImage` returns 0 on the context `_CreateFileList` left;
`_ParseCommandLine` returns 0 exactly when `argc ≥ 3`; with `argc < 3`, or
when `_CreateFileList` returns non-zero, `main` returns 1 and the output file
was never opened; when `_CreateFileSystemImage` returns non-zero `main`
returns 1; `main` returns nothing but 0 and 1. -/
theorem C18_exit_status (fmt : Format) (libc : Libc) (ops : FileOps) (open1 : Bool) (t1 : Dir)
    (open2 : Bool) (t2 : Dir) (argv : List (List Nat)) :
    (∀ out, main fmt libc ops open1 t1 open2 t2 argv = some (0, out) ↔
      ((ParseCommandLine argv (initBuild [] [])).1 = 0 ∧
       ∃ b1 b2, CreateFileList fmt libc open1 t1 open2 t2
           (ParseCommandLine argv (initBuild [] [])).2 = some (0, b1) ∧
         CreateFileSystemImage fmt ops b1 = some (0, b2, out))) ∧
    ((ParseCommandLine argv (initBuild [] [])).1 = 0 ↔ 3 ≤ argv.length) ∧
    (argv.length < 3 → main fmt libc ops open1 t1 open2 t2 argv = some (1, none)) ∧
    (∀ r b1, (ParseCommandLine argv (initBuild [] [])).1 = 0 →
      CreateFileList fmt libc open1 t1 open2 t2
        (ParseCommandLine argv (initBuild [] [])).2 = some (r, b1) → r ≠ 0 →
      main fmt libc ops open1 t1 open2 t2 argv = some (1, none)) ∧
    (∀ b1 r b2 out, (ParseCommandLine argv (initBuild [] [])).1 = 0 →
      CreateFileList fmt libc open1 t1 open2 t2
        (ParseCommandLine argv (initBuild [] [])).2 = some (0, b1) →
      CreateFileSystemImage fmt ops b1 = some (r, b2, out) → r ≠ 0 →
      main fmt libc ops open1 t1 open2 t2 argv = some (1, out)) ∧
    (∀ r out, main fmt libc ops open1 t1 open2 t2 argv = some (r, out) → r = 0 ∨ r = 1) := by
  by_cases hargs : argv.length < 3
  · have hp : ParseCommandLine argv (initBuild [] []) = (-1, initBuild [] []) := by
      unfold ParseCommandLine; rw [if_pos hargs]
    have hm : main fmt libc ops open1 t1 open2 t2 argv = some (1, none) := by
      unfold main; rw [if_pos hargs]
    rw [hp, hm]
    refine ⟨fun out => ⟨fun h => by simp at h, fun h => by simp at h⟩,
      ⟨fun h => by simp at h, fun h => by omega⟩, fun _ => rfl,
      fun r b1 h => by simp at h, fun b1 r b2 out h => by simp at h, ?_⟩
    intro r out h
    simp only [Option.some.injEq, Prod.mk.injEq] at h
    exact Or.inr h.1.symm
  · have hp : ParseCommandLine argv (initBuild [] [])
        = (0, initBuild (argv.getD 1 []) (argv.getD 2 [])) := by
      unfold ParseCommandLine; rw [if_neg hargs]; rfl
    rw [hp]
    dsimp only
    have hm : main fmt libc ops open1 t1 open2 t2 argv
        = match CreateFileList fmt libc open1 t1 open2 t2
            (initBuild (argv.getD 1 []) (argv.getD 2 [])) with
          | none => none
          | some (Result, b1) =>
              if Result ≠ 0 then some (1, none)
              else
                match CreateFileSystemImage fmt ops b1 with
                | none => none
                | some (Result2, _, out) =>
                    if Result2 ≠ 0 then some (1, out) else some (0, out) := by
      unfold main; rw [if_neg hargs]
    rw [hm]
    refine ⟨?_, ⟨fun _ => by omega, fun _ => rfl⟩, fun h => absurd h hargs, ?_, ?_, ?_⟩
    · intro out
      constructor
      · intro h
        split at h
        · cases h
        · rename_i r b1 hl
          split at h
          · simp at h
          · rename_i hr
            have hr0 : r = 0 := by simpa using hr
            subst hr0
            split at h
            · cases h
            · rename_i r2 b2 out2 hi
              split at h
              · simp at h
              · rename_i hr2
                have hr20 : r2 = 0 := by simpa using hr2
                subst hr20
                simp only [Option.some.injEq, Prod.mk.injEq, true_and] at h
                subst h
                exact ⟨rfl, b1, b2, hl, hi⟩
      · rintro ⟨_, b1, b2, hl, hi⟩
        rw [hl]
        simp only [ne_eq, not_true_eq_false, if_false]
        rw [hi]
        simp
    · intro r b1 _ hl hr
      rw [hl]
      simp only [ne_eq, hr, not_false_eq_true, if_true]
    · intro b1 r b2 out _ hl hi hr
      rw [hl]
      simp only [ne_eq, not_true_eq_false, if_false]
      rw [hi]
      simp only [ne_eq, hr, not_false_eq_true, if_true]
    · intro r out h
      split at h
      · cases h
      · split at h
        · simp only [Option.some.injEq, Prod.mk.injEq] at h
          exact Or.inr h.1.symm
        · split at h
          · cases h
          · split at h
            · simp only [Option.some.injEq, Prod.mk.injEq] at h
              exact Or.inr h.1.symm
            · simp only [Option.some.injEq, Prod.mk.injEq] at h
              exact Or.inl h.1.symm

theorem C18_exit_status_witness :
    main ffsFormat stdLibc (treeOps [119, 119, 119] sampleTree) true sampleTree true sampleTree
      [[102], [119, 119, 119], [111]] = some (0, some sampleImage) ∧
    (ParseCommandLine [[102], [119, 119, 119], [111]] (initBuild [] [])).1 = 0 ∧
    main ffsFormat stdLibc (treeOps [119, 119, 119] sampleTree) true sampleTree true sampleTree
      [[102], [119, 119, 119]] = some (1, none) :=
  have h := C18_exit_status ffsFormat stdLibc (treeOps [119, 119, 119] sampleTree) true
    sampleTree true sampleTree [[102], [119, 119, 119], [111]]
  ⟨(h.1 (some sampleImage)).2 ⟨by decide, sampleList, sampleBuilt, by decide, by decide⟩,
   by decide,
   (C18_exit_status ffsFormat stdLibc (treeOps [119, 119, 119] sampleTree) true
    sampleTree true sampleTree [[102], [119, 119, 119]]).2.2.1 (by decide)⟩

/-- The path the writer passes to `fopen` for an entry is the root directory,
a backslash and the name of the entry, whole, when the three together are at
most 1023 bytes long. -/
theorem srcPath_whole (root buffer : List Nat) (fbp : Nat) (e : SFileSystemEntry)
    (h : root.length + 1 + (entryName buffer fbp e).length ≤ 1023) :
    srcPath root buffer fbp e = root ++ [92] ++ entryName buffer fbp e := by
  unfold srcPath
  exact snprintf_fits _ _ (by
    simp only [PATH_CAP, List.length_append, List.length_singleton, entryName] at h ⊢
    omega)

/-- After a successful `_CreateFileList`, `FilenameStartOffset` is exactly
`sizeof(SFileSystemHeader) + FileCount * sizeof(SFileSystemEntry)`, the output
position `FilenameBufferPos` at which the writer puts the filename buffer. -/
theorem start_offset_exact (fmt : Format) (libc : Libc) (open1 open2 : Bool) (t1 t2 : Dir)
    (b b1 : SFileSystemBuild) (hw : wellFormed t2 = true)
    (h : CreateFileList fmt libc open1 t1 open2 t2 b = some (0, b1)) :
    b1.FilenameStartOffset = fmt.headerSize + fmt.entrySize * b1.FileCount := by
  obtain ⟨C, S, _, _, _, _, _, hnw, hb, hheap⟩ :=
    CreateFileList_ok fmt libc open1 open2 t1 t2 b b1 hw h
  have hH := fmt.headerSize_le
  have hL := libc.heapSize_le
  subst hb
  simp only [listBuilt]
  rw [Nat.mul_comm C, Nat.mod_eq_of_lt hnw]
  exact Nat.mod_eq_of_lt (by simp only [U32, LONG_MAX] at *; omega)

set_option maxRecDepth 100000 in
/-- C20 fails on the code: below a root directory path of 1000 bytes that
holds "x"*22 and "x"*30 the build succeeds; the second entry of the sorted
array names "x"*30, read at index `FilenameOffset - 36` of the filename
buffer, 36 being both `FilenameStartOffset` and `FilenameBufferPos`; root,
separator and name are 1031 bytes, and the path the writer passes to `fopen`
for this entry is cut to 1023 bytes: it is the path of "x"*22. -/
theorem C20_path_cut_short :
    BuildOk ffsFormat stdLibc (treeOps deepRoot longTree) true true longTree longTree
      (initBuild deepRoot [111]) deepList
      { deepList with pFileEntries := some longTable } (some longImage) ∧
    deepList.FilenameStartOffset = 36 ∧
    deepList.pFilenameBuffer
      = some (List.replicate 22 120 ++ [0] ++ List.replicate 30 120 ++ [0]) ∧
    deepList.pFileEntries = some
      [{ FilenameOffset := 36, FileBinaryOffset := 4294967295, FileBinarySize := 0 },
       { FilenameOffset := 59, FileBinaryOffset := 4294967295, FileBinarySize := 0 }] ∧
    entryName (List.replicate 22 120 ++ [0] ++ List.replicate 30 120 ++ [0]) 36
        { FilenameOffset := 59, FileBinaryOffset := 4294967295, FileBinarySize := 0 }
      = List.replicate 30 120 ∧
    (deepRoot ++ [92] ++ List.replicate 30 120).length = 1031 ∧
    srcPath deepRoot (List.replicate 22 120 ++ [0] ++ List.replicate 30 120 ++ [0]) 36
        { FilenameOffset := 59, FileBinaryOffset := 4294967295, FileBinarySize := 0 }
      = deepRoot ++ [92] ++ List.replicate 22 120 := by
  refine ⟨⟨by decide, by decide⟩, by decide, by decide, by decide, by decide, by decide,
    by decide⟩

/-! ## Bounds of the populate pass -/

/-- Let the build context be as `_CreateFileList` sets it up for the totals
`C`, `S` of the counting pass, with `malloc(S)` successful and
`sizeof(SFileSystemEntry) * C` below 2^32.  Then the invariant `PopInv` (both
arrays have the recorded sizes, entries written + `FilesLeft` = `FileCount`,
`CurrFilenameOffset ≤ FilenameBufferSize`) holds at the call of the populate
pass; the file branch, run in a state with the invariant, never stores
outside the two arrays: the entry goes to an index below `FileCount`, the
name is copied below `FilenameBufferSize`, and the invariant holds again when
the branch runs to its end; and so the populate pass over any tree returns 0
or 1 without a store outside the arrays. -/
theorem populate_in_bounds (fmt : Format) (libc : Libc) (C S : Nat) (b : SFileSystemBuild)
    (hm : malloc libc 0 S = true) (hC : fmt.entrySize * C < U32) :
    PopInv (populateInput fmt libc C S b) ∧
    (∀ (img name : List Nat) (b0 : SFileSystemBuild),
      PopInv b0 → img.length ≤ 511 → name.length < 65536 →
      ∃ r b1, populateFile img name b0 = some (r, b1) ∧ (r = 0 ∨ r = 1) ∧
        (b0.FilesLeft ≠ 0 → b0.pCurrEntry < b0.FileCount) ∧
        (r = 0 → b0.FilesLeft ≠ 0 ∧
          b0.pCurrFilename + (img.length + name.length + 1) ≤ b0.FilenameBufferSize ∧
          PopInv b1)) ∧
    (∀ (d : Dir) (dir : List Nat) (canOpen : Bool), wellFormed d = true →
      ∃ r b1, PopulateEntriesFromDirectoryTree (populateInput fmt libc C S b) dir [] canOpen d
          = some (r, b1) ∧ (r = 0 ∨ r = 1) ∧ (r = 0 → PopInv b1)) := by
  have hS : S + 66048 ≤ U32 := by
    have hL := libc.heapSize_le
    simp only [malloc, Bool.and_eq_true, decide_eq_true_eq] at hm
    simp only [U32, LONG_MAX] at *
    omega
  have hinv := populateInput_inv fmt libc C S b hC hS
  refine ⟨hinv, ?_, ?_⟩
  · intro img name b0 h0 hi hn
    obtain ⟨r, b1, h1, h2, h3⟩ := populateFile_defined img name b0 h0 hi hn
    obtain ⟨E, B, hE, hB, hEl, hBl, hcnt, hcur, hle, hFC, hFS⟩ := h0
    refine ⟨r, b1, h1, h2, fun hne => by omega, ?_⟩
    intro hr
    subst hr
    obtain ⟨g1, _, g3, _, _⟩ := populateFile_ok img name b0 b1 E B hE hB hi hn (by omega) h1
    exact ⟨g1, by omega, h3 rfl⟩
  · intro d dir canOpen hw
    unfold PopulateEntriesFromDirectoryTree
    split
    · exact ⟨1, _, rfl, Or.inr rfl, by simp⟩
    · exact populateLoop_defined d _ [] _ hinv hw (by simp)

/-- The populate pass over a tree that lost a file keeps within the arrays
set up for the counted tree. -/
theorem populate_in_bounds_sample :
    malloc stdLibc 0 16 = true ∧ ffsFormat.entrySize * 2 < U32 ∧
    PopInv (populateInput ffsFormat stdLibc 2 16 sampleInit) ∧
    ∃ r b1, PopulateEntriesFromDirectoryTree (populateInput ffsFormat stdLibc 2 16 sampleInit)
        [119, 119, 119] [] true shrunkTree = some (r, b1) ∧ (r = 0 ∨ r = 1) ∧
        (r = 0 → PopInv b1) :=
  have h := populate_in_bounds ffsFormat stdLibc 2 16 sampleInit (by decide) (by decide)
  ⟨by decide, by decide, h.1, h.2.2 shrunkTree [119, 119, 119] true (by decide)⟩

/-- The file branch of the populate loop, run with files left to store and
the entry cursor at or past the end of the entry array, stores outside the
array. -/
theorem populateFile_outside (img name : List Nat) (b : SFileSystemBuild)
    (E : List SFileSystemEntry) (B : List Nat)
    (hE : b.pFileEntries = some E) (hB : b.pFilenameBuffer = some B)
    (hF : b.FilesLeft ≠ 0) (hpe : ¬ b.pCurrEntry < E.length) :
    populateFile img name b = none := by
  unfold populateFile
  simp only [hE, hB]
  rw [if_neg hF, if_neg hpe]

/-- When both allocations succeed and the populate pass stores outside an
array, so does `_CreateFileList`. -/
theorem CreateFileList_outside (fmt : Format) (libc : Libc) (open1 open2 : Bool) (t1 t2 : Dir)
    (b : SFileSystemBuild) (C S : Nat)
    (hc : CountFilesInDirectoryTree b.pRootSourceDirectory 0 open1 t1 = .ok (C, S))
    (hm1 : malloc libc 0 S = true) (hm2 : malloc libc S (fmt.entrySize * C % U32) = true)
    (hp : PopulateEntriesFromDirectoryTree (populateInput fmt libc C S b)
      b.pRootSourceDirectory [] open2 t2 = none) :
    CreateFileList fmt libc open1 t1 open2 t2 b = none := by
  have hroot : (populateInput fmt libc C S b).pRootSourceDirectory
      = b.pRootSourceDirectory := rfl
  unfold CreateFileList
  rw [hc]
  simp only
  rw [if_neg (by rw [hm1]; decide), if_neg (by rw [hm2]; decide), hroot, hp]

/-- C21 fails on the code: for a directory of 357913942 files with 255-byte
names the counting pass returns `FileCount` 357913942 and filename size
1431655936; `sizeof(SFileSystemEntry) * FileCount` is 2^32 + 8, so `malloc`
is asked for 8 bytes, which is room for no entry, and both allocations
succeed; the populate pass over the same directory, with `FilesLeft` equal
to `FileCount`, then stores the entry of its first file, index 0, outside
that block, and so does `_CreateFileList`. -/
theorem C21_entry_array_overrun :
    CountFilesInDirectoryTree [119, 119, 119] 0 true (manyFiles 357913942)
      = .ok (357913942, 1431655936) ∧
    ffsFormat.entrySize * 357913942 = 4294967304 ∧
    ffsFormat.entrySize * 357913942 % U32 = 8 ∧
    malloc stdLibc 0 1431655936 = true ∧ malloc stdLibc 1431655936 8 = true ∧
    (populateInput ffsFormat stdLibc 357913942 1431655936 sampleInit).pFileEntries = some [] ∧
    (populateInput ffsFormat stdLibc 357913942 1431655936 sampleInit).FileCount = 357913942 ∧
    (populateInput ffsFormat stdLibc 357913942 1431655936 sampleInit).FilesLeft = 357913942 ∧
    (populateInput ffsFormat stdLibc 357913942 1431655936 sampleInit).pCurrEntry = 0 ∧
    PopulateEntriesFromDirectoryTree
      (populateInput ffsFormat stdLibc 357913942 1431655936 sampleInit)
      [119, 119, 119] [] true (manyFiles 357913942) = none ∧
    CreateFileList ffsFormat stdLibc true (manyFiles 357913942) true (manyFiles 357913942)
      sampleInit = none := by
  have hcount : CountFilesInDirectoryTree [119, 119, 119] 0 true (manyFiles 357913942)
      = .ok (357913942, 1431655936) := by
    rw [count_manyFiles]
    rfl
  have hpop : PopulateEntriesFromDirectoryTree
      (populateInput ffsFormat stdLibc 357913942 1431655936 sampleInit)
      [119, 119, 119] [] true (manyFiles 357913942) = none := by
    have hm : manyFiles 357913942 = .file (bigName 357913941) [] (manyFiles 357913941) := rfl
    have hpf := populateFile_outside [] (bigName 357913941)
      (populateInput ffsFormat stdLibc 357913942 1431655936 sampleInit) _ _ rfl rfl
      (by simp [populateInput])
      (by
        rw [List.length_map, List.length_range]
        decide)
    unfold PopulateEntriesFromDirectoryTree
    rw [hm, if_neg (by decide), populateLoop.eq_2, hpf]
  refine ⟨hcount, by decide, by decide, by decide, by decide, ?_, rfl, rfl, rfl, hpop, ?_⟩
  · simp only [populateInput]
    rfl
  · exact CreateFileList_outside ffsFormat stdLibc true true (manyFiles 357913942)
      (manyFiles 357913942) sampleInit 357913942 1431655936 hcount (by decide) (by decide) hpop

/-! ## The two path-length checks of the populate pass -/

/-- With `FileCount` 0 the entry-table write in `_CreateFileSystemImage` is a
`fwrite` of size 0, which returns 0: the writer returns 1 there and the
output stream is as it was after the header. -/
theorem writeTables_empty (fmt : Format) (ops : FileOps) (b : SFileSystemBuild)
    (buffer : List Nat) (entries : List SFileSystemEntry) (out : OutFile) (pos : Int)
    (hF : b.FileCount = 0) :
    writeTables fmt ops b buffer entries out pos = some (1, b, some out) := by
  unfold writeTables entryBytes
  rw [hF, Nat.mul_zero, Nat.zero_mod, if_pos (Nat.zero_le _), List.take_zero]
  rfl

/-- C24: when the counting pass returns `FileCount` 0 and filename size 0
(the source tree holds no file), `main` returns 1 whatever the C library,
the file operations and the tree seen by the populate pass do.  When
`malloc(0)` returns a null pointer `_CreateFileList` returns 1.  When
`_CreateFileList` returns 0, `FileCount` is 0, the entry-table write in
`_CreateFileSystemImage` (a `fwrite` of size 0) returns 0 and makes the
writer return 1 wherever it is reached, and `_CreateFileSystemImage` returns
1 with the output file either not opened or holding no more than what the
header write put there. -/
theorem C24_empty_tree (fmt : Format) (libc : Libc) (ops : FileOps) (open1 : Bool) (t1 : Dir)
    (open2 : Bool) (t2 : Dir) (argv : List (List Nat))
    (hargs : 3 ≤ argv.length)
    (hc : CountFilesInDirectoryTree (argv.getD 1 []) 0 open1 t1 = .ok (0, 0))
    (hw : wellFormed t2 = true) :
    (∃ out, main fmt libc ops open1 t1 open2 t2 argv = some (1, out)) ∧
    (∃ r b1, CreateFileList fmt libc open1 t1 open2 t2
        (initBuild (argv.getD 1 []) (argv.getD 2 [])) = some (r, b1) ∧ (r = 0 ∨ r = 1) ∧
      (malloc libc 0 0 = false → r = 1)) ∧
    (∀ b1, CreateFileList fmt libc open1 t1 open2 t2
        (initBuild (argv.getD 1 []) (argv.getD 2 [])) = some (0, b1) →
      b1.FileCount = 0 ∧ b1.FilenameBufferSize = 0 ∧
      (∀ f, fwrite ops f [] = (0, f)) ∧
      (∀ buffer entries f pos,
        writeTables fmt ops b1 buffer entries f pos = some (1, b1, some f)) ∧
      ∃ out, CreateFileSystemImage fmt ops b1 = some (1, b1, out) ∧
        (out = none ∨
         out = some (fwrite ops { data := [], pos := 0 } (fmt.encHeader 0)).2)) := by
  have hargs2 : ¬ argv.length < 3 := by omega
  have hm : main fmt libc ops open1 t1 open2 t2 argv
      = match CreateFileList fmt libc open1 t1 open2 t2
          (initBuild (argv.getD 1 []) (argv.getD 2 [])) with
        | none => none
        | some (Result, b1) =>
            if Result ≠ 0 then some (1, none)
            else
              match CreateFileSystemImage fmt ops b1 with
              | none => none
              | some (Result2, _, out) =>
                  if Result2 ≠ 0 then some (1, out) else some (0, out) := by
    unfold main; rw [if_neg hargs2]
  have hroot : (initBuild (argv.getD 1 []) (argv.getD 2 [])).pRootSourceDirectory
      = argv.getD 1 [] := rfl
  have hc2 : CountFilesInDirectoryTree
      (initBuild (argv.getD 1 []) (argv.getD 2 [])).pRootSourceDirectory 0 open1 t1
      = .ok (0, 0) := by rw [hroot]; exact hc
  have himg : ∀ b1, CreateFileList fmt libc open1 t1 open2 t2
        (initBuild (argv.getD 1 []) (argv.getD 2 [])) = some (0, b1) →
      b1.FileCount = 0 ∧ b1.FilenameBufferSize = 0 ∧
      ∃ out, CreateFileSystemImage fmt ops b1 = some (1, b1, out) ∧
        (out = none ∨
         out = some (fwrite ops { data := [], pos := 0 } (fmt.encHeader 0)).2) := by
    intro b1 h
    obtain ⟨C, S, hcs, _, _, _, _, _, hb, _⟩ :=
      CreateFileList_ok fmt libc open1 open2 t1 t2 _ b1 hw h
    rw [hc2] at hcs
    simp only [Except.ok.injEq, Prod.mk.injEq] at hcs
    obtain ⟨hC0, hS0⟩ := hcs
    subst hC0
    subst hS0
    have hF : b1.FileCount = 0 := by rw [hb]; rfl
    have hS : b1.FilenameBufferSize = 0 := by rw [hb]; rfl
    have hB : ∃ buffer, b1.pFilenameBuffer = some buffer := by rw [hb]; exact ⟨_, rfl⟩
    have hE : ∃ entries, b1.pFileEntries = some entries := by rw [hb]; exact ⟨_, rfl⟩
    obtain ⟨buffer, hB⟩ := hB
    obtain ⟨entries, hE⟩ := hE
    refine ⟨hF, hS, ?_⟩
    unfold CreateFileSystemImage
    rw [hB, hE]
    dsimp only
    rw [hF]
    split
    · exact ⟨none, rfl, Or.inl rfl⟩
    · split
      · exact ⟨_, rfl, Or.inr rfl⟩
      · split
        · exact ⟨_, rfl, Or.inr rfl⟩
        · exact ⟨_, writeTables_empty fmt ops b1 buffer entries _ _ hF, Or.inr rfl⟩
  obtain ⟨r, b1, hl, hr⟩ := CreateFileList_defined fmt libc open1 open2 t1 t2
    (initBuild (argv.getD 1 []) (argv.getD 2 [])) 0 0 hc2 (by rw [Nat.mul_zero]; decide)
    (by decide) hw
  refine ⟨?_, ⟨r, b1, hl, hr, ?_⟩, ?_⟩
  · rw [hm, hl]
    rcases hr with hr | hr
    · subst hr
      obtain ⟨_, _, out, ho, _⟩ := himg b1 hl
      exact ⟨out, by simp only [ho]; rfl⟩
    · subst hr
      exact ⟨none, rfl⟩
  · intro hmal
    unfold CreateFileList at hl
    rw [hc2] at hl
    simp only at hl
    rw [if_pos hmal] at hl
    simp only [Option.some.injEq, Prod.mk.injEq] at hl
    exact hl.1.symm
  · intro b2 h2
    obtain ⟨hF, hS, ho⟩ := himg b2 h2
    exact ⟨hF, hS, fun f => rfl,
      fun buffer entries f pos => writeTables_empty fmt ops b2 buffer entries f pos hF, ho⟩

theorem C24_empty_tree_witness :
    3 ≤ [[102], [119, 119, 119], [111]].length ∧
    CountFilesInDirectoryTree [119, 119, 119] 0 true bareTree = .ok (0, 0) ∧
    wellFormed bareTree = true ∧
    main ffsFormat stdLibc (treeOps [119, 119, 119] bareTree) true bareTree true bareTree
      [[102], [119, 119, 119], [111]]
      = some (1, some { data := ffsFormat.encHeader 0, pos := 12 }) ∧
    main ffsFormat strictLibc (treeOps [119, 119, 119] bareTree) true bareTree true bareTree
      [[102], [119, 119, 119], [111]] = some (1, none) ∧
    ∃ out, main ffsFormat stdLibc (treeOps [119, 119, 119] bareTree) true bareTree true
      sampleTree [[102], [119, 119, 119], [111]] = some (1, out) :=
  ⟨by decide, rfl, by decide, by decide, by decide,
   (C24_empty_tree ffsFormat stdLibc (treeOps [119, 119, 119] bareTree) true bareTree true
     sampleTree [[102], [119, 119, 119], [111]] (by decide) rfl (by decide)).1⟩

/-! ## The populate pass and `_CreateFileList` with the call of stat -/

/-- The populate loop with the call of `stat` is the populate loop on the
directory as the S_IFDIR test sorts its entries; when it returns 0 the whole
tree was traversed and the buffer `s` is left as that traversal leaves it. -/
theorem populateLoopStat_seen (stat : List Nat → Option Bool) (d : Dir) :
    ∀ (host img : List Nat) (s : Bool) (b : SFileSystemBuild),
    (populateLoopStat stat host img d s b).1 = populateLoop host img (seen stat d s).1 b ∧
    (∀ b1, (populateLoopStat stat host img d s b).1 = some (0, b1) →
      (populateLoopStat stat host img d s b).2 = (seen stat d s).2) := by
  induction d with
  | done => intro host img s b; exact ⟨rfl, fun _ _ => rfl⟩
  | file name content rest ih =>
      intro host img s b
      simp only [populateLoopStat, seen]
      split
      · simp only [populateLoop]
        split
        · split
          · exact ⟨rfl, fun b1 h => by cases h⟩
          · split
            · exact ⟨rfl, fun b1 h => by cases h⟩
            · exact ⟨rfl, fun b1 h => by cases h⟩
        · exact ih _ _ _ _
      · simp only [populateLoop]
        cases hpf : populateFile img name b with
        | none => exact ⟨rfl, fun b1 h => by cases h⟩
        | some p =>
            obtain ⟨r, b2⟩ := p
            dsimp only
            split
            · rename_i hr
              refine ⟨rfl, fun b1 h => ?_⟩
              simp only [Option.some.injEq, Prod.mk.injEq] at h
              exact absurd h.1 hr
            · exact ih _ _ _ _
  | sub name canOpen inner rest ihi ihr =>
      intro host img s b
      simp only [populateLoopStat, seen]
      split
      · split
        · rename_i hn
          simp only [populateLoop]
          rw [if_pos hn]
          split
          · exact ⟨rfl, fun b1 h => by cases h⟩
          · split
            · exact ⟨rfl, fun b1 h => by cases h⟩
            · split
              · exact ⟨rfl, fun b1 h => by cases h⟩
              · obtain ⟨i1, i2⟩ := ihi (snprintf SUBDIR_CAP (host ++ [47] ++ name))
                  (snprintf SUBDIR_CAP (img ++ name ++ [47])) (statDir stat s name) b
                rcases hin : populateLoopStat stat (snprintf SUBDIR_CAP (host ++ [47] ++ name))
                  (snprintf SUBDIR_CAP (img ++ name ++ [47])) inner (statDir stat s name) b
                  with ⟨res, s1⟩
                rw [hin] at i1 i2
                dsimp only at i1 i2
                rw [← i1]
                cases res with
                | none => exact ⟨rfl, fun b1 h => by cases h⟩
                | some p =>
                    obtain ⟨r, b2⟩ := p
                    dsimp only
                    split
                    · rename_i hr
                      refine ⟨rfl, fun b1 h => ?_⟩
                      simp only [Option.some.injEq, Prod.mk.injEq] at h
                      exact absurd h.1 hr
                    · rename_i hr
                      have hr0 : r = 0 := by simpa using hr
                      subst hr0
                      rw [← i2 b2 rfl]
                      exact ihr _ _ _ _
        · rename_i hn
          simp only [populateLoop]
          rw [if_neg hn]
          exact ihr _ _ _ _
      · simp only [populateLoop]
        cases hpf : populateFile img name b with
        | none => exact ⟨rfl, fun b1 h => by cases h⟩
        | some p =>
            obtain ⟨r, b2⟩ := p
            dsimp only
            split
            · rename_i hr
              refine ⟨rfl, fun b1 h => ?_⟩
              simp only [Option.some.injEq, Prod.mk.injEq] at h
              exact absurd h.1 hr
            · exact ihr _ _ _ _

/-- `_PopulateEntriesFromDirectoryTree` with the call of `stat` returns what
the definition without it returns on the directory as the S_IFDIR test sorts
its entries. -/
theorem populate_stat_seen (stat : List Nat → Option Bool) (b : SFileSystemBuild)
    (dir img : List Nat) (canOpen : Bool) (d : Dir) (s : Bool) :
    (PopulateEntriesFromDirectoryTreeStat stat b dir img canOpen d s).1
      = PopulateEntriesFromDirectoryTree b dir img canOpen (seen stat d s).1 := by
  unfold PopulateEntriesFromDirectoryTreeStat PopulateEntriesFromDirectoryTree
  split
  · rfl
  · exact (populateLoopStat_seen stat d dir img s b).1

/-- `_CreateFileList` with the calls of `stat` returns what the definition
without them returns when the counting pass is given the root directory as
the S_IFDIR test sorts its entries starting from the buffer `s`, and the
populate pass the root directory as the test sorts them starting from the
buffer the counting pass left. -/
theorem CreateFileListStat_seen (stat : List Nat → Option Bool) (fmt : Format) (libc : Libc)
    (open1 : Bool) (t1 : Dir) (open2 : Bool) (t2 : Dir) (b : SFileSystemBuild) (s : Bool) :
    (CreateFileListStat stat fmt libc open1 t1 open2 t2 b s).1
      = CreateFileList fmt libc open1 (seen stat t1 s).1 open2
          (seen stat t2 (seen stat t1 s).2).1 b := by
  have hc := count_stat_seen stat b.pRootSourceDirectory 0 open1 t1 s
  have hs : ∀ r, (CountFilesInDirectoryTreeStat stat b.pRootSourceDirectory 0 open1 t1 s).1
      = .ok r →
      (CountFilesInDirectoryTreeStat stat b.pRootSourceDirectory 0 open1 t1 s).2
        = (seen stat t1 s).2 := by
    intro r hr
    unfold CountFilesInDirectoryTreeStat at hr ⊢
    split at hr
    · cases hr
    · rename_i ho
      rw [if_neg ho]
      exact (countLoopStat_seen stat t1 _ _ s 0 0).2 r hr
  unfold CreateFileListStat CreateFileList
  rcases hcs : CountFilesInDirectoryTreeStat stat b.pRootSourceDirectory 0 open1 t1 s
    with ⟨res, s1⟩
  rw [hcs] at hc hs
  dsimp only at hc hs
  rw [← hc]
  cases res with
  | error r => rfl
  | ok v =>
      obtain ⟨C, S⟩ := v
      have hs1 : s1 = (seen stat t1 s).2 := hs (C, S) rfl
      dsimp only
      split
      · rfl
      · split
        · rfl
        · have hp := populate_stat_seen stat (populateInput fmt libc C S b)
            (populateInput fmt libc C S b).pRootSourceDirectory [] open2 t2 s1
          rcases hps : PopulateEntriesFromDirectoryTreeStat stat (populateInput fmt libc C S b)
            (populateInput fmt libc C S b).pRootSourceDirectory [] open2 t2 s1 with ⟨pr, s2⟩
          rw [hps] at hp
          dsimp only at hp
          rw [← hs1, ← hp]
          cases pr with
          | none => rfl
          | some p =>
              obtain ⟨r, b4⟩ := p
              dsimp only
              split
              · rfl
              · split
                · rfl
                · generalize b4.pFileEntries = oe
                  generalize b4.pFilenameBuffer = ob
                  cases oe <;> cases ob <;> rfl

/-- `main` with the calls of `stat` is `main` on the root directory as the
S_IFDIR test sorts its entries in the counting pass, starting from the
zero-initialised buffer, and in the populate pass, starting from the buffer
the counting pass left. -/
theorem main_stat_seen (stat : List Nat → Option Bool) (fmt : Format) (libc : Libc)
    (ops : FileOps) (open1 : Bool) (t1 : Dir) (open2 : Bool) (t2 : Dir)
    (argv : List (List Nat)) :
    mainStat stat fmt libc ops open1 t1 open2 t2 argv
      = main fmt libc ops open1 (seen stat t1 false).1 open2
          (seen stat t2 (seen stat t1 false).2).1 argv := by
  have hl := CreateFileListStat_seen stat fmt libc open1 t1 open2 t2
    (initBuild (argv.getD 1 []) (argv.getD 2 [])) false
  unfold mainStat main
  by_cases hargs : argv.length < 3
  · rw [if_pos hargs, if_pos hargs]
  · rw [if_neg hargs, if_neg hargs]
    exact congrArg (fun x => match x with
      | none => none
      | some (Result, b1) =>
          if Result ≠ 0 then some (1, none)
          else
            match CreateFileSystemImage fmt ops b1 with
            | none => none
            | some (Result2, _, out) =>
                if Result2 ≠ 0 then some (1, out) else some (0, out)) hl

/-- The loop body returns 0 only when every operation it checks succeeded:
the output position is known, the source file opens, both seeks succeed and
its size is known and, when the file has bytes, the read buffer is large
enough or `realloc` grows it, `fread` succeeds and `fwrite` accepts all the
bytes.  So a failure of any of them makes the body jump to `Error`. -/
theorem writeEntry_zero (ops : FileOps) (root buffer : List Nat) (fbp : Nat)
    (e : SFileSystemEntry) (out : OutFile) (bs : Nat)
    (h : (writeEntry ops root buffer fbp e out bs).1 = 0) :
    ¬ ftell out.pos < 0 ∧
    ∃ content, ops.fopenSrc (srcPath root buffer fbp e) = some content ∧
      ops.fseekEnd (srcPath root buffer fbp e) = true ∧
      ¬ ftell content.length < 0 ∧
      ops.fseekSet (srcPath root buffer fbp e) = true ∧
      (ftell content.length > 0 →
        ¬ (ftell content.length > (bs : Int) ∧
            ops.reallocOk (ftell content.length).toNat = false) ∧
        ops.freadOk (srcPath root buffer fbp e) = true ∧
        (fwrite ops out (content.take (ftell content.length).toNat)).1 = 1) := by
  generalize hres : writeEntry ops root buffer fbp e out bs = res at h
  unfold writeEntry at hres
  simp only at hres
  split at hres
  · subst hres; simp at h
  · rename_i h1
    refine ⟨h1, ?_⟩
    split at hres
    · subst hres; simp at h
    · rename_i content hopen
      refine ⟨content, hopen, ?_⟩
      split at hres
      · subst hres; simp at h
      · rename_i h2
        split at hres
        · subst hres; simp at h
        · rename_i h3
          split at hres
          · subst hres; simp at h
          · rename_i h4
            refine ⟨by simpa using h2, h3, by simpa using h4, ?_⟩
            intro hpos
            split at hres
            · split at hres
              · subst hres; simp at h
              · rename_i h5
                split at hres
                · subst hres; simp at h
                · rename_i h6
                  split at hres
                  · subst hres; simp at h
                  · rename_i h7
                    exact ⟨h5, by simpa using h6, by simpa using h7⟩
            · rename_i h5
              exact absurd hpos h5

/-! ## Runs in which `stat` misses an entry -/

/-- C8 fails on the code: the root directory "www" holds the regular file
`g` and the empty directory `q`, and the process runs in a current directory
that holds a file `g` and nothing named `q`.  `stat("q")` fails, the buffer
`s` still holds the answer for `g`, and the scanner counts the directory `q`
as a file: it returns 0 with file count 2 and filename size 4, while the tree
has one entry that is not a directory and its name takes 2 bytes. -/
theorem C8_directory_counted :
    CountFilesInDirectoryTreeStat gStat [119, 119, 119] 0 true mixedTree false
      = (.ok (2, 4), false) ∧
    fileTotal mixedTree = 1 ∧ nameTotal 0 mixedTree = 2 ∧
    gStat [103] = some false ∧ gStat [113] = none ∧
    (seen gStat mixedTree false).1
      = .sub [46] true .done (.sub [46, 46] true .done
          (.file [103] [7] (.file [113] [] .done))) :=
  ⟨rfl, rfl, rfl, rfl, rfl, rfl⟩

/-- C2 fails on the code: on the unmodified root directory "www" that holds
the regular file `g` and the empty directory `q`, run from a current
directory that holds a file `g` and nothing named `q`, `_CreateFileList`
returns 0 with two entries; the strings read for them at index
`FilenameOffset - FilenameStartOffset` of the filename buffer are "g" and
"q", while the only file of the tree has the relative path "g": the name of
the directory `q` appears among the names. -/
theorem C2_directory_listed :
    CreateFileListStat gStat ffsFormat stdLibc true mixedTree true mixedTree sampleInit false
      = (some (0, mixedList), false) ∧
    mixedList.FileCount = 2 ∧ mixedList.FilenameStartOffset = 36 ∧
    mixedList.pFilenameBuffer = some [103, 0, 113, 0] ∧
    mixedList.pFileEntries = some
      [{ FilenameOffset := 36, FileBinaryOffset := 4294967295, FileBinarySize := 0 },
       { FilenameOffset := 38, FileBinaryOffset := 4294967295, FileBinarySize := 0 }] ∧
    [{ FilenameOffset := 36, FileBinaryOffset := 4294967295, FileBinarySize := 0 },
     { FilenameOffset := 38, FileBinaryOffset := 4294967295, FileBinarySize := 0 }].map
        (entryName [103, 0, 113, 0] 36) = [[103], [113]] ∧
    (relFiles [] mixedTree).map Prod.fst = [[103]] := by
  refine ⟨by decide, by decide, by decide, by decide, by decide, by decide, by decide⟩

/-- C9 fails on the code: on the unmodified root directory "www" that holds
the regular file `g` and the empty directory `q`, run from a current
directory that holds a file `g` and nothing named `q`, `_CreateFileList`
returns 0 and the filename buffer holds the 4 bytes 'g', NUL, 'q', NUL,
while the relative paths of the files of the tree, each followed by a NUL,
are the 2 bytes 'g', NUL: the buffer also holds the name of a directory. -/
theorem C9_directory_name_in_buffer :
    (CreateFileListStat gStat ffsFormat stdLibc true mixedTree true mixedTree sampleInit
      false).1 = some (0, mixedList) ∧
    mixedList.pFilenameBuffer = some [103, 0, 113, 0] ∧
    mixedList.FilenameBufferSize = 4 ∧
    (relFiles [] mixedTree).flatMap (fun f => f.1 ++ [0]) = [103, 0] ∧
    (visits [] mixedTree).map (fun v => v.1 ++ v.2) = [[103]] := by
  refine ⟨by decide, by decide, by decide, by decide, by decide⟩

/-- C6 fails on the code: the root directory of a drive holds the file
`a.txt` and the empty directory `lib`, the same in both passes, and the
current directory holds a directory `lib` and no `a.txt`.  The counting pass,
started with the zero-initialised buffer `s`, returns 0 with one file and 6
filename bytes, the exact totals of the tree, and leaves the S_IFDIR bit set
by the ".." of `lib`.  The populate pass finds the bit set when
`stat("a.txt")` fails, takes `a.txt` for a directory and returns 1 without
storing an entry; `_CreateFileList` returns 1. -/
theorem C6_populate_rejects_counted_tree :
    CountFilesInDirectoryTreeStat cwdStat [68, 58] 0 true driveTree false
      = (.ok (1, 6), true) ∧
    fileTotal driveTree = 1 ∧ nameTotal 0 driveTree = 6 ∧
    ffsFormat.entrySize * 1 < U32 ∧
    PopulateEntriesFromDirectoryTreeStat cwdStat
        (populateInput ffsFormat stdLibc 1 6 (initBuild [68, 58] [111]))
        [68, 58] [] true driveTree true
      = (some (1, populateInput ffsFormat stdLibc 1 6 (initBuild [68, 58] [111])), true) ∧
    (populateInput ffsFormat stdLibc 1 6 (initBuild [68, 58] [111])).FilesLeft = 1 ∧
    (populateInput ffsFormat stdLibc 1 6 (initBuild [68, 58] [111])).pCurrEntry = 0 ∧
    CreateFileListStat cwdStat ffsFormat stdLibc true driveTree true driveTree
        (initBuild [68, 58] [111]) false
      = (some (1, populateInput ffsFormat stdLibc 1 6 (initBuild [68, 58] [111])), true) := by
  refine ⟨rfl, rfl, rfl, by decide, by decide, rfl, rfl, by decide⟩

/-- C16 fails on the code: the scanner is run on the spec's example (`a.txt`
and `sub/b.txt`) from the root directory of the example, with root name ".".
Every directory of the tree can be opened and every composed path fits, yet
the scanner returns 1: `stat("b.txt")` fails because `b.txt` lies in `sub`,
the buffer `s` still holds the directory "..", and the scanner calls
`opendir` on the regular file `./sub/b.txt`. -/
theorem C16_regular_file_opened :
    CountFilesInDirectoryTreeStat rootStat [46] 0 true exampleTree false = (.error 1, true) ∧
    pathsFit [46] exampleTree = true ∧
    rootStat [98, 46, 116, 120, 116] = none ∧
    statDir rootStat true [98, 46, 116, 120, 116] = true ∧
    countLoopStat rootStat [46, 47, 115, 117, 98] 4
        (.sub [46] true .done (.sub [46, 46] true .done
          (.file [98, 46, 116, 120, 116] [] .done))) true 0 0
      = (.error 1, true) :=
  ⟨rfl, by decide, rfl, rfl, rfl⟩

/-! ## A zero-byte file behind a path that is cut short -/

set_option maxRecDepth 100000 in
/-- C13 fails on the code: below a root directory path of 1000 bytes that
holds "x"*22 (content: the byte 1) and the empty file "x"*30 the build
succeeds.  The second entry of the final table names "x"*30, whose source
file has no bytes, but it has `FileBinarySize` 1 and the image holds a byte
for it at its `FileBinaryOffset` 91: the path composed for it is cut to 1023
bytes by `snprintf` and names "x"*22, which is the file the writer opens. -/
theorem C13_empty_file_gets_bytes :
    BuildOk ffsFormat stdLibc (treeOps deepRoot hollowTree) true true hollowTree hollowTree
      (initBuild deepRoot [111]) deepList
      { deepList with pFileEntries := some longTable } (some longImage) ∧
    entryName (List.replicate 22 120 ++ [0] ++ List.replicate 30 120 ++ [0]) 36
        { FilenameOffset := 59, FileBinaryOffset := 4294967295, FileBinarySize := 0 }
      = List.replicate 30 120 ∧
    (treeOps deepRoot hollowTree).fopenSrc (deepRoot ++ [92] ++ List.replicate 30 120)
      = some [] ∧
    longTable[1]? = some { FilenameOffset := 59, FileBinaryOffset := 91, FileBinarySize := 1 } ∧
    longImage.data.length = 92 ∧ longImage.data.drop 91 = [1] ∧
    srcPath deepRoot (List.replicate 22 120 ++ [0] ++ List.replicate 30 120 ++ [0]) 36
        { FilenameOffset := 59, FileBinaryOffset := 4294967295, FileBinarySize := 0 }
      = deepRoot ++ [92] ++ List.replicate 22 120 := by
  refine ⟨⟨by decide, by decide⟩, by decide, by decide, by decide, by decide, by decide,
    by decide⟩

end Fsbld
